import Mathlib

/-!
# rn2483-loader: Intel HEX parser and bootloader protocol

A shallow embedding of `intel-hex.c`, `uart-bootloader.c` and
`bootloader-commands.h`, followed by theorems about the embedded functions.

Conventions of the embedding
* A byte is a `Nat` below 256; wider machine integers are `Nat` with the
  reduction modulo `2^w` written out where the C type makes it happen.
* The serial port is the list of packets handed to `write(2)` so far
  (oldest first).  The device is a function from that history to its
  answer: `none` for a failed `write`/`read`, otherwise the stream of bytes
  the read loop collects (byte `i` of the stream is `f i`).
* A C function whose loop may not return carries a `fuel` argument and
  returns `none` as its value when the fuel is used up.
* A line of text is the list of the byte values of its characters.  The
  parser functions return an `Outcome`: `ok` for the return value 0, `fail`
  for -1, `fault` when the C code reads outside the payload it parsed.
* The bytes that `parse_intel_hex_file` reads below its line buffer when a
  line has fewer than two characters are an argument (`under`) of the
  embedding.
-/

namespace RN2483

/-! ## bootloader-commands.h -/

def RN_BOOTLOADER_MAGIC : Nat := 0x55
def RN_BOOTLOADER_KEY_ONE : Nat := 0x55
def RN_BOOTLOADER_KEY_TWO : Nat := 0xAA
def RN_BOOTLOADER_MAX_LENGTH : Nat := 0xFF

def RN_BOOTLOADER_CMD_GET_VERSION : Nat := 0x00
def RN_BOOTLOADER_CMD_WRITE : Nat := 0x02
def RN_BOOTLOADER_CMD_ERASE : Nat := 0x03
def RN_BOOTLOADER_CMD_CHECKSUM : Nat := 0x08
def RN_BOOTLOADER_CMD_RESET : Nat := 0x09

def RN_BOOTLOADER_STATUS_FAILED : Nat := 0
def RN_BOOTLOADER_STATUS_SUCCESS : Nat := 1

/-- Size in bytes of the packed `struct rn_bootloader_cmd_base` (and of the
fixed part of `struct rn_bootloader_cmd_pkt`): magic, command, length (2),
key_one, key_two, address (4). -/
def sizeof_cmd_base : Nat := 1 + 1 + 2 + 1 + 1 + 4

/-- Size of the packed `struct rn_bootloader_rsp_status`: echoed command and
one status byte. -/
def sizeof_rsp_status : Nat := sizeof_cmd_base + 1

/-- Fields of `struct rn_bootloader_rsp_version` after the echoed command,
in host byte order. -/
structure rn_bootloader_rsp_version where
  version : Nat
  max_packet_size : Nat
  ack_packet_size : Nat
  device_id : Nat
  RESERVED : Nat
  erase_row_size : Nat
  write_latch_size : Nat
  user_id_1 : Nat
  user_id_2 : Nat
  user_id_3 : Nat
  user_id_4 : Nat
deriving DecidableEq, Repr

/-! ## uart-bootloader.c -/

/-- One packet as handed to `write(2)`. -/
abbrev Packet := List Nat

/-- History of the packets written to the serial port, oldest first. -/
abbrev Log := List Packet

/-- The device at the other end of the serial port: from the history of
packets written (the current one last) to `none` when the transfer fails,
or to the stream of response bytes. -/
abbrev Device := Log → Option (Nat → Nat)

/-- The bytes of the `struct rn_bootloader_cmd_pkt` marshalled by
`rn_bootloader_do_command`, little-endian multi-byte fields, followed by
`length` bytes copied from `data` when `data` is not NULL.  A pointer is the
function from an offset to the byte stored there. -/
def marshal (command length key_one key_two address : Nat)
    (data : Option (Nat → Nat)) : Packet :=
  [RN_BOOTLOADER_MAGIC, command % 256,
   length % 256, length / 256 % 256,
   key_one % 256, key_two % 256,
   address % 256, address / 256 % 256, address / 65536 % 256,
   address / 16777216 % 256] ++
  (match data with
   | none => []
   | some d => (List.range length).map d)

/-- Embedding of `rn_bootloader_do_command`.  The result is `none` for the
return value -1 and `some response` for 0, where `response` holds the
`response_length` bytes read; the second component is the port history. -/
def rn_bootloader_do_command (dev : Device) (log : Log)
    (command length key_one key_two address : Nat) (data : Option (Nat → Nat))
    (response_length : Nat) : Option (List Nat) × Log :=
  if length > RN_BOOTLOADER_MAX_LENGTH then
    (none, log)
  else
    let log1 := log ++ [marshal command length key_one key_two address data]
    match dev log1 with
    | none => (none, log1)
    | some f => (some ((List.range response_length).map f), log1)

/-- Field `status` of a `struct rn_bootloader_rsp_status` held as bytes. -/
def rsp_status (response : List Nat) : Nat :=
  response.getD sizeof_cmd_base 0

/-- The `while (remaining_blocks)` loop of `rn_bootloader_erase`. -/
def erase_loop (dev : Device) (start_address total_blocks erase_row_size : Nat) :
    Nat → Nat → Log → Option Int × Log
  | 0, _, log => (none, log)
  | fuel + 1, remaining_blocks, log =>
    if remaining_blocks ≠ 0 then
      let blocks := if remaining_blocks > 256 then 256 else remaining_blocks
      let address :=
        (start_address + (total_blocks - remaining_blocks) * erase_row_size) % 2 ^ 32
      match rn_bootloader_do_command dev log RN_BOOTLOADER_CMD_ERASE
          (if blocks = 256 then 0 else blocks) RN_BOOTLOADER_KEY_ONE
          RN_BOOTLOADER_KEY_TWO address none sizeof_rsp_status with
      | (none, log1) => (some (-1), log1)
      | (some response, log1) =>
        if rsp_status response ≠ RN_BOOTLOADER_STATUS_SUCCESS then
          (some (-1), log1)
        else
          erase_loop dev start_address total_blocks erase_row_size fuel
            (remaining_blocks - blocks) log1
    else
      (some 0, log)

/-- Embedding of `rn_bootloader_erase`.  The value is `none` when the C
function does not return: division by an `erase_row_size` of zero, or fuel
used up. -/
def rn_bootloader_erase (fuel : Nat) (dev : Device) (log : Log)
    (start_address length : Nat) (version : rn_bootloader_rsp_version) :
    Option Int × Log :=
  if version.erase_row_size = 0 then
    (none, log)
  else
    erase_loop dev start_address (length / version.erase_row_size)
      version.erase_row_size fuel (length / version.erase_row_size) log

/-- The `while (bytes_written < length)` loop of `rn_bootloader_write`;
`bytes_written` is a `uint16_t`, the address a `uint32_t`. -/
def write_loop (dev : Device) (address length : Nat) (data : Nat → Nat)
    (write_latch_size : Nat) : Nat → Nat → Log → Option Int × Log
  | 0, _, log => (none, log)
  | fuel + 1, bytes_written, log =>
    if bytes_written < length then
      let nbytes := if length > write_latch_size then write_latch_size else length
      match rn_bootloader_do_command dev log RN_BOOTLOADER_CMD_WRITE nbytes
          RN_BOOTLOADER_KEY_ONE RN_BOOTLOADER_KEY_TWO
          ((address + bytes_written) % 2 ^ 32)
          (some (fun i => data (bytes_written + i))) sizeof_rsp_status with
      | (none, log1) => (some (-1), log1)
      | (some response, log1) =>
        if rsp_status response ≠ RN_BOOTLOADER_STATUS_SUCCESS then
          (some (-1), log1)
        else
          write_loop dev address length data write_latch_size fuel
            ((bytes_written + nbytes) % 2 ^ 16) log1
    else
      (some 0, log)

/-- Embedding of `rn_bootloader_write`.  `data` is the pointer argument:
`data i` is the byte stored `i` bytes after it, of which the first `length`
belong to the caller's buffer. -/
def rn_bootloader_write (fuel : Nat) (dev : Device) (log : Log)
    (address length : Nat) (data : Nat → Nat)
    (version : rn_bootloader_rsp_version) : Option Int × Log :=
  write_loop dev address length data version.write_latch_size fuel 0 log

/-- Size of the packed `struct rn_bootloader_rsp_version`. -/
def sizeof_rsp_version : Nat := sizeof_cmd_base + 2 + 2 + 2 + 2 + 2 + 1 + 1 + 1 + 1 + 1 + 1

/-- Size of the packed `struct rn_bootloader_rsp_checksum`. -/
def sizeof_rsp_checksum : Nat := sizeof_cmd_base + 2

/-- `LE_TO_HOST_16` of a 16-bit field whose first byte in the buffer is `b0`
and whose second byte is `b1`. -/
def le_to_host_16 (b0 b1 : Nat) : Nat := b0 % 256 + 256 * (b1 % 256)

/-- Embedding of `rn_bootloader_get_version_info`: `none` for the return
value -1, otherwise the version structure with its 16-bit fields in host
order.  Allocation and release of the structure are not part of the
embedding. -/
def rn_bootloader_get_version_info (dev : Device) (log : Log) :
    Option rn_bootloader_rsp_version × Log :=
  match rn_bootloader_do_command dev log RN_BOOTLOADER_CMD_GET_VERSION 0 0 0 0 none
      sizeof_rsp_version with
  | (none, log1) => (none, log1)
  | (some response, log1) =>
    (some { version := le_to_host_16 (response.getD 10 0) (response.getD 11 0),
            max_packet_size := le_to_host_16 (response.getD 12 0) (response.getD 13 0),
            ack_packet_size := le_to_host_16 (response.getD 14 0) (response.getD 15 0),
            device_id := le_to_host_16 (response.getD 16 0) (response.getD 17 0),
            RESERVED := le_to_host_16 (response.getD 18 0) (response.getD 19 0),
            erase_row_size := response.getD 20 0 % 256,
            write_latch_size := response.getD 21 0 % 256,
            user_id_1 := response.getD 22 0 % 256,
            user_id_2 := response.getD 23 0 % 256,
            user_id_3 := response.getD 24 0 % 256,
            user_id_4 := response.getD 25 0 % 256 }, log1)

/-- Embedding of `rn_bootloader_get_version`. -/
def rn_bootloader_get_version (version : rn_bootloader_rsp_version) : Int :=
  (version.version : Int)

/-- Embedding of `rn_bootloader_get_device_id`. -/
def rn_bootloader_get_device_id (version : rn_bootloader_rsp_version) : Int :=
  (version.device_id : Int)

/-- Embedding of `rn_bootloader_get_write_size`. -/
def rn_bootloader_get_write_size (version : rn_bootloader_rsp_version) : Int :=
  (version.write_latch_size : Int)

/-- Embedding of `rn_bootloader_checksum`: `none` for the return value -1,
otherwise the value stored in `*checksum`. -/
def rn_bootloader_checksum (dev : Device) (log : Log) (address length : Nat) :
    Option Nat × Log :=
  match rn_bootloader_do_command dev log RN_BOOTLOADER_CMD_CHECKSUM length 0 0 address none
      sizeof_rsp_checksum with
  | (none, log1) => (none, log1)
  | (some response, log1) =>
    (some (le_to_host_16 (response.getD 10 0) (response.getD 11 0)), log1)

/-- Embedding of `rn_bootloader_reset`: the return value and the port
history. -/
def rn_bootloader_reset (dev : Device) (log : Log) : Int × Log :=
  match rn_bootloader_do_command dev log RN_BOOTLOADER_CMD_RESET 0 0 0 0 none 0 with
  | (none, log1) => (-1, log1)
  | (some _, log1) => (0, log1)

/-- The `for (uint8_t i = 0; i < length; i += 2)` loop of
`rn_bootloader_calc_checksum`; `i` is a `uint8_t`, `sum` and `n` are
`uint16_t`.  The two bytes of `n` are stored through a `uint8_t` pointer:
byte 0 is the low byte on the little-endian hosts the program is built for. -/
def calc_checksum_loop (data : Nat → Nat) (length : Nat) : Nat → Nat → Nat → Option Nat
  | 0, _, _ => none
  | fuel + 1, i, sum =>
    if i < length then
      let n := data i % 256 + 256 * ((if i + 1 < length then data (i + 1) else 0xff) % 256)
      calc_checksum_loop data length fuel ((i + 2) % 2 ^ 8) ((sum + n) % 2 ^ 16)
    else
      some sum

/-- Embedding of `rn_bootloader_calc_checksum`; `none` when the fuel is used
up before the loop ends. -/
def rn_bootloader_calc_checksum (fuel : Nat) (data : Nat → Nat) (length : Nat) : Option Nat :=
  calc_checksum_loop data length fuel 0 0

/-- The value of `n` after `data[2k]` and `data[2k + 1]` are stored in its
bytes 0 and 1 (little-endian host). -/
def config_word (data : Nat → Nat) (k : Nat) : Nat :=
  data (2 * k) % 256 + 256 * (data (2 * k + 1) % 256)

/-- Embedding of `rn_bootloader_calc_config_checksum`; `sum` is a
`uint16_t`. -/
def rn_bootloader_calc_config_checksum (data : Nat → Nat) : Nat :=
  let sum0 := 0
  let sum1 := (sum0 + (config_word data 0 &&& 0xFF00)) % 2 ^ 16
  let sum2 := (sum1 + (config_word data 1 &&& 0x3F1F)) % 2 ^ 16
  let sum3 := (sum2 + (config_word data 2 &&& 0xBF00)) % 2 ^ 16
  let sum4 := (sum3 + (config_word data 3 &&& 0x00C5)) % 2 ^ 16
  let sum5 := (sum4 + (config_word data 4 &&& 0xC00F)) % 2 ^ 16
  let sum6 := (sum5 + (config_word data 5 &&& 0xE00F)) % 2 ^ 16
  let sum7 := (sum6 + (config_word data 6 &&& 0x400F)) % 2 ^ 16
  sum7

/-! ### Reading a marshalled command back -/

/-- Length field of a marshalled command packet. -/
def pkt_length (p : Packet) : Nat := p.getD 2 0 + 256 * p.getD 3 0

/-- Address field of a marshalled command packet. -/
def pkt_address (p : Packet) : Nat :=
  p.getD 6 0 + 256 * p.getD 7 0 + 65536 * p.getD 8 0 + 16777216 * p.getD 9 0

/-- Payload bytes that follow the header of a marshalled command packet. -/
def pkt_payload (p : Packet) : List Nat := p.drop sizeof_cmd_base

/-- A device that answers every command with status success. -/
def AlwaysSuccess (dev : Device) : Prop :=
  ∀ log, ∃ f, dev log = some f ∧ f sizeof_cmd_base = RN_BOOTLOADER_STATUS_SUCCESS

/-- The device whose every answer is an all-zero echo followed by status 1. -/
def success_device : Device :=
  fun _ => some (fun i => if i = sizeof_cmd_base then 1 else 0)

/-- Version information with the given erase row and write latch sizes. -/
def version_with (erase_row_size write_latch_size : Nat) : rn_bootloader_rsp_version :=
  { version := 0, max_packet_size := 0, ack_packet_size := 0, device_id := 0,
    RESERVED := 0, erase_row_size := erase_row_size,
    write_latch_size := write_latch_size,
    user_id_1 := 0, user_id_2 := 0, user_id_3 := 0, user_id_4 := 0 }

/-! ## intel-hex.c -/

def INTEL_HEX_RECORD_TYPE_MAX : Nat := 0x05
def INTEL_HEX_RECORD_DATA : Nat := 0x00
def INTEL_HEX_RECORD_EOF : Nat := 0x01
def INTEL_HEX_RECORD_EXT_SEG_ADDR : Nat := 0x02
def INTEL_HEX_RECORD_START_SEG_ADDR : Nat := 0x03
def INTEL_HEX_RECORD_EXT_LIN_ADDR : Nat := 0x04
def INTEL_HEX_RECORD_START_LIN_ADDR : Nat := 0x05

/-- Embedding of `struct intel_hex_record`; the `next` pointer is the tail
of the list that holds the record. -/
structure intel_hex_record where
  data : List Nat
  address : Nat
  length : Nat
deriving DecidableEq, Repr

/-- Embedding of `struct intel_hex_file`; `head` is the linked list of
records in link order, `start_addr` the union of `start_segment_addr` and
`start_linear_addr`. -/
structure intel_hex_file where
  head : List intel_hex_record
  num_records : Nat
  start_addr : Nat
  ext_linear_addr : Nat
  ext_segment_addr : Nat
  has_eof : Nat
deriving DecidableEq, Repr

/-- Result of a C function that returns 0 or -1: `ok` for 0 together with
the state it leaves, `fail` for -1, and `fault` when the function reads
outside the object it was given and has no defined result. -/
inductive Outcome (α : Type) where
  | ok (a : α)
  | fail
  | fault
deriving DecidableEq, Repr

/-- Embedding of `parse_nibble`: `none` for -1, otherwise the new value of
`*dest`.  `c` is the byte value of the character; `char` is taken as signed
(an unsigned `char` gives the same results: bytes from 128 on are rejected by
the later comparisons). -/
def parse_nibble (c : Nat) (dest : Nat) (offset : Nat) : Option Nat :=
  let c0 : Int := if c < 128 then (c : Int) else (c : Int) - 256
  if c0 < 48 then
    none
  else
    let c1 : Int := if c0 ≥ 97 then c0 - 32 else c0
    let c2 : Int := c1 - 48
    if c2 ≤ 9 then
      some ((dest ||| (c2.toNat <<< offset)) % 256)
    else
      let c3 : Int := c2 - 7
      if c3 ≤ 9 then
        none
      else if c3 ≤ 15 then
        some ((dest ||| (c3.toNat <<< offset)) % 256)
      else
        none

/-- Characters for which `isspace` holds in the C locale. -/
def isspace (c : Nat) : Bool := c = 32 || (9 ≤ c && c ≤ 13)

/-- Value of a character as a digit in base 16, as `strtol` reads it. -/
def hex_digit (c : Nat) : Option Nat :=
  if 48 ≤ c ∧ c ≤ 57 then some (c - 48)
  else if 65 ≤ c ∧ c ≤ 70 then some (c - 55)
  else if 97 ≤ c ∧ c ≤ 102 then some (c - 87)
  else none

/-- The digit loop of `strtol`: consumes base-16 digits, returns the value
and the characters left. -/
def strtol_digits : List Nat → Int → Int × List Nat
  | [], acc => (acc, [])
  | c :: cs, acc =>
    match hex_digit c with
    | some d => strtol_digits cs (acc * 16 + (d : Int))
    | none => (acc, c :: cs)

/-- The C library function `strtol(s, &end, 16)` on the characters of a
NUL-terminated string: white space is skipped, a sign and a `0x`/`0X`
introducer are optional, then come the digits.  Returns the value and the
characters from `*end` on; with no digit the value is 0 and `end` is the
start of the string.  The strings of this program have at most four
characters, so the value never leaves the range of `long`. -/
def strtol16 (s : List Nat) : Int × List Nat :=
  let s1 := s.dropWhile isspace
  let neg : Bool := s1.head? = some 45
  let s2 := if s1.head? = some 45 ∨ s1.head? = some 43 then s1.tail else s1
  let s3 :=
    if s2.head? = some 48 ∧ (s2.tail.head? = some 120 ∨ s2.tail.head? = some 88) ∧
        ((s2.tail.tail.head?.bind hex_digit).isSome) then
      s2.tail.tail
    else s2
  if (s3.head?.bind hex_digit).isSome then
    let r := strtol_digits s3 0
    (if neg then -r.1 else r.1, r.2)
  else
    (0, s)

/-- A field read with `strtol(tmp, &end, 16)` followed by the test
`*end != '\0'`: `none` when that test rejects the field. -/
def strtol_field (tmp : List Nat) : Option Int :=
  if (strtol16 tmp).2 = [] then some (strtol16 tmp).1 else none

/-- Conversion of a `long` to `uint8_t`. -/
def to_uint8 (v : Int) : Nat := (v % 256).toNat

/-- Conversion of a `long` to `uint16_t`. -/
def to_uint16 (v : Int) : Nat := (v % 65536).toNat

/-- The loop that fills `data`: `parse_data line n i` parses `n` bytes
starting with byte `i`, `none` when a nibble is rejected. -/
def parse_data (line : List Nat) : Nat → Nat → Option (List Nat)
  | 0, _ => some []
  | n + 1, i =>
    match parse_nibble (line.getD (9 + 2 * i) 0) 0 4 with
    | none => none
    | some d1 =>
      match parse_nibble (line.getD (9 + 2 * i + 1) 0) d1 0 with
      | none => none
      | some d =>
        match parse_data line n (i + 1) with
        | none => none
        | some ds => some (d :: ds)

/-- The local variables of `parse_record` once every check has passed. -/
structure record_fields where
  length : Nat
  address : Nat
  type : Nat
  checksum : Nat
  data : List Nat
deriving DecidableEq, Repr

/-- The `uint8_t sum` of the checksum verification. -/
def record_sum (length type address checksum : Nat) (data : List Nat) : Nat :=
  data.foldl (fun sum d => (sum + d) % 256)
    ((length + type + (address % 256) + (address / 256 % 256) + checksum) % 256)

/-- First part of `parse_record`, up to and including the checksum
verification: `none` when the function returns -1, otherwise the parsed
fields. -/
def check_record (line : List Nat) : Option record_fields :=
  let line_length := line.length
  if line.getD 0 0 ≠ 58 then none
  else if line_length < 11 then none
  else
    match strtol_field [line.getD 1 0, line.getD 2 0] with
    | none => none
    | some v1 =>
      let length := to_uint8 v1
      if line_length ≠ length * 2 + 11 then none
      else
        match strtol_field [line.getD 3 0, line.getD 4 0, line.getD 5 0, line.getD 6 0] with
        | none => none
        | some v2 =>
          let address := to_uint16 v2
          match strtol_field [line.getD 7 0, line.getD 8 0] with
          | none => none
          | some v3 =>
            let type := to_uint8 v3
            if type > INTEL_HEX_RECORD_TYPE_MAX then none
            else
              match strtol_field [line.getD (line_length - 2) 0,
                                  line.getD (line_length - 1) 0] with
              | none => none
              | some v4 =>
                let checksum := to_uint8 v4
                match parse_data line length 0 with
                | none => none
                | some data =>
                  if record_sum length type address checksum data ≠ 0 then none
                  else some { length := length, address := address, type := type,
                              checksum := checksum, data := data }

/-- Second part of `parse_record`, the `switch (type)`.  The argument
`record` of the C function always points to the empty link at the end of the
list, so storing the new record through it appends to `head`.  Reading
`data[i]` at or beyond `length` is a `fault`. -/
def handle_record (r : record_fields) (file : intel_hex_file) : Outcome intel_hex_file :=
  if r.type = INTEL_HEX_RECORD_DATA then
    Outcome.ok { file with
      head := file.head ++
        [{ data := r.data,
           address := ((r.address + file.ext_segment_addr * 16) |||
                       (file.ext_linear_addr <<< 16)) % 2 ^ 32,
           length := r.length }],
      num_records := file.num_records + 1 }
  else if r.type = INTEL_HEX_RECORD_EOF then
    Outcome.ok { file with has_eof := 1 }
  else if r.type = INTEL_HEX_RECORD_EXT_SEG_ADDR then
    match r.data with
    | d0 :: d1 :: _ =>
      Outcome.ok { file with ext_segment_addr := ((d0 <<< 8) ||| d1) % 2 ^ 16 }
    | _ => Outcome.fault
  else if r.type = INTEL_HEX_RECORD_START_SEG_ADDR then
    match r.data with
    | d0 :: d1 :: d2 :: d3 :: _ =>
      Outcome.ok { file with
        start_addr := ((d0 <<< 24) ||| (d1 <<< 16) ||| (d2 <<< 8) ||| d3) % 2 ^ 32 }
    | _ => Outcome.fault
  else if r.type = INTEL_HEX_RECORD_EXT_LIN_ADDR then
    match r.data with
    | d0 :: d1 :: _ =>
      Outcome.ok { file with ext_linear_addr := ((d0 <<< 8) ||| d1) % 2 ^ 16 }
    | _ => Outcome.fault
  else if r.type = INTEL_HEX_RECORD_START_LIN_ADDR then
    match r.data with
    | d0 :: d1 :: d2 :: d3 :: _ =>
      Outcome.ok { file with
        start_addr := ((d0 <<< 24) ||| (d1 <<< 16) ||| (d2 <<< 8) ||| d3) % 2 ^ 32 }
    | _ => Outcome.fault
  else
    Outcome.ok file

/-- Embedding of `parse_record`: `line` holds the characters of the C string
(without the terminating NUL). -/
def parse_record (line : List Nat) (file : intel_hex_file) : Outcome intel_hex_file :=
  match check_record line with
  | none => Outcome.fail
  | some r => handle_record r file

/-- The `struct intel_hex_file` as `calloc` returns it. -/
def calloc_file : intel_hex_file :=
  { head := [], num_records := 0, start_addr := 0, ext_linear_addr := 0,
    ext_segment_addr := 0, has_eof := 0 }

/-- The successive results of `fgets(line, size, f)` on a stream holding
`f`: each piece ends after a line feed, after `size - 1` characters or at
the end of the stream.  `cur` holds the characters of the piece being read. -/
def fgets_pieces (size : Nat) : List Nat → List Nat → List (List Nat)
  | cur, [] => if cur = [] then [] else [cur]
  | cur, c :: rest =>
    if c = 10 ∨ cur.length + 2 = size then
      (cur ++ [c]) :: fgets_pieces size [] rest
    else
      fgets_pieces size (cur ++ [c]) rest

/-- The C string held by a buffer: the characters before the first NUL. -/
def c_string (buf : List Nat) : List Nat := buf.takeWhile (fun c => c ≠ 0)

/-- The character `line[strlen(line) - k]` for `k` = 1 or 2.  When the
string is shorter than `k` the index is negative and the byte comes from
below the buffer: `under.1` stands at `line[-2]`, `under.2` at `line[-1]`. -/
def char_from_end (under : Nat × Nat) (line : List Nat) (k : Nat) : Nat :=
  if k ≤ line.length then line.getD (line.length - k) 0
  else if k - line.length = 2 then under.1
  else under.2

/-- The trimming step of `parse_intel_hex_file` on the C string `line`.  A
NUL stored at a negative index does not change the string and is not
recorded. -/
def trim_line (under : Nat × Nat) (line : List Nat) : List Nat :=
  if char_from_end under line 2 = 10 ∨ char_from_end under line 2 = 13 then
    if 2 ≤ line.length then line.take (line.length - 2) else line
  else if char_from_end under line 1 = 10 ∨ char_from_end under line 1 = 13 then
    if 1 ≤ line.length then line.take (line.length - 1) else line
  else line

/-- The strings seen by the loop body after trimming, one per piece;
`under k` gives the two bytes below the buffer when piece `k` is trimmed. -/
def trim_pieces (under : Nat → Nat × Nat) : Nat → List (List Nat) → List (List Nat)
  | _, [] => []
  | k, p :: ps => trim_line (under k) (c_string p) :: trim_pieces under (k + 1) ps

/-- The trimmed lines of a file, in reading order. -/
def read_lines (under : Nat → Nat × Nat) (contents : List Nat) : List (List Nat) :=
  trim_pieces under 0 (fgets_pieces 256 [] contents)

/-- The body of the `while (fgets ...)` loop from the empty-line test on,
run over the trimmed lines. -/
def parse_lines : intel_hex_file → List (List Nat) → Outcome intel_hex_file
  | file, [] => Outcome.ok file
  | file, line :: rest =>
    if line.getD 0 0 = 0 then
      parse_lines file rest
    else if file.has_eof ≠ 0 then
      Outcome.fail
    else
      match parse_record line file with
      | Outcome.ok file1 => parse_lines file1 rest
      | Outcome.fail => Outcome.fail
      | Outcome.fault => Outcome.fault

/-- Embedding of `parse_intel_hex_file` on a file that could be opened, with
contents `contents`. -/
def parse_intel_hex_file (under : Nat → Nat × Nat) (contents : List Nat) :
    Outcome intel_hex_file :=
  match parse_lines calloc_file (read_lines under contents) with
  | Outcome.ok file => if file.has_eof = 0 then Outcome.fail else Outcome.ok file
  | Outcome.fail => Outcome.fail
  | Outcome.fault => Outcome.fault

/-- Embedding of `intel_hex_get_first_record`: a record pointer is the list
that starts at the record, NULL the empty list. -/
def intel_hex_get_first_record (file : intel_hex_file) : List intel_hex_record :=
  file.head

/-- Embedding of `intel_hex_get_next_record`: the values stored through
`data`, `address` and `length`, and the returned pointer; `none` when
`record` is NULL. -/
def intel_hex_get_next_record (record : List intel_hex_record) :
    Option (List Nat × Nat × Nat × List intel_hex_record) :=
  match record with
  | [] => none
  | r :: next => some (r.data, r.address, r.length, next)

/-- Embedding of `intel_hex_num_records`. -/
def intel_hex_num_records (file : intel_hex_file) : Nat := file.num_records

/-- The characters of a string as byte values. -/
def bytes (s : String) : List Nat := s.toList.map Char.toNat

/-! ## main.c -/

/-- State of a run of `download_firmware` when it stops or when one of its
loops ends: `ret` is the value returned (`none` when the function does not
return: failed `assert`, division by zero, fuel used up), `log` the port
history, `records_complete` the counter of the loop and `progress` the
percentages passed to `print_progress` so far. -/
structure phase_result where
  ret : Option Int
  log : Log
  records_complete : Nat
  progress : List Nat
deriving DecidableEq

/-- The pointer `data` of record number `k`: the bytes of the record and,
beyond its end, whatever `beyond k` holds. -/
def record_ptr (beyond : Nat → Nat → Nat) (k : Nat) (r : intel_hex_record) : Nat → Nat :=
  fun i => if i < r.data.length then r.data.getD i 0 else beyond k i

/-- The locally computed checksum of the verify loop (`calc_checksum` in
`download_firmware`): the configuration row at `0x300000` is handled by
`rn_bootloader_calc_config_checksum` after `assert(length == 14)`, every
other address by `rn_bootloader_calc_checksum`.  `none` when the assertion
fails or the checksum loop does not end. -/
def verify_calc_checksum (fuel : Nat) (address length : Nat) (data : Nat → Nat) : Option Nat :=
  if address = 0x300000 then
    if length = 14 then some (rn_bootloader_calc_config_checksum data) else none
  else
    rn_bootloader_calc_checksum fuel data length

/-- The write loop of `download_firmware` over the records from `record` on
(`intel_hex_get_next_record` yields the head of the list and moves to its
tail). -/
def write_phase (fuel : Nat) (dev : Device) (version : rn_bootloader_rsp_version)
    (total_records : Nat) (beyond : Nat → Nat → Nat) :
    List intel_hex_record → Nat → Log → List Nat → phase_result
  | [], records_complete, log, progress =>
    { ret := some 0, log := log, records_complete := records_complete, progress := progress }
  | r :: next, records_complete, log, progress =>
    if total_records = 0 then
      { ret := none, log := log, records_complete := records_complete, progress := progress }
    else
      let progress1 := progress ++ [(100 * records_complete) / total_records]
      match rn_bootloader_write fuel dev log r.address r.length
          (record_ptr beyond records_complete r) version with
      | (some 0, log1) =>
        write_phase fuel dev version total_records beyond next (records_complete + 1) log1
          progress1
      | (some _, log1) =>
        { ret := some (-1), log := log1, records_complete := records_complete,
          progress := progress1 }
      | (none, log1) =>
        { ret := none, log := log1, records_complete := records_complete,
          progress := progress1 }

/-- The verify loop of `download_firmware` over the records from `record`
on. -/
def verify_phase (fuel : Nat) (dev : Device) (total_records : Nat)
    (beyond : Nat → Nat → Nat) :
    List intel_hex_record → Nat → Log → List Nat → phase_result
  | [], records_complete, log, progress =>
    { ret := some 0, log := log, records_complete := records_complete, progress := progress }
  | r :: next, records_complete, log, progress =>
    if total_records = 0 then
      { ret := none, log := log, records_complete := records_complete, progress := progress }
    else
      let progress1 := progress ++ [(100 * records_complete) / total_records]
      match rn_bootloader_checksum dev log r.address r.length with
      | (none, log1) =>
        { ret := some (-1), log := log1, records_complete := records_complete,
          progress := progress1 }
      | (some checksum, log1) =>
        match verify_calc_checksum fuel r.address r.length
            (record_ptr beyond records_complete r) with
        | none =>
          { ret := none, log := log1, records_complete := records_complete,
            progress := progress1 }
        | some calc_checksum =>
          if checksum ≠ calc_checksum then
            { ret := some (-1), log := log1, records_complete := records_complete,
              progress := progress1 }
          else
            verify_phase fuel dev total_records beyond next (records_complete + 1) log1
              progress1

/-- Result of `download_firmware`: the return value (`none` when it does not
return), the port history, the value of `records_complete` when the write
loop and the verify loop were left, and the percentages printed. -/
structure download_result where
  ret : Option Int
  log : Log
  write_complete : Nat
  verify_complete : Nat
  progress : List Nat
deriving DecidableEq

/-- Embedding of `download_firmware`; `log` is the port history when it is
called. -/
def download_firmware (fuel : Nat) (dev : Device) (log : Log) (hex : intel_hex_file)
    (beyond : Nat → Nat → Nat) : download_result :=
  match rn_bootloader_get_version_info dev log with
  | (none, log1) =>
    { ret := some (-1), log := log1, write_complete := 0, verify_complete := 0,
      progress := [] }
  | (some version, log1) =>
    match rn_bootloader_erase fuel dev log1 0x300 (0x10000 - 0x300) version with
    | (none, log2) =>
      { ret := none, log := log2, write_complete := 0, verify_complete := 0, progress := [] }
    | (some 0, log2) =>
      let w := write_phase fuel dev version (intel_hex_num_records hex) beyond
        (intel_hex_get_first_record hex) 0 log2 []
      match w.ret with
      | some 0 =>
        let v := verify_phase fuel dev (intel_hex_num_records hex) beyond
          (intel_hex_get_first_record hex) 0 w.log (w.progress ++ [100])
        match v.ret with
        | some 0 =>
          match rn_bootloader_reset dev v.log with
          | (0, log4) =>
            { ret := some 0, log := log4, write_complete := w.records_complete,
              verify_complete := v.records_complete, progress := v.progress ++ [100] }
          | (_, log4) =>
            { ret := some (-1), log := log4, write_complete := w.records_complete,
              verify_complete := v.records_complete, progress := v.progress ++ [100] }
        | other =>
          { ret := other, log := v.log, write_complete := w.records_complete,
            verify_complete := v.records_complete, progress := v.progress }
      | other =>
        { ret := other, log := w.log, write_complete := w.records_complete,
          verify_complete := 0, progress := w.progress }
    | (some _, log2) =>
      { ret := some (-1), log := log2, write_complete := 0, verify_complete := 0,
        progress := [] }

/-! ## Specification-side definitions used by the statements -/

/-- Row counts of the erase commands for `total` rows: at most 256 rows per
command, taken in order. -/
def erase_rows (total : Nat) : List Nat :=
  (List.range ((total + 255) / 256)).map (fun k => min 256 (total - 256 * k))

/-- The value written in the length field for a row count. -/
def erase_field (rows : Nat) : Nat := if rows = 256 then 0 else rows

/-- Hexadecimal digits `0-9`, `A-F`, `a-f`. -/
def is_hex_char (c : Nat) : Bool :=
  (48 ≤ c && c ≤ 57) || (65 ≤ c && c ≤ 70) || (97 ≤ c && c ≤ 102)

/-- Value of a hexadecimal digit. -/
def hex_value (c : Nat) : Nat :=
  if c ≤ 57 then c - 48 else if c ≤ 70 then c - 55 else c - 87

/-- The byte written as the two hexadecimal digits `hi lo`. -/
def hex_byte (hi lo : Nat) : Nat := 16 * hex_value hi + hex_value lo

/-- The bytes written as consecutive pairs of hexadecimal digits. -/
def hex_bytes : List Nat → List Nat
  | hi :: lo :: rest => hex_byte hi lo :: hex_bytes rest
  | _ => []

/-- The value `parse_record` decodes for byte `k` of a line, counting the
bytes after the colon from 0: the length field, the high and the low byte of
the address, the type, the payload bytes and, at the last two characters, the
checksum; `none` when the characters of that field are rejected. -/
def byte_at (line : List Nat) (k : Nat) : Option Nat :=
  if k = 0 then
    (strtol_field [line.getD 1 0, line.getD 2 0]).map to_uint8
  else if k = 1 then
    (strtol_field [line.getD 3 0, line.getD 4 0, line.getD 5 0, line.getD 6 0]).map
      (fun v => to_uint16 v / 256 % 256)
  else if k = 2 then
    (strtol_field [line.getD 3 0, line.getD 4 0, line.getD 5 0, line.getD 6 0]).map
      (fun v => to_uint16 v % 256)
  else if k = 3 then
    (strtol_field [line.getD 7 0, line.getD 8 0]).map to_uint8
  else if 2 * k + 3 = line.length then
    (strtol_field [line.getD (line.length - 2) 0, line.getD (line.length - 1) 0]).map to_uint8
  else
    (parse_nibble (line.getD (2 * k + 1) 0) 0 4).bind
      (fun d1 => parse_nibble (line.getD (2 * k + 2) 0) d1 0)

/-- Record type of a line that passes every check of `parse_record`. -/
def record_type (line : List Nat) : Option Nat :=
  (check_record line).map (fun r => r.type)

/-- The 16-bit address field of a line that passes every check. -/
def line_address (line : List Nat) : Option Nat :=
  (check_record line).map (fun r => r.address)

/-- The lines that are Data records (type 00), in order. -/
def data_lines (lines : List (List Nat)) : List (List Nat) :=
  lines.filter (fun l => record_type l = some INTEL_HEX_RECORD_DATA)

/-- The traversal used by the callers: starting from `record`, call
`intel_hex_get_next_record` until the pointer is NULL and collect the
`(data, address, length)` it stores. -/
def walk_records : Nat → List intel_hex_record → List (List Nat × Nat × Nat)
  | 0, _ => []
  | fuel + 1, record =>
    match intel_hex_get_next_record record with
    | none => []
    | some (d, a, n, next) => (d, a, n) :: walk_records fuel next

/-- The bytes of an accepted record in line order: length, address high,
address low, type, payload, checksum. -/
def record_bytes (r : record_fields) : List Nat :=
  [r.length, r.address / 256 % 256, r.address % 256, r.type] ++ r.data ++ [r.checksum]

/-- Record `r` is what `parse_record` emits for the Data line `l` in some
file state: the payload and length of the line, and its address field
combined with an extended segment address `s` and an extended linear address
`lin`. -/
def emitted_from (r : intel_hex_record) (l : List Nat) : Prop :=
  ∃ c, check_record l = some c ∧ c.type = 0 ∧ r.data = c.data ∧ r.length = c.length ∧
    ∃ s lin, r.address = ((c.address + s * 16) ||| (lin <<< 16)) % 2 ^ 32

/-- The hexadecimal digit (upper case) for a value below 16. -/
def hex_char (x : Nat) : Nat := if x < 10 then 48 + x else 55 + x

/-- A byte written as two hexadecimal digits. -/
def hex2 (b : Nat) : List Nat := [hex_char (b / 16 % 16), hex_char (b % 16)]

/-- A 16-bit value written as four hexadecimal digits, high byte first. -/
def hex4 (a : Nat) : List Nat := hex2 (a / 256 % 256) ++ hex2 (a % 256)

/-- A byte sequence written as pairs of hexadecimal digits. -/
def hex_of_bytes : List Nat → List Nat
  | [] => []
  | b :: bs => hex2 b ++ hex_of_bytes bs

/-- The checksum byte of a Data record: the two's complement of the byte sum
of the length, the two address bytes, the type 00 and the payload. -/
def data_line_checksum (a : Nat) (d : List Nat) : Nat :=
  (256 - (d.length + a / 256 % 256 + a % 256 + d.sum) % 256) % 256

/-- The Data line (type 00) for the 16-bit address `a` and the payload `d`. -/
def encode_data_line (a : Nat) (d : List Nat) : List Nat :=
  58 :: (hex2 d.length ++ hex4 a ++ [48, 48] ++ hex_of_bytes d ++
    hex2 (data_line_checksum a d))

/-- The contents of a text file: every line followed by the terminator
`eol`. -/
def file_of_lines (eol : List Nat) : List (List Nat) → List Nat
  | [] => []
  | l :: ls => l ++ eol ++ file_of_lines eol ls

/-- The word summed for byte pair `k` by the specification of
`rn_bootloader_calc_checksum`: low byte first, and `0xFF` as high byte when
the input of `n` bytes ends after the low byte. -/
def checksum_word (data : Nat → Nat) (n k : Nat) : Nat :=
  data (2 * k) + 256 * (if 2 * k + 1 < n then data (2 * k + 1) else 0xFF)

/-- The sum modulo 2^16 of the little-endian words of `n` bytes, an odd last
byte padded with `0xFF`. -/
def checksum_spec (data : Nat → Nat) (n : Nat) : Nat :=
  ((List.range ((n + 1) / 2)).map (checksum_word data n)).sum % 2 ^ 16

/-- The masks of the seven configuration words, in word order. -/
def config_masks : List Nat := [0xFF00, 0x3F1F, 0xBF00, 0x00C5, 0xC00F, 0xE00F, 0x400F]

/-- The sum modulo 2^16 of the seven little-endian words, each ANDed with its
mask. -/
def config_checksum_spec (data : Nat → Nat) : Nat :=
  ((List.range 7).map (fun k =>
    (data (2 * k) + 256 * data (2 * k + 1)) &&& config_masks.getD k 0)).sum % 2 ^ 16

/-- The input with bit `b` of byte `j` flipped. -/
def flip_bit (data : Nat → Nat) (j b : Nat) : Nat → Nat :=
  fun i => if i = j then data j ^^^ 2 ^ b else data i

/-- The Checksum command sent for a record. -/
def checksum_request (r : intel_hex_record) : Packet :=
  marshal RN_BOOTLOADER_CMD_CHECKSUM r.length 0 0 r.address none

/-- The checksum the device reports when the port history is `hist`: the
little-endian 16-bit value that follows the echoed header of its response;
`none` when the transfer fails. -/
def reported_checksum (dev : Device) (hist : Log) : Option Nat :=
  (dev hist).map (fun f => le_to_host_16 (f sizeof_cmd_base) (f (sizeof_cmd_base + 1)))

/-- The Reset command. -/
def reset_request : Packet := marshal RN_BOOTLOADER_CMD_RESET 0 0 0 0 none

/-- Opcode byte of a marshalled command packet. -/
def pkt_command (p : Packet) : Nat := p.getD 1 0

/-- Among the packets `sent` after the history `log`, every command selected
by `P` whose response carries a status byte other than success is the last
packet sent, and the value returned is -1. -/
def status_failure_is_last (P : Packet → Prop) (dev : Device) (log sent : Log)
    (ret : Option Int) : Prop :=
  ∀ i, i < sent.length → P (sent.getD i []) →
    ∀ f, dev (log ++ sent.take (i + 1)) = some f →
      f sizeof_cmd_base ≠ RN_BOOTLOADER_STATUS_SUCCESS →
      i + 1 = sent.length ∧ ret = some (-1)

/-- The checksum reported by the device for record number `i` of `rs` equals
the one computed locally, when the verify loop starts with port history
`log` and asks for the records in order. -/
def checksum_matches (fuel : Nat) (dev : Device) (beyond : Nat → Nat → Nat) (log : Log)
    (rs : List intel_hex_record) (i : Nat) (r : intel_hex_record) : Prop :=
  ∃ c, reported_checksum dev (log ++ (rs.take (i + 1)).map checksum_request) = some c ∧
    verify_calc_checksum fuel r.address r.length (record_ptr beyond i r) = some c

/-- The checksum reported by the device for record number `i` of `rs` differs
from the one computed locally. -/
def checksum_differs (fuel : Nat) (dev : Device) (beyond : Nat → Nat → Nat) (log : Log)
    (rs : List intel_hex_record) (i : Nat) (r : intel_hex_record) : Prop :=
  ∃ c cv, reported_checksum dev (log ++ (rs.take (i + 1)).map checksum_request) = some c ∧
    verify_calc_checksum fuel r.address r.length (record_ptr beyond i r) = some cv ∧ c ≠ cv

/-- A device that answers every command with a response whose byte 10 is 1
and whose bytes 20 and 21 are 255: read as version information it reports an
erase row size and a write latch size of 255, read as a status it reports
success, read as a checksum it reports the value 1. -/
def sample_device : Device :=
  fun _ => some (fun i => if i = sizeof_cmd_base then 1 else if i = 20 ∨ i = 21 then 255 else 0)

/-- A hex file of two data records of two bytes each: the local checksum of
the first is 1, that of the second is 2. -/
def sample_hex : intel_hex_file :=
  { head := [{ data := [1, 0], address := 0, length := 2 },
             { data := [2, 0], address := 2, length := 2 }],
    num_records := 2, start_addr := 0, ext_linear_addr := 0, ext_segment_addr := 0,
    has_eof := 1 }

/-- The packet is an Erase or a Write command. -/
def erase_or_write (p : Packet) : Prop :=
  pkt_command p = RN_BOOTLOADER_CMD_ERASE ∨ pkt_command p = RN_BOOTLOADER_CMD_WRITE

/-- A device that answers like `sample_device`, except that the status byte
of its response to a Write command is 0. -/
def write_failing_device : Device :=
  fun hist => some (fun i =>
    if i = sizeof_cmd_base then
      (if pkt_command (hist.getLastD []) = RN_BOOTLOADER_CMD_WRITE then 0 else 1)
    else if i = 20 ∨ i = 21 then 255 else 0)

/-- The GetVersion command. -/
def version_request : Packet := marshal RN_BOOTLOADER_CMD_GET_VERSION 0 0 0 0 none

/-- The packet is an Erase command as `rn_bootloader_erase` sends it: both
keys, no payload. -/
def erase_packet (p : Packet) : Prop :=
  ∃ n a, n ≤ RN_BOOTLOADER_MAX_LENGTH ∧ a < 2 ^ 32 ∧
    p = marshal RN_BOOTLOADER_CMD_ERASE n RN_BOOTLOADER_KEY_ONE RN_BOOTLOADER_KEY_TWO a none

/-- The packet is a Write command as `rn_bootloader_write` sends it for the
buffer `data` and the address `address`: both keys, `n` payload bytes taken
from offset `bw` of the buffer, to be written at `address + bw`. -/
def write_packet (address : Nat) (data : Nat → Nat) (p : Packet) : Prop :=
  ∃ n bw, n ≤ RN_BOOTLOADER_MAX_LENGTH ∧ bw < 2 ^ 16 ∧
    p = marshal RN_BOOTLOADER_CMD_WRITE n RN_BOOTLOADER_KEY_ONE RN_BOOTLOADER_KEY_TWO
      ((address + bw) % 2 ^ 32) (some (fun i => data (bw + i)))

/-- Every packet of `sent`, sent after the history `log`, was answered with a
status byte of 1 (success). -/
def all_succeeded (dev : Device) (log sent : Log) : Prop :=
  ∀ i, i < sent.length →
    ∃ f, dev (log ++ sent.take (i + 1)) = some f ∧
      f sizeof_cmd_base = RN_BOOTLOADER_STATUS_SUCCESS

/-- The two devices behave alike except for the echoed header of their
responses: on every history both fail or both answer, and their answers are
equal from offset `sizeof_cmd_base` on. -/
def agree_after_header (dev1 dev2 : Device) : Prop :=
  ∀ hist,
    (dev1 hist = none ∧ dev2 hist = none) ∨
    (∃ f g, dev1 hist = some f ∧ dev2 hist = some g ∧ ∀ i, sizeof_cmd_base ≤ i → f i = g i)

/-- A device that answers like `sample_device` but echoes a header of
`0xEE` bytes. -/
def other_echo_device : Device :=
  fun _ => some (fun i =>
    if i < sizeof_cmd_base then 0xEE
    else if i = sizeof_cmd_base then 1 else if i = 20 ∨ i = 21 then 255 else 0)

/-- The device answers every Erase and every Write command, whatever was sent
before, with a status byte of 1 (success). -/
def answers_success (dev : Device) : Prop :=
  ∀ hist p, erase_or_write p →
    ∃ f, dev (hist ++ [p]) = some f ∧ f sizeof_cmd_base = RN_BOOTLOADER_STATUS_SUCCESS

/-- The device answers the Checksum requests for the records `rs`, asked in
order after a history without Checksum requests, with the value the host
computes for each record. -/
def answers_checksums (fuel : Nat) (dev : Device) (beyond : Nat → Nat → Nat)
    (rs : List intel_hex_record) : Prop :=
  ∀ hist, (∀ p ∈ hist, pkt_command p ≠ RN_BOOTLOADER_CMD_CHECKSUM) →
    ∀ i r c, rs[i]? = some r →
      verify_calc_checksum fuel r.address r.length (record_ptr beyond i r) = some c →
      reported_checksum dev (hist ++ (rs.take (i + 1)).map checksum_request) = some c

/-- A device that reports an erase row size and a write latch size of 64,
answers status success, and answers a Checksum request with the value
`0x4038`. -/
def mock_device : Device :=
  fun hist => some (fun i =>
    if pkt_command (hist.getLastD []) = RN_BOOTLOADER_CMD_CHECKSUM then
      (if i = 10 then 0x38 else if i = 11 then 0x40 else 0)
    else (if i = 10 then 1 else if i = 20 ∨ i = 21 then 64 else 0))

/-- A file of two record lines: 16 bytes of data at address 0, then the EOF
record. -/
def two_record_file : List Nat :=
  bytes ":10000000000102030405060708090A0B0C0D0E0F78\n:00000001FF\n"

/-- The record of the first line of `two_record_file`. -/
def first_record : intel_hex_record :=
  { data := [0, 1, 2, 3, 4, 5, 6, 7, 8, 9, 10, 11, 12, 13, 14, 15], address := 0, length := 16 }

/-- The parsed form of `two_record_file`. -/
def two_record_hex : intel_hex_file :=
  { head := [first_record],
    num_records := 1, start_addr := 0, ext_linear_addr := 0, ext_segment_addr := 0,
    has_eof := 1 }

/-- The port history `final` and the return value `ret` of a run of
`download_firmware` that started with history `log` on the records `rs` are
those of an ordered run: the packets sent are the GetVersion command, then
Erase commands `e`, then for the first records of `rs`, in order, their Write
commands `ws`, then the Checksum requests of the first `m` records in order,
then `tail`, which is empty or the Reset command.  Writes, Checksum requests
or a Reset are only there when the version request was answered and every
Erase command was answered with success; Checksum requests or a Reset only
when all records were written and every Write command was answered with
success; a Reset only after the Checksum requests of all records; and the
return value is 0 only when the Reset was sent. -/
def ordered_run (dev : Device) (log : Log) (beyond : Nat → Nat → Nat)
    (rs : List intel_hex_record) (final : Log) (ret : Option Int) : Prop :=
  ∃ (e : Log) (ws : List Log) (m : Nat) (tail : Log),
    final = log ++ ([version_request] ++ e ++ ws.flatten ++
      (rs.take m).map checksum_request ++ tail) ∧
    (∀ p ∈ e, erase_packet p) ∧
    ws.length ≤ rs.length ∧
    (∀ k L r, ws[k]? = some L → rs[k]? = some r →
      ∀ p ∈ L, write_packet r.address (record_ptr beyond k r) p) ∧
    m ≤ rs.length ∧
    (tail = [] ∨ tail = [reset_request]) ∧
    (ws.flatten ≠ [] ∨ m ≠ 0 ∨ tail ≠ [] ∨ ret = some 0 →
      (∃ f, dev (log ++ [version_request]) = some f) ∧
      all_succeeded dev (log ++ [version_request]) e) ∧
    (m ≠ 0 ∨ tail ≠ [] ∨ ret = some 0 →
      ws.length = rs.length ∧
      all_succeeded dev (log ++ [version_request] ++ e) ws.flatten) ∧
    (tail ≠ [] ∨ ret = some 0 → m = rs.length) ∧
    (ret = some 0 → tail = [reset_request])

theorem do_command_success (dev : Device) (h : AlwaysSuccess dev) (log : Log)
    (command length key_one key_two address : Nat) (data : Option (Nat → Nat))
    (hlen : length ≤ 255) :
    ∃ response,
      rn_bootloader_do_command dev log command length key_one key_two address data
        sizeof_rsp_status =
        (some response, log ++ [marshal command length key_one key_two address data]) ∧
      rsp_status response = RN_BOOTLOADER_STATUS_SUCCESS := by
  obtain ⟨f, hf, hs⟩ := h (log ++ [marshal command length key_one key_two address data])
  refine ⟨(List.range sizeof_rsp_status).map f, ?_, ?_⟩
  · unfold rn_bootloader_do_command
    have : ¬ length > RN_BOOTLOADER_MAX_LENGTH := by
      simp only [RN_BOOTLOADER_MAX_LENGTH]; omega
    simp only [this, if_false, hf]
  · unfold rsp_status
    simp only [sizeof_rsp_status, sizeof_cmd_base] at hs ⊢
    simpa [List.getD_eq_getElem?_getD] using hs

theorem success_device_always : AlwaysSuccess success_device := by
  intro log
  exact ⟨_, rfl, by simp [sizeof_cmd_base, RN_BOOTLOADER_STATUS_SUCCESS]⟩

/-- One Write command of the loop: chunk `k` of size `c`. -/
theorem write_loop_chunks (dev : Device) (h : AlwaysSuccess dev)
    (address length : Nat) (data : Nat → Nat) (w c : Nat)
    (hc : c = if length > w then w else length) (hc1 : 1 ≤ c) (hn : length ≤ 255) :
    ∀ (d fuel j : Nat) (log : Log), j + d = (length + c - 1) / c → d < fuel →
      write_loop dev address length data w fuel (j * c) log =
        (some 0, log ++ (List.range' j d).map (fun k =>
          marshal RN_BOOTLOADER_CMD_WRITE c RN_BOOTLOADER_KEY_ONE RN_BOOTLOADER_KEY_TWO
            ((address + k * c) % 2 ^ 32) (some (fun i => data (k * c + i))))) := by
  have hcw : c ≤ 255 := by
    rw [hc]; split <;> omega
  have key : ∀ j, j < (length + c - 1) / c ↔ j * c < length := by
    intro j
    rw [Nat.lt_iff_add_one_le, Nat.le_div_iff_mul_le (by omega)]
    constructor
    · intro h1
      have : (j + 1) * c = j * c + c := by ring
      omega
    · intro h1
      have : (j + 1) * c = j * c + c := by ring
      omega
  intro d
  induction d with
  | zero =>
    intro fuel j log hj hf
    obtain ⟨fuel, rfl⟩ : ∃ f, fuel = f + 1 := ⟨fuel - 1, by omega⟩
    have hnot : ¬ j * c < length := by
      rw [← key]; omega
    simp [write_loop, hnot]
  | succ d ih =>
    intro fuel j log hj hf
    obtain ⟨fuel, rfl⟩ : ∃ f, fuel = f + 1 := ⟨fuel - 1, by omega⟩
    have hlt : j * c < length := by
      rw [← key]; omega
    obtain ⟨response, hdo, hst⟩ := do_command_success dev h log RN_BOOTLOADER_CMD_WRITE c
      RN_BOOTLOADER_KEY_ONE RN_BOOTLOADER_KEY_TWO ((address + j * c) % 2 ^ 32)
      (some (fun i => data (j * c + i))) hcw
    have hwrap : (j * c + c) % 2 ^ 16 = (j + 1) * c := by
      have : (j + 1) * c = j * c + c := by ring
      rw [this]
      exact Nat.mod_eq_of_lt (by omega)
    unfold write_loop
    simp only [hlt, if_true, ← hc, hdo, hst, ne_eq, not_true_eq_false, if_false, hwrap]
    rw [ih fuel (j + 1) _ (by omega) (by omega)]
    simp [List.range'_succ]

theorem pkt_length_marshal (command length k1 k2 address : Nat) (data : Option (Nat → Nat))
    (h : length < 65536) :
    pkt_length (marshal command length k1 k2 address data) = length := by
  simp [pkt_length, marshal]
  omega

theorem pkt_address_marshal (command length k1 k2 address : Nat) (data : Option (Nat → Nat))
    (h : address < 2 ^ 32) :
    pkt_address (marshal command length k1 k2 address data) = address := by
  simp [pkt_address, marshal]
  omega

theorem pkt_payload_marshal (command length k1 k2 address : Nat) (d : Nat → Nat) :
    pkt_payload (marshal command length k1 k2 address (some d)) = (List.range length).map d := by
  simp [pkt_payload, marshal, sizeof_cmd_base]

/-- C1: for a record of 130 bytes and `write_latch_size = 64`, with a device
that always answers success, `rn_bootloader_write` returns 0 after sending
exactly three Write commands at `base`, `base + 64` and `base + 128`, and
each of the three has length field 64 and carries 64 payload bytes; the third
carries the bytes at offsets 128 to 191 from `data`, of which only the first
two belong to the record. -/
theorem write_130_latch_64_sends_three_full_chunks (dev : Device) (h : AlwaysSuccess dev)
    (log : Log) (base : Nat) (data : Nat → Nat) (version : rn_bootloader_rsp_version)
    (hv : version.write_latch_size = 64) (fuel : Nat) (hfuel : 3 < fuel) :
    ∃ p1 p2 p3,
      rn_bootloader_write fuel dev log base 130 data version = (some 0, log ++ [p1, p2, p3]) ∧
      [p1, p2, p3].map pkt_length = [64, 64, 64] ∧
      [p1, p2, p3].map pkt_address =
        [base % 2 ^ 32, (base + 64) % 2 ^ 32, (base + 128) % 2 ^ 32] ∧
      [p1, p2, p3].map pkt_payload =
        [(List.range 64).map data, (List.range 64).map (fun i => data (64 + i)),
         (List.range 64).map (fun i => data (128 + i))] := by
  have hl := write_loop_chunks dev h base 130 data 64 64 (by decide) (by decide) (by decide)
    3 fuel 0 log (by decide) hfuel
  refine ⟨marshal RN_BOOTLOADER_CMD_WRITE 64 RN_BOOTLOADER_KEY_ONE RN_BOOTLOADER_KEY_TWO
      (base % 2 ^ 32) (some data),
    marshal RN_BOOTLOADER_CMD_WRITE 64 RN_BOOTLOADER_KEY_ONE RN_BOOTLOADER_KEY_TWO
      ((base + 64) % 2 ^ 32) (some (fun i => data (64 + i))),
    marshal RN_BOOTLOADER_CMD_WRITE 64 RN_BOOTLOADER_KEY_ONE RN_BOOTLOADER_KEY_TWO
      ((base + 128) % 2 ^ 32) (some (fun i => data (128 + i))), ?_, ?_, ?_, ?_⟩
  · unfold rn_bootloader_write
    rw [hv]
    simpa [List.range'] using hl
  · simp [pkt_length_marshal]
  · simp [pkt_address_marshal, Nat.mod_lt]
  · simp [pkt_payload_marshal]

theorem write_130_latch_64_sends_three_full_chunks_witness :
    ∃ p1 p2 p3,
      rn_bootloader_write 4 success_device [] 0x1000 130 (fun i => i % 256)
        (version_with 64 64) = (some 0, [] ++ [p1, p2, p3]) ∧
      [p1, p2, p3].map pkt_length = [64, 64, 64] ∧
      [p1, p2, p3].map pkt_address =
        [0x1000 % 2 ^ 32, (0x1000 + 64) % 2 ^ 32, (0x1000 + 128) % 2 ^ 32] ∧
      [p1, p2, p3].map pkt_payload =
        [(List.range 64).map (fun i => i % 256),
         (List.range 64).map (fun i => (64 + i) % 256),
         (List.range 64).map (fun i => (128 + i) % 256)] :=
  write_130_latch_64_sends_three_full_chunks success_device success_device_always []
    0x1000 (fun i => i % 256) (version_with 64 64) rfl 4 (by decide)

/-- C2: what `rn_bootloader_write` sends when the latch size `w` is smaller
than the record length `n` and does not divide it (device always answering
success): every command carries `w` bytes, so the payloads add up to more
than the `n` bytes of the record. -/
theorem write_sends_more_than_record (dev : Device) (h : AlwaysSuccess dev)
    (log : Log) (address n : Nat) (data : Nat → Nat) (version : rn_bootloader_rsp_version)
    (hn : n ≤ 255) (hw1 : 1 ≤ version.write_latch_size) (hwn : version.write_latch_size < n)
    (hdvd : ¬ version.write_latch_size ∣ n) (fuel : Nat) (hfuel : n < fuel) :
    ∃ pkts,
      rn_bootloader_write fuel dev log address n data version = (some 0, log ++ pkts) ∧
      (∀ p ∈ pkts, (pkt_payload p).length = version.write_latch_size) ∧
      (pkts.map (fun p => (pkt_payload p).length)).sum =
        (n + version.write_latch_size - 1) / version.write_latch_size *
          version.write_latch_size ∧
      n < (pkts.map (fun p => (pkt_payload p).length)).sum := by
  unfold rn_bootloader_write
  generalize version.write_latch_size = w at *
  have hm : (n + w - 1) / w ≤ n := by
    apply Nat.div_le_of_le_mul
    obtain ⟨a, rfl⟩ : ∃ a, w = 1 + a := ⟨w - 1, by omega⟩
    have h1 : a * 1 ≤ a * n := Nat.mul_le_mul_left a (by omega)
    have h2 : (1 + a) * n = n + a * n := by ring
    omega
  have hl := write_loop_chunks dev h address n data w w (by simp [hwn]) hw1 hn
    ((n + w - 1) / w) fuel 0 log (by simp) (by omega)
  have hall : ∀ p ∈ (List.range' 0 ((n + w - 1) / w)).map (fun k =>
      marshal RN_BOOTLOADER_CMD_WRITE w RN_BOOTLOADER_KEY_ONE RN_BOOTLOADER_KEY_TWO
        ((address + k * w) % 2 ^ 32) (some (fun i => data (k * w + i)))),
      (pkt_payload p).length = w := by
    intro p hp
    simp only [List.mem_map] at hp
    obtain ⟨k, _, rfl⟩ := hp
    simp [pkt_payload_marshal]
  have hsum : ((List.range' 0 ((n + w - 1) / w)).map (fun k =>
      marshal RN_BOOTLOADER_CMD_WRITE w RN_BOOTLOADER_KEY_ONE RN_BOOTLOADER_KEY_TWO
        ((address + k * w) % 2 ^ 32) (some (fun i => data (k * w + i)))) |>.map
        (fun p => (pkt_payload p).length)).sum = (n + w - 1) / w * w := by
    simp [List.map_map, Function.comp_def, pkt_payload_marshal]
  refine ⟨_, ?_, hall, hsum, ?_⟩
  · simpa using hl
  · rw [hsum]
    have h1 : n ≤ (n + w - 1) / w * w := by
      have := Nat.div_add_mod (n + w - 1) w
      have := Nat.mod_lt (n + w - 1) (show w > 0 by omega)
      have : w * ((n + w - 1) / w) = (n + w - 1) / w * w := by ring
      omega
    rcases Nat.lt_or_ge n ((n + w - 1) / w * w) with h2 | h2
    · exact h2
    · exact absurd (Dvd.intro_left _ (by omega : (n + w - 1) / w * w = n)) hdvd

theorem write_sends_more_than_record_witness :
    ∃ pkts,
      rn_bootloader_write 101 success_device [] 0x1000 100 (fun i => i % 256)
        (version_with 64 64) = (some 0, [] ++ pkts) ∧
      (∀ p ∈ pkts, (pkt_payload p).length = (version_with 64 64).write_latch_size) ∧
      (pkts.map (fun p => (pkt_payload p).length)).sum =
        (100 + (version_with 64 64).write_latch_size - 1) /
          (version_with 64 64).write_latch_size * (version_with 64 64).write_latch_size ∧
      100 < (pkts.map (fun p => (pkt_payload p).length)).sum :=
  write_sends_more_than_record success_device success_device_always [] 0x1000 100
    (fun i => i % 256) (version_with 64 64) (by decide) (by decide) (by decide) (by decide)
    101 (by decide)

theorem erase_field_le (x : Nat) : erase_field (min 256 x) ≤ 255 := by
  unfold erase_field
  split <;> omega

/-- The Erase commands of the loop from chunk `j` on. -/
theorem erase_loop_chunks (dev : Device) (h : AlwaysSuccess dev)
    (start total r : Nat) :
    ∀ (d fuel j : Nat) (log : Log), j + d = (total + 255) / 256 → d < fuel →
      erase_loop dev start total r fuel (total - 256 * j) log =
        (some 0, log ++ (List.range' j d).map (fun k =>
          marshal RN_BOOTLOADER_CMD_ERASE (erase_field (min 256 (total - 256 * k)))
            RN_BOOTLOADER_KEY_ONE RN_BOOTLOADER_KEY_TWO
            ((start + 256 * k * r) % 2 ^ 32) none)) := by
  intro d
  induction d with
  | zero =>
    intro fuel j log hj hf
    obtain ⟨fuel, rfl⟩ : ∃ f, fuel = f + 1 := ⟨fuel - 1, by omega⟩
    have h0 : total - 256 * j = 0 := by omega
    simp [erase_loop, h0]
  | succ d ih =>
    intro fuel j log hj hf
    obtain ⟨fuel, rfl⟩ : ∃ f, fuel = f + 1 := ⟨fuel - 1, by omega⟩
    have hlt : 256 * j < total := by omega
    have hne : total - 256 * j ≠ 0 := by omega
    have hblocks : (if total - 256 * j > 256 then 256 else total - 256 * j) =
        min 256 (total - 256 * j) := by
      split <;> omega
    have hdone : total - (total - 256 * j) = 256 * j := by omega
    have hnext : total - 256 * j - min 256 (total - 256 * j) = total - 256 * (j + 1) := by
      omega
    obtain ⟨response, hdo, hst⟩ := do_command_success dev h log RN_BOOTLOADER_CMD_ERASE
      (erase_field (min 256 (total - 256 * j)))
      RN_BOOTLOADER_KEY_ONE RN_BOOTLOADER_KEY_TWO ((start + 256 * j * r) % 2 ^ 32)
      none (erase_field_le _)
    unfold erase_loop
    simp only [hne, ne_eq, not_false_eq_true, if_true, hblocks, hdone]
    change (match rn_bootloader_do_command dev log RN_BOOTLOADER_CMD_ERASE
        (erase_field (min 256 (total - 256 * j))) RN_BOOTLOADER_KEY_ONE
        RN_BOOTLOADER_KEY_TWO ((start + 256 * j * r) % 2 ^ 32) none sizeof_rsp_status with
      | (none, log1) => (some (-1), log1)
      | (some response, log1) =>
        if rsp_status response ≠ RN_BOOTLOADER_STATUS_SUCCESS then (some (-1), log1)
        else erase_loop dev start total r fuel
          (total - 256 * j - min 256 (total - 256 * j)) log1) = _
    simp only [hdo, hst, ne_eq, not_true_eq_false, if_false, hnext]
    rw [ih fuel (j + 1) _ (by omega) (by omega)]
    simp [List.range'_succ]

theorem erase_rows_length (total : Nat) : (erase_rows total).length = (total + 255) / 256 := by
  simp [erase_rows]

theorem erase_rows_mem (total x : Nat) (hx : x ∈ erase_rows total) : 1 ≤ x ∧ x ≤ 256 := by
  simp only [erase_rows, List.mem_map, List.mem_range] at hx
  obtain ⟨k, hk, rfl⟩ := hx
  omega

theorem erase_rows_take_sum (total : Nat) :
    ∀ k, k ≤ (total + 255) / 256 → ((erase_rows total).take k).sum = min (256 * k) total := by
  intro k
  induction k with
  | zero => intro _; simp
  | succ k ih =>
    intro hk
    have hk1 : k < (erase_rows total).length := by rw [erase_rows_length]; omega
    rw [List.take_succ, List.sum_append, ih (by omega)]
    rw [List.getElem?_eq_getElem hk1]
    simp only [erase_rows, List.getElem_map, List.getElem_range, Option.toList_some,
      List.sum_cons, List.sum_nil]
    omega

theorem erase_rows_sum (total : Nat) : (erase_rows total).sum = total := by
  have h := erase_rows_take_sum total ((total + 255) / 256) (le_refl _)
  rw [← erase_rows_length, List.take_length] at h
  rw [h, erase_rows_length]
  omega

/-- C3: with a device that always answers success and `erase_row_size = r`
at least 1, `rn_bootloader_erase` returns 0 after sending `ceil(R / 256)`
Erase commands, `R = length / r`: command `k` covers `rows[k]` rows, where
every row count is between 1 and 256 and the counts add up to `R`; its length
field is the row count, 0 standing for 256; its `uint32_t` address is
`start + r * (rows of the earlier commands)`.  For `length = 257 * 64` and
`r = 64` these are two commands, length field 0 at `start` and length field 1
at `start + 256 * 64`. -/
theorem erase_sends_row_chunks (dev : Device) (h : AlwaysSuccess dev) (log : Log)
    (start length : Nat) (version : rn_bootloader_rsp_version)
    (hr : 1 ≤ version.erase_row_size) (fuel : Nat)
    (hfuel : (length / version.erase_row_size + 255) / 256 < fuel) :
    rn_bootloader_erase fuel dev log start length version =
      (some 0, log ++ (List.range (erase_rows (length / version.erase_row_size)).length).map
        (fun k => marshal RN_BOOTLOADER_CMD_ERASE
          (erase_field ((erase_rows (length / version.erase_row_size)).getD k 0))
          RN_BOOTLOADER_KEY_ONE RN_BOOTLOADER_KEY_TWO
          ((start + version.erase_row_size *
            ((erase_rows (length / version.erase_row_size)).take k).sum) % 2 ^ 32) none)) ∧
    (erase_rows (length / version.erase_row_size)).length =
      (length / version.erase_row_size + 255) / 256 ∧
    (∀ x ∈ erase_rows (length / version.erase_row_size), 1 ≤ x ∧ x ≤ 256) ∧
    (erase_rows (length / version.erase_row_size)).sum = length / version.erase_row_size ∧
    (length = 257 * 64 → version.erase_row_size = 64 →
      rn_bootloader_erase fuel dev log start length version =
        (some 0, log ++
          [marshal RN_BOOTLOADER_CMD_ERASE 0 RN_BOOTLOADER_KEY_ONE RN_BOOTLOADER_KEY_TWO
             (start % 2 ^ 32) none,
           marshal RN_BOOTLOADER_CMD_ERASE 1 RN_BOOTLOADER_KEY_ONE RN_BOOTLOADER_KEY_TWO
             ((start + 256 * 64) % 2 ^ 32) none])) := by
  have hmain : rn_bootloader_erase fuel dev log start length version =
      (some 0, log ++ (List.range' 0 ((length / version.erase_row_size + 255) / 256)).map
        (fun k => marshal RN_BOOTLOADER_CMD_ERASE
          (erase_field (min 256 (length / version.erase_row_size - 256 * k)))
          RN_BOOTLOADER_KEY_ONE RN_BOOTLOADER_KEY_TWO
          ((start + 256 * k * version.erase_row_size) % 2 ^ 32) none)) := by
    unfold rn_bootloader_erase
    have hne : ¬ version.erase_row_size = 0 := by omega
    simp only [hne, if_false]
    have := erase_loop_chunks dev h start (length / version.erase_row_size)
      version.erase_row_size ((length / version.erase_row_size + 255) / 256) fuel 0 log
      (by simp) hfuel
    simpa using this
  refine ⟨?_, erase_rows_length _, erase_rows_mem _, erase_rows_sum _, ?_⟩
  · rw [hmain, erase_rows_length, List.range_eq_range']
    congr 2
    apply List.map_congr_left
    intro k hk
    have hk1 : k < (length / version.erase_row_size + 255) / 256 := by
      simpa using (List.mem_range'_1.mp hk).2
    have hk2 : k < (erase_rows (length / version.erase_row_size)).length := by
      rw [erase_rows_length]; exact hk1
    have hget : (erase_rows (length / version.erase_row_size)).getD k 0 =
        min 256 (length / version.erase_row_size - 256 * k) := by
      rw [List.getD_eq_getElem _ _ hk2]
      simp [erase_rows]
    have hsum := erase_rows_take_sum (length / version.erase_row_size) k (by omega)
    have hmin : min (256 * k) (length / version.erase_row_size) = 256 * k := by omega
    rw [hget, hsum, hmin, Nat.mul_comm version.erase_row_size (256 * k)]
  · intro hl hv
    rw [hmain, hl, hv]
    simp [List.range', erase_field]

theorem erase_sends_row_chunks_witness :
    rn_bootloader_erase 3 success_device [] 0x300 (257 * 64) (version_with 64 64) =
      (some 0, [] ++
        [marshal RN_BOOTLOADER_CMD_ERASE 0 RN_BOOTLOADER_KEY_ONE RN_BOOTLOADER_KEY_TWO
           (0x300 % 2 ^ 32) none,
         marshal RN_BOOTLOADER_CMD_ERASE 1 RN_BOOTLOADER_KEY_ONE RN_BOOTLOADER_KEY_TWO
           ((0x300 + 256 * 64) % 2 ^ 32) none]) :=
  (erase_sends_row_chunks success_device success_device_always [] 0x300 (257 * 64)
    (version_with 64 64) (by decide) 3 (by decide)).2.2.2.2 rfl rfl

/-! ## Intel HEX records -/

theorem hex_char_cases (c : Nat) (h : is_hex_char c = true) :
    (48 ≤ c ∧ c ≤ 57) ∨ (65 ≤ c ∧ c ≤ 70) ∨ (97 ≤ c ∧ c ≤ 102) := by
  simp only [is_hex_char, Bool.or_eq_true, Bool.and_eq_true, decide_eq_true_eq] at h
  omega

theorem hex_value_lt (c : Nat) (h : is_hex_char c = true) : hex_value c < 16 := by
  have := hex_char_cases c h
  unfold hex_value
  split_ifs <;> omega

theorem hex_digit_of_hex (c : Nat) (h : is_hex_char c = true) :
    hex_digit c = some (hex_value c) := by
  have := hex_char_cases c h
  unfold hex_digit hex_value
  split_ifs <;> first | rfl | omega

theorem isspace_of_hex (c : Nat) (h : is_hex_char c = true) : isspace c = false := by
  have := hex_char_cases c h
  simp [isspace]
  omega

theorem strtol_field_hex2 (a b : Nat) (ha : is_hex_char a = true) (hb : is_hex_char b = true) :
    strtol_field [a, b] = some ((hex_byte a b : Nat) : Int) := by
  have ca := hex_char_cases a ha
  have cb := hex_char_cases b hb
  have h45 : a ≠ 45 := by omega
  have h43 : a ≠ 43 := by omega
  simp [strtol_field, strtol16, isspace_of_hex a ha, List.dropWhile, h45, h43,
    hex_digit_of_hex a ha, hex_digit_of_hex b hb, strtol_digits, hex_byte]
  ring

theorem strtol_field_hex4 (a b c d : Nat) (ha : is_hex_char a = true)
    (hb : is_hex_char b = true) (hc : is_hex_char c = true) (hd : is_hex_char d = true) :
    strtol_field [a, b, c, d] = some ((256 * hex_byte a b + hex_byte c d : Nat) : Int) := by
  have ca := hex_char_cases a ha
  have cb := hex_char_cases b hb
  have h45 : a ≠ 45 := by omega
  have h43 : a ≠ 43 := by omega
  have h120 : b ≠ 120 := by omega
  have h88 : b ≠ 88 := by omega
  simp [strtol_field, strtol16, isspace_of_hex a ha, List.dropWhile, h45, h43, h120, h88,
    hex_digit_of_hex a ha, hex_digit_of_hex b hb, hex_digit_of_hex c hc,
    hex_digit_of_hex d hd, strtol_digits, hex_byte]
  ring

theorem parse_nibble_hex (c dest offset : Nat) (h : is_hex_char c = true) :
    parse_nibble c dest offset = some ((dest ||| (hex_value c <<< offset)) % 256) := by
  have hc := hex_char_cases c h
  unfold parse_nibble hex_value
  rcases hc with hc | hc | hc
  · have h1 : c < 128 := by omega
    have h2 : ¬ ((c : Int) < 48) := by omega
    have h3 : ¬ ((c : Int) ≥ 97) := by omega
    have h4 : (c : Int) - 48 ≤ 9 := by omega
    have h5 : ((c : Int) - 48).toNat = c - 48 := by omega
    have h6 : c ≤ 57 := by omega
    simp [h1, h2, h3, h4, h5, h6]
  · have h1 : c < 128 := by omega
    have h2 : ¬ ((c : Int) < 48) := by omega
    have h3 : ¬ ((c : Int) ≥ 97) := by omega
    have h4 : ¬ ((c : Int) - 48 ≤ 9) := by omega
    have h4b : ¬ ((c : Int) - 48 - 7 ≤ 9) := by omega
    have h4c : (c : Int) - 48 - 7 ≤ 15 := by omega
    have h5 : ((c : Int) - 48 - 7).toNat = c - 55 := by omega
    have h6 : ¬ c ≤ 57 := by omega
    have h7 : c ≤ 70 := by omega
    simp [h1, h2, h3, h4, h4b, h4c, h5, h6, h7]
  · have h1 : c < 128 := by omega
    have h2 : ¬ ((c : Int) < 48) := by omega
    have h3 : (c : Int) ≥ 97 := by omega
    have h4 : ¬ ((c : Int) - 32 - 48 ≤ 9) := by omega
    have h4b : ¬ ((c : Int) - 32 - 48 - 7 ≤ 9) := by omega
    have h4c : (c : Int) - 32 - 48 - 7 ≤ 15 := by omega
    have h5 : ((c : Int) - 32 - 48 - 7).toNat = c - 87 := by omega
    have h6 : ¬ c ≤ 57 := by omega
    have h7 : ¬ c ≤ 70 := by omega
    simp [h1, h2, h3, h4, h4b, h4c, h5, h6, h7]

theorem nibble_or (a b : Nat) (ha : a < 16) (hb : b < 16) :
    ((0 ||| (a <<< 4)) % 256 ||| (b <<< 0)) % 256 = 16 * a + b := by
  have key : ∀ a < 16, ∀ b < 16, ((0 ||| (a <<< 4)) % 256 ||| (b <<< 0)) % 256 = 16 * a + b := by
    decide
  exact key a ha b hb

theorem parse_byte_hex (hi lo : Nat) (h1 : is_hex_char hi = true) (h2 : is_hex_char lo = true) :
    (parse_nibble hi 0 4).bind (fun d1 => parse_nibble lo d1 0) = some (hex_byte hi lo) := by
  rw [parse_nibble_hex hi 0 4 h1]
  simp only [Option.some_bind]
  rw [parse_nibble_hex lo _ 0 h2, nibble_or _ _ (hex_value_lt hi h1) (hex_value_lt lo h2)]
  rfl

theorem hex_byte_lt (hi lo : Nat) (h1 : is_hex_char hi = true) (h2 : is_hex_char lo = true) :
    hex_byte hi lo < 256 := by
  have := hex_value_lt hi h1
  have := hex_value_lt lo h2
  unfold hex_byte
  omega

theorem to_uint8_natCast (x : Nat) (h : x < 256) : to_uint8 (x : Int) = x := by
  unfold to_uint8
  omega

theorem to_uint16_natCast (x : Nat) (h : x < 65536) : to_uint16 (x : Int) = x := by
  unfold to_uint16
  omega

theorem hex_bytes_length (cs : List Nat) : ∀ n, cs.length = 2 * n → (hex_bytes cs).length = n := by
  induction cs using hex_bytes.induct with
  | case1 hi lo rest ih =>
    intro n hn
    simp only [List.length_cons] at hn
    simp only [hex_bytes, List.length_cons]
    rw [ih (n - 1) (by omega)]
    omega
  | case2 cs hcs =>
    intro n hn
    match cs, hcs with
    | [], _ => simp [hex_bytes] at hn ⊢; omega
    | [a], _ => simp at hn; omega
    | a :: b :: rest, hcs => exact absurd rfl (hcs a b rest)

theorem getD_append_add (pre l : List Nat) (k d : Nat) :
    (pre ++ l).getD (pre.length + k) d = l.getD k d := by
  rw [List.getD_eq_getElem?_getD, List.getD_eq_getElem?_getD,
    List.getElem?_append_right (by omega)]
  simp

theorem parse_data_hex (n : Nat) :
    ∀ (i : Nat) (pre datachars rest : List Nat), pre.length = 9 + 2 * i →
      (∀ c ∈ datachars, is_hex_char c = true) → datachars.length = 2 * n →
      parse_data (pre ++ datachars ++ rest) n i = some (hex_bytes datachars) := by
  induction n with
  | zero =>
    intro i pre datachars rest _ _ hlen
    have : datachars = [] := List.length_eq_zero.mp (by omega)
    subst this
    simp [parse_data, hex_bytes]
  | succ n ih =>
    intro i pre datachars rest hpre hhex hlen
    match datachars, hlen with
    | a :: b :: ds, hlen =>
      have ha : is_hex_char a = true := hhex a (by simp)
      have hb : is_hex_char b = true := hhex b (by simp)
      have hg1 : (pre ++ a :: b :: ds ++ rest).getD (9 + 2 * i) 0 = a := by
        rw [List.append_assoc, ← hpre]
        exact getD_append_add pre _ 0 0
      have hg2 : (pre ++ a :: b :: ds ++ rest).getD (9 + 2 * i + 1) 0 = b := by
        rw [List.append_assoc, ← hpre]
        exact getD_append_add pre _ 1 0
      have hrec := ih (i + 1) (pre ++ [a, b]) ds rest (by simp; omega)
        (fun c hc => hhex c (by simp [hc])) (by simp at hlen; omega)
      have hbyte := parse_byte_hex a b ha hb
      have hshape : pre ++ [a, b] ++ ds ++ rest = pre ++ a :: b :: ds ++ rest := by simp
      rw [hshape] at hrec
      unfold parse_data
      rw [hg1, hg2]
      cases h1 : parse_nibble a 0 4 with
      | none => simp [h1] at hbyte
      | some d1 =>
        simp only [h1, Option.some_bind] at hbyte
        simp only [hbyte, hrec, hex_bytes]

theorem foldl_sum_mod (data : List Nat) :
    ∀ init, data.foldl (fun sum d => (sum + d) % 256) (init % 256) = (init + data.sum) % 256 := by
  induction data with
  | nil => intro init; simp
  | cons d ds ih =>
    intro init
    simp only [List.foldl_cons, List.sum_cons]
    rw [ih (init % 256 + d)]
    omega

theorem record_sum_eq (length type address checksum : Nat) (data : List Nat) :
    record_sum length type address checksum data =
      (length + type + address % 256 + address / 256 % 256 + checksum + data.sum) % 256 := by
  unfold record_sum
  rw [foldl_sum_mod]

/-- What `check_record` computes on a line made of hexadecimal digits. -/
theorem check_record_hex (l1 l2 a1 a2 a3 a4 t1 t2 c1 c2 : Nat) (datachars : List Nat)
    (hh : ∀ c ∈ [l1, l2, a1, a2, a3, a4, t1, t2, c1, c2], is_hex_char c = true)
    (hd : ∀ c ∈ datachars, is_hex_char c = true)
    (hcount : datachars.length = 2 * hex_byte l1 l2)
    (htype : hex_byte t1 t2 ≤ 5) :
    check_record ([58, l1, l2, a1, a2, a3, a4, t1, t2] ++ datachars ++ [c1, c2]) =
      if (hex_byte l1 l2 + hex_byte t1 t2 + hex_byte a1 a2 + hex_byte a3 a4 +
          (hex_bytes datachars).sum + hex_byte c1 c2) % 256 = 0 then
        some { length := hex_byte l1 l2, address := 256 * hex_byte a1 a2 + hex_byte a3 a4,
               type := hex_byte t1 t2, checksum := hex_byte c1 c2,
               data := hex_bytes datachars }
      else none := by
  have hl1 := hh l1 (by simp)
  have hl2 := hh l2 (by simp)
  have ha1 := hh a1 (by simp)
  have ha2 := hh a2 (by simp)
  have ha3 := hh a3 (by simp)
  have ha4 := hh a4 (by simp)
  have ht1 := hh t1 (by simp)
  have ht2 := hh t2 (by simp)
  have hc1 := hh c1 (by simp)
  have hc2 := hh c2 (by simp)
  have bl := hex_byte_lt l1 l2 hl1 hl2
  have ba12 := hex_byte_lt a1 a2 ha1 ha2
  have ba34 := hex_byte_lt a3 a4 ha3 ha4
  have bt := hex_byte_lt t1 t2 ht1 ht2
  have bc := hex_byte_lt c1 c2 hc1 hc2
  have hlen : ([58, l1, l2, a1, a2, a3, a4, t1, t2] ++ datachars ++ [c1, c2]).length =
      hex_byte l1 l2 * 2 + 11 := by
    simp [hcount]; omega
  have hcs1 : ([58, l1, l2, a1, a2, a3, a4, t1, t2] ++ datachars ++ [c1, c2]).getD
      (hex_byte l1 l2 * 2 + 11 - 2) 0 = c1 := by
    have : hex_byte l1 l2 * 2 + 11 - 2 =
        ([58, l1, l2, a1, a2, a3, a4, t1, t2] ++ datachars).length := by
      simp [hcount]; omega
    rw [this, List.getD_eq_getElem?_getD, List.getElem?_append_right (le_refl _)]
    simp
  have hcs2 : ([58, l1, l2, a1, a2, a3, a4, t1, t2] ++ datachars ++ [c1, c2]).getD
      (hex_byte l1 l2 * 2 + 11 - 1) 0 = c2 := by
    have : hex_byte l1 l2 * 2 + 11 - 1 =
        ([58, l1, l2, a1, a2, a3, a4, t1, t2] ++ datachars).length + 1 := by
      simp [hcount]; omega
    rw [this, List.getD_eq_getElem?_getD, List.getElem?_append_right (by omega)]
    simp
  have hdata := parse_data_hex (hex_byte l1 l2) 0 [58, l1, l2, a1, a2, a3, a4, t1, t2]
    datachars [c1, c2] (by simp) hd hcount
  have hg : ∀ k, k < 9 → ([58, l1, l2, a1, a2, a3, a4, t1, t2] ++ datachars ++ [c1, c2]).getD k 0 =
      [58, l1, l2, a1, a2, a3, a4, t1, t2].getD k 0 := by
    intro k hk
    rw [List.append_assoc, List.getD_eq_getElem?_getD, List.getD_eq_getElem?_getD,
      List.getElem?_append_left (by simpa using hk)]
  have hnot : ¬ hex_byte t1 t2 > INTEL_HEX_RECORD_TYPE_MAX := by
    simp only [INTEL_HEX_RECORD_TYPE_MAX]; omega
  have hmod1 : (256 * hex_byte a1 a2 + hex_byte a3 a4) % 256 = hex_byte a3 a4 := by omega
  have hmod2 : (256 * hex_byte a1 a2 + hex_byte a3 a4) / 256 % 256 = hex_byte a1 a2 := by omega
  unfold check_record
  simp only [hlen, hg 0 (by decide), hg 1 (by decide), hg 2 (by decide), hg 3 (by decide),
    hg 4 (by decide), hg 5 (by decide), hg 6 (by decide), hg 7 (by decide), hg 8 (by decide),
    hcs1, hcs2]
  simp only [List.getD_cons_zero, List.getD_cons_succ, strtol_field_hex2 _ _ hl1 hl2,
    strtol_field_hex4 _ _ _ _ ha1 ha2 ha3 ha4, strtol_field_hex2 _ _ ht1 ht2,
    strtol_field_hex2 _ _ hc1 hc2, to_uint8_natCast _ bl, to_uint8_natCast _ bt,
    to_uint8_natCast _ bc, to_uint16_natCast _ (show 256 * hex_byte a1 a2 + hex_byte a3 a4 < 65536
      by omega), hdata, record_sum_eq, hmod1, hmod2, hnot]
  have hsum : (hex_byte l1 l2 + hex_byte t1 t2 + hex_byte a3 a4 + hex_byte a1 a2 +
      hex_byte c1 c2 + (hex_bytes datachars).sum) =
      (hex_byte l1 l2 + hex_byte t1 t2 + hex_byte a1 a2 + hex_byte a3 a4 +
      (hex_bytes datachars).sum + hex_byte c1 c2) := by omega
  rw [hsum]
  by_cases hz : (hex_byte l1 l2 + hex_byte t1 t2 + hex_byte a1 a2 + hex_byte a3 a4 +
      (hex_bytes datachars).sum + hex_byte c1 c2) % 256 = 0
  · simp [hz]
  · simp [hz]

theorem handle_record_ok (r : record_fields) (file : intel_hex_file)
    (h24 : r.type = 2 ∨ r.type = 4 → 2 ≤ r.data.length)
    (h35 : r.type = 3 ∨ r.type = 5 → 4 ≤ r.data.length) :
    ∃ file1, handle_record r file = Outcome.ok file1 := by
  unfold handle_record
  simp only [INTEL_HEX_RECORD_DATA, INTEL_HEX_RECORD_EOF, INTEL_HEX_RECORD_EXT_SEG_ADDR,
    INTEL_HEX_RECORD_START_SEG_ADDR, INTEL_HEX_RECORD_EXT_LIN_ADDR,
    INTEL_HEX_RECORD_START_LIN_ADDR]
  split_ifs with h0 h1 h2 h3 h4 h5
  · exact ⟨_, rfl⟩
  · exact ⟨_, rfl⟩
  · have := h24 (Or.inl h2)
    match hd : r.data, this with
    | d0 :: d1 :: ds, _ => exact ⟨_, rfl⟩
    | [], h => simp [hd] at this
    | [_], h => simp [hd] at this
  · have := h35 (Or.inl h3)
    match hd : r.data, this with
    | d0 :: d1 :: d2 :: d3 :: ds, _ => exact ⟨_, rfl⟩
    | [], h => simp [hd] at this
    | [_], h => simp [hd] at this
    | [_, _], h => simp [hd] at this
    | [_, _, _], h => simp [hd] at this
  · have := h24 (Or.inr h4)
    match hd : r.data, this with
    | d0 :: d1 :: ds, _ => exact ⟨_, rfl⟩
    | [], h => simp [hd] at this
    | [_], h => simp [hd] at this
  · have := h35 (Or.inr h5)
    match hd : r.data, this with
    | d0 :: d1 :: d2 :: d3 :: ds, _ => exact ⟨_, rfl⟩
    | [], h => simp [hd] at this
    | [_], h => simp [hd] at this
    | [_, _], h => simp [hd] at this
    | [_, _, _], h => simp [hd] at this
  · exact ⟨_, rfl⟩

/-- C4 (amended): a line `:LLAAAATT DD.. CC` made of hexadecimal digits, with
`2 * length` payload characters, type at most 5 and a payload of at least 2
bytes for types 02 and 04 and at least 4 bytes for types 03 and 05, is
accepted by `parse_record` if and only if length + type + address-high +
address-low + the payload bytes + checksum is 0 modulo 256. -/
theorem checksum_rule_well_formed_line (l1 l2 a1 a2 a3 a4 t1 t2 c1 c2 : Nat)
    (datachars : List Nat) (file : intel_hex_file)
    (hh : ∀ c ∈ [l1, l2, a1, a2, a3, a4, t1, t2, c1, c2], is_hex_char c = true)
    (hd : ∀ c ∈ datachars, is_hex_char c = true)
    (hcount : datachars.length = 2 * hex_byte l1 l2)
    (htype : hex_byte t1 t2 ≤ 5)
    (h24 : hex_byte t1 t2 = 2 ∨ hex_byte t1 t2 = 4 → 2 ≤ hex_byte l1 l2)
    (h35 : hex_byte t1 t2 = 3 ∨ hex_byte t1 t2 = 5 → 4 ≤ hex_byte l1 l2) :
    (∃ file1, parse_record ([58, l1, l2, a1, a2, a3, a4, t1, t2] ++ datachars ++ [c1, c2])
        file = Outcome.ok file1) ↔
      (hex_byte l1 l2 + hex_byte t1 t2 + hex_byte a1 a2 + hex_byte a3 a4 +
        (hex_bytes datachars).sum + hex_byte c1 c2) % 256 = 0 := by
  unfold parse_record
  rw [check_record_hex l1 l2 a1 a2 a3 a4 t1 t2 c1 c2 datachars hh hd hcount htype]
  by_cases hz : (hex_byte l1 l2 + hex_byte t1 t2 + hex_byte a1 a2 + hex_byte a3 a4 +
      (hex_bytes datachars).sum + hex_byte c1 c2) % 256 = 0
  · simp only [hz, if_true, iff_true]
    apply handle_record_ok
    · simpa [hex_bytes_length datachars _ hcount] using h24
    · simpa [hex_bytes_length datachars _ hcount] using h35
  · simp [hz]

theorem checksum_rule_well_formed_line_witness :
    (∃ file1, parse_record ([58, 48, 50, 48, 48, 48, 48, 48, 52] ++ [48, 48, 51, 48] ++ [67, 65])
        calloc_file = Outcome.ok file1) ↔
      (hex_byte 48 50 + hex_byte 48 52 + hex_byte 48 48 + hex_byte 48 48 +
        (hex_bytes [48, 48, 51, 48]).sum + hex_byte 67 65) % 256 = 0 :=
  checksum_rule_well_formed_line 48 50 48 48 48 48 48 52 67 65 [48, 48, 51, 48] calloc_file
    (by decide) (by decide) (by decide) (by decide) (by decide) (by decide)

/-- C4 as stated fails on the line `:00000002FE`: it starts with a colon, all
its fields are hexadecimal digits, it has 11 + 2 * 0 characters, its type is
02 and its bytes add up to 0 modulo 256, yet `parse_record` does not return
0: the type 02 case reads `data[0]` of an empty payload. -/
theorem checksum_rule_fails_on_empty_segment_record :
    (bytes ":00000002FE") = [58, 48, 48, 48, 48, 48, 48, 48, 50] ++ [] ++ [70, 69] ∧
    (∀ c ∈ [48, 48, 48, 48, 48, 48, 48, 50, 70, 69], is_hex_char c = true) ∧
    ([] : List Nat).length = 2 * hex_byte 48 48 ∧
    hex_byte 48 50 ≤ 5 ∧
    (hex_byte 48 48 + hex_byte 48 50 + hex_byte 48 48 + hex_byte 48 48 +
        (hex_bytes []).sum + hex_byte 70 69) % 256 = 0 ∧
    parse_record (bytes ":00000002FE") calloc_file = Outcome.fault ∧
    ¬ ∃ file1, parse_record (bytes ":00000002FE") calloc_file = Outcome.ok file1 := by
  refine ⟨by decide, by decide, by decide, by decide, by decide, by decide, ?_⟩
  rintro ⟨file1, h⟩
  have hf : parse_record (bytes ":00000002FE") calloc_file = Outcome.fault := by decide
  rw [hf] at h
  cases h

theorem to_uint8_lt (v : Int) : to_uint8 v < 256 := by
  unfold to_uint8
  omega

theorem to_uint16_lt (v : Int) : to_uint16 v < 65536 := by
  unfold to_uint16
  omega

/-- The facts `check_record` has established when it lets a line pass. -/
theorem check_record_spec (line : List Nat) (r : record_fields)
    (h : check_record line = some r) :
    line.getD 0 0 = 58 ∧
    line.length = r.length * 2 + 11 ∧
    byte_at line 0 = some r.length ∧
    byte_at line 1 = some (r.address / 256 % 256) ∧
    byte_at line 2 = some (r.address % 256) ∧
    byte_at line 3 = some r.type ∧
    byte_at line (r.length + 4) = some r.checksum ∧
    parse_data line r.length 0 = some r.data ∧
    r.type ≤ 5 ∧ r.length < 256 ∧ r.address < 65536 ∧ r.checksum < 256 ∧
    (r.length + r.type + r.address % 256 + r.address / 256 % 256 + r.checksum +
      r.data.sum) % 256 = 0 := by
  unfold check_record at h
  simp only [INTEL_HEX_RECORD_TYPE_MAX] at h
  split_ifs at h with h0 h1
  split at h
  · cases h
  rename_i v1 hv1
  split_ifs at h with h2
  split at h
  · cases h
  rename_i v2 hv2
  split at h
  · cases h
  rename_i v3 hv3
  split_ifs at h with h3
  split at h
  · cases h
  rename_i v4 hv4
  split at h
  · cases h
  rename_i data hdata
  split_ifs at h with h4
  simp only [Option.some.injEq] at h
  subst h
  simp only [record_sum_eq, ne_eq, not_not] at h4
  simp only [ne_eq, not_not] at h0 h2
  have hk : 2 * (to_uint8 v1 + 4) + 3 = line.length := by omega
  refine ⟨h0, h2, ?_, ?_, ?_, ?_, ?_, hdata, Nat.le_of_not_gt h3, to_uint8_lt _,
    to_uint16_lt _, to_uint8_lt _, h4⟩
  · unfold byte_at
    rw [if_pos rfl, hv1]
    rfl
  · unfold byte_at
    rw [if_neg (by decide), if_pos rfl, hv2]
    rfl
  · unfold byte_at
    rw [if_neg (by decide), if_neg (by decide), if_pos rfl, hv2]
    rfl
  · unfold byte_at
    rw [if_neg (by decide), if_neg (by decide), if_neg (by decide), if_pos rfl, hv3]
    rfl
  · unfold byte_at
    rw [if_neg (by omega), if_neg (by omega), if_neg (by omega), if_neg (by omega),
      if_pos hk, hv4]
    rfl

theorem parse_data_spec (line : List Nat) (n : Nat) :
    ∀ (i : Nat) (ds : List Nat), parse_data line n i = some ds →
      ds.length = n ∧
      ∀ t, t < n →
        (parse_nibble (line.getD (9 + 2 * (i + t)) 0) 0 4).bind
          (fun d1 => parse_nibble (line.getD (9 + 2 * (i + t) + 1) 0) d1 0) = ds[t]? := by
  induction n with
  | zero =>
    intro i ds h
    simp only [parse_data, Option.some.injEq] at h
    subst h
    simp
  | succ n ih =>
    intro i ds h
    unfold parse_data at h
    split at h
    · cases h
    rename_i d1 hd1
    split at h
    · cases h
    rename_i d hd
    split at h
    · cases h
    rename_i ds1 hds1
    simp only [Option.some.injEq] at h
    subst h
    obtain ⟨hl, hb⟩ := ih (i + 1) ds1 hds1
    refine ⟨by simp [hl], ?_⟩
    intro t ht
    cases t with
    | zero =>
      simp only [Nat.add_zero, hd1, Option.some_bind, hd]
      simp
    | succ t =>
      have := hb t (by omega)
      have e : i + (t + 1) = i + 1 + t := by omega
      rw [e, this]
      simp

theorem byte_at_payload (line : List Nat) (r : record_fields)
    (h : check_record line = some r) (t : Nat) (ht : t < r.length) :
    byte_at line (t + 4) = r.data[t]? := by
  obtain ⟨_, hlen, _, _, _, _, _, hdata, _⟩ := check_record_spec line r h
  obtain ⟨_, hb⟩ := parse_data_spec line r.length 0 r.data hdata
  have := hb t ht
  have hne : ¬ 2 * (t + 4) + 3 = line.length := by omega
  have e1 : 2 * (t + 4) + 1 = 9 + 2 * (0 + t) := by omega
  have e2 : 2 * (t + 4) + 2 = 9 + 2 * (0 + t) + 1 := by omega
  simp only [byte_at, hne, if_false, e1, e2]
  simpa using this

theorem parse_nibble_lt (c dest offset x : Nat) (h : parse_nibble c dest offset = some x) :
    x < 256 := by
  unfold parse_nibble at h
  simp only at h
  split_ifs at h <;>
    (simp only [Option.some.injEq] at h; subst h; exact Nat.mod_lt _ (by decide))

theorem record_bytes_lt (line : List Nat) (r : record_fields)
    (h : check_record line = some r) : ∀ v ∈ record_bytes r, v < 256 := by
  obtain ⟨_, _, _, _, _, _, _, hdata, ht, hl, _, hc, _⟩ := check_record_spec line r h
  obtain ⟨hlen, hb⟩ := parse_data_spec line r.length 0 r.data hdata
  intro v hv
  simp only [record_bytes, List.mem_append, List.mem_cons, List.mem_singleton,
    List.not_mem_nil, or_false] at hv
  rcases hv with ((hv | hv | hv | hv) | hv) | hv
  · omega
  · omega
  · omega
  · omega
  · obtain ⟨t, ht1, rfl⟩ := List.mem_iff_getElem.mp hv
    have hbt := hb t (by omega)
    rw [List.getElem?_eq_getElem ht1] at hbt
    cases h1 : parse_nibble (line.getD (9 + 2 * (0 + t)) 0) 0 4 with
    | none =>
      rw [h1] at hbt
      exact absurd hbt (by simp)
    | some d1 =>
      simp only [h1, Option.some_bind] at hbt
      exact parse_nibble_lt _ _ _ _ hbt
  · omega

theorem handle_record_data (r : record_fields) (file : intel_hex_file) (h : r.type = 0) :
    handle_record r file = Outcome.ok { file with
      head := file.head ++
        [{ data := r.data,
           address := ((r.address + file.ext_segment_addr * 16) |||
                       (file.ext_linear_addr <<< 16)) % 2 ^ 32,
           length := r.length }],
      num_records := file.num_records + 1 } := by
  unfold handle_record
  simp [h, INTEL_HEX_RECORD_DATA]

/-- C6: when `parse_record` accepts a line of type 00 whose length field
decodes to `n`, whose address field decodes to the 16-bit value `a` and whose
payload bytes decode to `d`, in a file state with `ext_segment_addr = s` and
`ext_linear_addr = l`, it appends to the list one record with address
`((a + s * 16) | (l << 16))` reduced to 32 bits, length `n` and data `d`, and
counts it; the rest of the file state is unchanged. -/
theorem data_record_absolute_address (line : List Nat) (file file1 : intel_hex_file)
    (n a : Nat) (d : List Nat)
    (hacc : parse_record line file = Outcome.ok file1)
    (htype : byte_at line 3 = some 0)
    (hn : byte_at line 0 = some n)
    (ha : a < 65536)
    (hhi : byte_at line 1 = some (a / 256))
    (hlo : byte_at line 2 = some (a % 256))
    (hd : d.length = n)
    (hdb : ∀ t, t < n → byte_at line (t + 4) = d[t]?) :
    file1 = { file with
      head := file.head ++
        [{ data := d,
           address := ((a + file.ext_segment_addr * 16) |||
                       (file.ext_linear_addr <<< 16)) % 2 ^ 32,
           length := n }],
      num_records := file.num_records + 1 } := by
  unfold parse_record at hacc
  cases hr : check_record line with
  | none => simp [hr] at hacc
  | some r =>
    simp only [hr] at hacc
    obtain ⟨_, hlen, b0, b1, b2, b3, _, hdata, _, _, hra, _, _⟩ := check_record_spec line r hr
    obtain ⟨hdl, _⟩ := parse_data_spec line r.length 0 r.data hdata
    have ht : r.type = 0 := by
      rw [b3] at htype
      simpa using htype
    have hn1 : r.length = n := by
      rw [b0] at hn
      simpa using hn
    have ha1 : r.address = a := by
      rw [b1] at hhi
      rw [b2] at hlo
      simp only [Option.some.injEq] at hhi hlo
      omega
    have hd1 : r.data = d := by
      apply List.ext_getElem?
      intro t
      rcases Nat.lt_or_ge t n with htn | htn
      · rw [← hdb t htn, byte_at_payload line r hr t (by omega)]
      · rw [List.getElem?_eq_none (by omega), List.getElem?_eq_none (by omega)]
    rw [handle_record_data r file ht, hn1, ha1, hd1] at hacc
    simp only [Outcome.ok.injEq] at hacc
    exact hacc.symm

theorem data_record_absolute_address_witness :
    ({ head := [{ data := [0x12, 0x34], address := 0x00301230, length := 2 }],
       num_records := 1, start_addr := 0, ext_linear_addr := 0x30, ext_segment_addr := 0x100,
       has_eof := 0 } : intel_hex_file) =
    { ({ head := [], num_records := 0, start_addr := 0, ext_linear_addr := 0x30,
         ext_segment_addr := 0x100, has_eof := 0 } : intel_hex_file) with
      head := [] ++
        [{ data := [0x12, 0x34],
           address := ((0x0230 + 0x100 * 16) ||| (0x30 <<< 16)) % 2 ^ 32,
           length := 2 }],
      num_records := 0 + 1 } :=
  data_record_absolute_address (bytes ":02023000123486")
    { head := [], num_records := 0, start_addr := 0, ext_linear_addr := 0x30,
      ext_segment_addr := 0x100, has_eof := 0 }
    { head := [{ data := [0x12, 0x34], address := 0x00301230, length := 2 }],
      num_records := 1, start_addr := 0, ext_linear_addr := 0x30, ext_segment_addr := 0x100,
      has_eof := 0 }
    2 0x0230 [0x12, 0x34] (by decide) (by decide) (by decide) (by decide) (by decide)
    (by decide) (by decide) (by decide)

theorem handle_record_effect (r : record_fields) (f f1 : intel_hex_file)
    (h : handle_record r f = Outcome.ok f1) :
    f1.has_eof = (if r.type = 1 then 1 else f.has_eof) ∧
    f1.head = (if r.type = 0 then
      f.head ++ [{ data := r.data,
                   address := ((r.address + f.ext_segment_addr * 16) |||
                               (f.ext_linear_addr <<< 16)) % 2 ^ 32,
                   length := r.length }]
      else f.head) ∧
    f1.num_records = f.num_records + (if r.type = 0 then 1 else 0) ∧
    (r.type ≠ 2 → f1.ext_segment_addr = f.ext_segment_addr) ∧
    (r.type ≠ 4 → f1.ext_linear_addr = f.ext_linear_addr) := by
  unfold handle_record at h
  simp only [INTEL_HEX_RECORD_DATA, INTEL_HEX_RECORD_EOF, INTEL_HEX_RECORD_EXT_SEG_ADDR,
    INTEL_HEX_RECORD_START_SEG_ADDR, INTEL_HEX_RECORD_EXT_LIN_ADDR,
    INTEL_HEX_RECORD_START_LIN_ADDR] at h
  split_ifs at h with h0 h1 h2 h3 h4 h5
  · simp only [Outcome.ok.injEq] at h
    subst h
    simp [h0]
  · simp only [Outcome.ok.injEq] at h
    subst h
    simp [h0, h1]
  · split at h
    · simp only [Outcome.ok.injEq] at h
      subst h
      simp [h0, h1, h2]
    · cases h
  · split at h
    · simp only [Outcome.ok.injEq] at h
      subst h
      simp [h0, h1, h3]
    · cases h
  · split at h
    · simp only [Outcome.ok.injEq] at h
      subst h
      simp [h0, h1, h2, h4]
    · cases h
  · split at h
    · simp only [Outcome.ok.injEq] at h
      subst h
      simp [h0, h1, h5]
    · cases h
  · simp only [Outcome.ok.injEq] at h
    subst h
    simp [h0, h1, h2, h4]

/-- An accepted line is a record whose type `record_type` reports, and the
file state changes as the type says. -/
theorem parse_record_effect (line : List Nat) (f f1 : intel_hex_file)
    (h : parse_record line f = Outcome.ok f1) :
    ∃ r, check_record line = some r ∧ record_type line = some r.type ∧
      handle_record r f = Outcome.ok f1 := by
  unfold parse_record at h
  cases hr : check_record line with
  | none => simp [hr] at h
  | some r =>
    simp only [hr] at h
    exact ⟨r, rfl, by simp [record_type, hr], h⟩

theorem record_type_blank (line : List Nat) (h : line.getD 0 0 = 0) :
    record_type line = none := by
  cases hr : check_record line with
  | none => simp [record_type, hr]
  | some r =>
    have := (check_record_spec line r hr).1
    omega

theorem parse_lines_append (a b : List (List Nat)) :
    ∀ f, parse_lines f (a ++ b) =
      match parse_lines f a with
      | Outcome.ok f1 => parse_lines f1 b
      | Outcome.fail => Outcome.fail
      | Outcome.fault => Outcome.fault := by
  induction a with
  | nil => intro f; simp [parse_lines]
  | cons line rest ih =>
    intro f
    simp only [List.cons_append, parse_lines]
    split_ifs with h0 h1
    · exact ih f
    · rfl
    · cases hp : parse_record line f with
      | ok f1 => simp only [hp]; exact ih f1
      | fail => rfl
      | fault => rfl

/-- Once `has_eof` is set, the remaining lines are accepted exactly when all
of them are empty. -/
theorem parse_lines_after_eof (lines : List (List Nat)) (f : intel_hex_file)
    (h : f.has_eof ≠ 0) :
    ((∀ l ∈ lines, l.getD 0 0 = 0) → parse_lines f lines = Outcome.ok f) ∧
    ((∃ l ∈ lines, l.getD 0 0 ≠ 0) → parse_lines f lines = Outcome.fail) := by
  induction lines with
  | nil => simp [parse_lines]
  | cons line rest ih =>
    constructor
    · intro hall
      have h0 : line.getD 0 0 = 0 := hall line (by simp)
      simp only [parse_lines, h0, if_true]
      exact ih.1 (fun l hl => hall l (by simp [hl]))
    · rintro ⟨l, hl, hne⟩
      simp only [parse_lines]
      split_ifs with h0
      · rcases List.mem_cons.mp hl with rfl | hl
        · exact absurd h0 hne
        · exact ih.2 ⟨l, hl, hne⟩
      · rfl

/-- A run of the loop that ends with `has_eof` set, started without it, has
met an EOF record, and every line after that record is empty. -/
theorem parse_lines_eof_position (lines : List (List Nat)) :
    ∀ (f hf : intel_hex_file), parse_lines f lines = Outcome.ok hf → f.has_eof = 0 →
      hf.has_eof ≠ 0 →
      hf.has_eof = 1 ∧
      ∃ pre e post, lines = pre ++ e :: post ∧ record_type e = some 1 ∧
        ∀ l ∈ post, l.getD 0 0 = 0 := by
  induction lines with
  | nil =>
    intro f hf h h0 h1
    simp only [parse_lines, Outcome.ok.injEq] at h
    subst h
    exact absurd h0 h1
  | cons line rest ih =>
    intro f hf h h0 h1
    simp only [parse_lines] at h
    split_ifs at h with hb
    · obtain ⟨he, pre, e, post, hl, ht, hp⟩ := ih f hf h h0 h1
      exact ⟨he, line :: pre, e, post, by simp [hl], ht, hp⟩
    · cases hp : parse_record line f with
      | fail => simp [hp] at h
      | fault => simp [hp] at h
      | ok f1 =>
        simp only [hp] at h
        obtain ⟨r, hr, hrt, hh⟩ := parse_record_effect line f f1 hp
        obtain ⟨e1, _⟩ := handle_record_effect r f f1 hh
        by_cases ht : r.type = 1
        · have hf1 : f1.has_eof ≠ 0 := by simp [e1, ht]
          have hrest : ∀ l ∈ rest, l.getD 0 0 = 0 := by
            by_contra hcon
            push_neg at hcon
            obtain ⟨l, hl, hne⟩ := hcon
            rw [(parse_lines_after_eof rest f1 hf1).2 ⟨l, hl, hne⟩] at h
            cases h
          rw [(parse_lines_after_eof rest f1 hf1).1 hrest] at h
          simp only [Outcome.ok.injEq] at h
          subst h
          refine ⟨by simp [e1, ht], [], line, rest, rfl, ?_, hrest⟩
          rw [hrt, ht]
        · have hf1 : f1.has_eof = 0 := by simp [e1, ht, h0]
          obtain ⟨he, pre, e, post, hl, hte, hpo⟩ := ih f1 hf h hf1 h1
          exact ⟨he, line :: pre, e, post, by simp [hl], hte, hpo⟩

/-- Without an EOF record among the lines, `has_eof` keeps its value. -/
theorem parse_lines_no_eof (lines : List (List Nat)) :
    ∀ (f hf : intel_hex_file), parse_lines f lines = Outcome.ok hf →
      (∀ l ∈ lines, record_type l ≠ some 1) → hf.has_eof = f.has_eof := by
  induction lines with
  | nil =>
    intro f hf h _
    simp only [parse_lines, Outcome.ok.injEq] at h
    subst h
    rfl
  | cons line rest ih =>
    intro f hf h hno
    simp only [parse_lines] at h
    split_ifs at h with hb h0
    · exact ih f hf h (fun l hl => hno l (by simp [hl]))
    · cases hp : parse_record line f with
      | fail => simp [hp] at h
      | fault => simp [hp] at h
      | ok f1 =>
        simp only [hp] at h
        obtain ⟨r, hr, hrt, hh⟩ := parse_record_effect line f f1 hp
        obtain ⟨e1, _⟩ := handle_record_effect r f f1 hh
        have ht : r.type ≠ 1 := by
          intro hc
          exact hno line (by simp) (by rw [hrt, hc])
        rw [ih f1 hf h (fun l hl => hno l (by simp [hl])), e1]
        simp [ht]

theorem trim_line_mem (under : Nat × Nat) (line : List Nat) :
    ∀ c ∈ trim_line under line, c ∈ line := by
  intro c hc
  unfold trim_line at hc
  split_ifs at hc
  · exact List.mem_of_mem_take hc
  · exact hc
  · exact List.mem_of_mem_take hc
  · exact hc
  · exact hc

theorem trim_pieces_no_nul (under : Nat → Nat × Nat) (ps : List (List Nat)) :
    ∀ k, ∀ l ∈ trim_pieces under k ps, ∀ c ∈ l, c ≠ 0 := by
  induction ps with
  | nil => intro k l hl; simp [trim_pieces] at hl
  | cons p ps ih =>
    intro k l hl c hc
    simp only [trim_pieces, List.mem_cons] at hl
    rcases hl with rfl | hl
    · have h1 := trim_line_mem (under k) (c_string p) c hc
      unfold c_string at h1
      have h2 := List.mem_takeWhile_imp h1
      simpa using h2
    · exact ih (k + 1) l hl c hc

/-- A line produced by the reading step is seen as empty by the loop exactly
when it has no character. -/
theorem read_lines_blank (under : Nat → Nat × Nat) (contents l : List Nat)
    (hl : l ∈ read_lines under contents) : l.getD 0 0 = 0 ↔ l = [] := by
  constructor
  · intro h
    match l, hl, h with
    | [], _, _ => rfl
    | c :: cs, hl, h =>
      have := trim_pieces_no_nul under _ 0 (c :: cs) hl c (by simp)
      simp at h
      exact absurd h this
  · rintro rfl
    rfl

theorem handle_record_eof (r : record_fields) (f : intel_hex_file) (h : r.type = 1) :
    handle_record r f = Outcome.ok { f with has_eof := 1 } := by
  unfold handle_record
  simp [h, INTEL_HEX_RECORD_DATA, INTEL_HEX_RECORD_EOF]

theorem parse_record_eof (e : List Nat) (f : intel_hex_file) (he : record_type e = some 1) :
    parse_record e f = Outcome.ok { f with has_eof := 1 } ∧ e.getD 0 0 ≠ 0 := by
  unfold record_type at he
  cases hr : check_record e with
  | none => simp [hr] at he
  | some r =>
    simp only [hr, Option.map_some', Option.some.injEq] at he
    have := (check_record_spec e r hr).1
    refine ⟨?_, by omega⟩
    unfold parse_record
    simp only [hr]
    exact handle_record_eof r f he

/-- The loop on the lines up to an EOF record `e` followed by `post`. -/
theorem parse_lines_through_eof (pre post : List (List Nat)) (e : List Nat)
    (f1 : intel_hex_file) (he : record_type e = some 1)
    (hpre : parse_lines calloc_file pre = Outcome.ok f1) :
    ((∃ l ∈ post, l.getD 0 0 ≠ 0) →
      parse_lines calloc_file (pre ++ e :: post) = Outcome.fail) ∧
    ((∀ l ∈ post, l.getD 0 0 = 0) → f1.has_eof = 0 →
      parse_lines calloc_file (pre ++ e :: post) = Outcome.ok { f1 with has_eof := 1 }) := by
  obtain ⟨hpe, hne⟩ := parse_record_eof e f1 he
  rw [parse_lines_append, hpre]
  simp only [parse_lines, hne, if_false]
  constructor
  · intro hex
    split_ifs with h0
    · rfl
    · simp only [hpe]
      exact (parse_lines_after_eof post _ (by simp)).2 hex
  · intro hall h0
    simp only [h0, ne_eq, not_true_eq_false, if_false, hpe]
    exact (parse_lines_after_eof post _ (by simp)).1 hall

/-- C8: let the lines read from the file be `pre`, then an EOF record `e`
(type 01), then `post`.  If `post` holds a line that is not empty, whatever
it is, `parse_intel_hex_file` does not succeed, and it returns -1 whenever the
lines of `pre` were parsed; if every line of `post` is empty and `e` is the
first EOF record, the parse succeeds with the state reached at `e`. -/
theorem lines_after_eof_record (under : Nat → Nat × Nat) (contents : List Nat)
    (pre post : List (List Nat)) (e : List Nat)
    (hlines : read_lines under contents = pre ++ e :: post)
    (he : record_type e = some 1) :
    ((∃ l ∈ post, l ≠ []) → ∀ hf, parse_intel_hex_file under contents ≠ Outcome.ok hf) ∧
    (∀ f1, parse_lines calloc_file pre = Outcome.ok f1 →
      ((∃ l ∈ post, l ≠ []) → parse_intel_hex_file under contents = Outcome.fail) ∧
      ((∀ l ∈ post, l = []) → f1.has_eof = 0 →
        parse_intel_hex_file under contents = Outcome.ok { f1 with has_eof := 1 })) := by
  have hmem : ∀ l ∈ post, l ∈ read_lines under contents := by
    intro l hl
    rw [hlines]
    simp [hl]
  have hex : (∃ l ∈ post, l ≠ []) → ∃ l ∈ post, l.getD 0 0 ≠ 0 := by
    rintro ⟨l, hl, hne⟩
    exact ⟨l, hl, fun h => hne ((read_lines_blank under contents l (hmem l hl)).mp h)⟩
  have hall : (∀ l ∈ post, l = []) → ∀ l ∈ post, l.getD 0 0 = 0 := by
    intro h l hl
    rw [h l hl]
    rfl
  have part2 : ∀ f1, parse_lines calloc_file pre = Outcome.ok f1 →
      ((∃ l ∈ post, l ≠ []) → parse_intel_hex_file under contents = Outcome.fail) ∧
      ((∀ l ∈ post, l = []) → f1.has_eof = 0 →
        parse_intel_hex_file under contents = Outcome.ok { f1 with has_eof := 1 }) := by
    intro f1 hpre
    obtain ⟨h1, h2⟩ := parse_lines_through_eof pre post e f1 he hpre
    constructor
    · intro hne
      unfold parse_intel_hex_file
      rw [hlines, h1 (hex hne)]
    · intro hbl h0
      unfold parse_intel_hex_file
      rw [hlines, h2 (hall hbl) h0]
      simp
  refine ⟨?_, part2⟩
  intro hne hf hok
  cases hpre : parse_lines calloc_file pre with
  | ok f1 =>
    rw [(part2 f1 hpre).1 hne] at hok
    cases hok
  | fail =>
    unfold parse_intel_hex_file at hok
    rw [hlines, parse_lines_append, hpre] at hok
    cases hok
  | fault =>
    unfold parse_intel_hex_file at hok
    rw [hlines, parse_lines_append, hpre] at hok
    cases hok

/-- C9: if no line read from the file is an EOF record (type 01),
`parse_intel_hex_file` does not succeed, and it returns -1 when every line was
accepted by the loop; and whenever it succeeds, `has_eof` is 1 and the lines
are some lines, an EOF record, and then only empty lines. -/
theorem eof_record_required (under : Nat → Nat × Nat) (contents : List Nat) :
    ((∀ l ∈ read_lines under contents, record_type l ≠ some 1) →
      (∀ hf, parse_intel_hex_file under contents ≠ Outcome.ok hf) ∧
      (∀ f1, parse_lines calloc_file (read_lines under contents) = Outcome.ok f1 →
        parse_intel_hex_file under contents = Outcome.fail)) ∧
    (∀ hf, parse_intel_hex_file under contents = Outcome.ok hf →
      hf.has_eof = 1 ∧
      ∃ pre e post, read_lines under contents = pre ++ e :: post ∧
        record_type e = some 1 ∧ ∀ l ∈ post, l = []) := by
  have hfail : (∀ l ∈ read_lines under contents, record_type l ≠ some 1) →
      ∀ f1, parse_lines calloc_file (read_lines under contents) = Outcome.ok f1 →
        parse_intel_hex_file under contents = Outcome.fail := by
    intro hno f1 hp
    have h0 := parse_lines_no_eof _ calloc_file f1 hp hno
    unfold parse_intel_hex_file
    rw [hp]
    simp only [h0, calloc_file, if_true]
  have hsucc : ∀ hf, parse_intel_hex_file under contents = Outcome.ok hf →
      parse_lines calloc_file (read_lines under contents) = Outcome.ok hf ∧ hf.has_eof ≠ 0 := by
    intro hf hok
    unfold parse_intel_hex_file at hok
    cases hp : parse_lines calloc_file (read_lines under contents) with
    | ok f1 =>
      rw [hp] at hok
      simp only at hok
      split_ifs at hok with h0
      simp only [Outcome.ok.injEq] at hok
      subst hok
      exact ⟨rfl, h0⟩
    | fail => rw [hp] at hok; cases hok
    | fault => rw [hp] at hok; cases hok
  refine ⟨fun hno => ⟨?_, hfail hno⟩, ?_⟩
  · intro hf hok
    have := hfail hno hf (hsucc hf hok).1
    rw [this] at hok
    cases hok
  · intro hf hok
    obtain ⟨hp, hne⟩ := hsucc hf hok
    obtain ⟨h1, pre, e, post, hl, ht, hpost⟩ :=
      parse_lines_eof_position _ calloc_file hf hp rfl hne
    refine ⟨h1, pre, e, post, hl, ht, ?_⟩
    intro l hlp
    exact (read_lines_blank under contents l (by rw [hl]; simp [hlp])).mp (hpost l hlp)

theorem lines_after_eof_record_witness :
    parse_intel_hex_file (fun _ => (0, 0)) (bytes ":00000001FF\n:0100000055AA\n") =
      Outcome.fail ∧
    parse_intel_hex_file (fun _ => (0, 0)) (bytes ":00000001FF\n\n\r\n") =
      Outcome.ok { calloc_file with has_eof := 1 } :=
  ⟨((lines_after_eof_record (fun _ => (0, 0)) (bytes ":00000001FF\n:0100000055AA\n")
      [] [bytes ":0100000055AA"] (bytes ":00000001FF") (by decide) (by decide)).2
      calloc_file rfl).1 (by decide),
   ((lines_after_eof_record (fun _ => (0, 0)) (bytes ":00000001FF\n\n\r\n")
      [] [[], []] (bytes ":00000001FF") (by decide) (by decide)).2
      calloc_file rfl).2 (by decide) rfl⟩

theorem eof_record_required_witness :
    parse_intel_hex_file (fun _ => (0, 0)) (bytes ":0100000055AA\n") = Outcome.fail ∧
    (({ head := [{ data := [0x55], address := 0, length := 1 }], num_records := 1,
        start_addr := 0, ext_linear_addr := 0, ext_segment_addr := 0,
        has_eof := 1 } : intel_hex_file).has_eof = 1 ∧
      ∃ pre e post,
        read_lines (fun _ => (0, 0)) (bytes ":0100000055AA\n:00000001FF\n\n") =
          pre ++ e :: post ∧
        record_type e = some 1 ∧ ∀ l ∈ post, l = []) :=
  ⟨((eof_record_required (fun _ => (0, 0)) (bytes ":0100000055AA\n")).1 (by decide)).2
      { head := [{ data := [0x55], address := 0, length := 1 }], num_records := 1,
        start_addr := 0, ext_linear_addr := 0, ext_segment_addr := 0, has_eof := 0 }
      (by decide),
   (eof_record_required (fun _ => (0, 0)) (bytes ":0100000055AA\n:00000001FF\n\n")).2
      { head := [{ data := [0x55], address := 0, length := 1 }], num_records := 1,
        start_addr := 0, ext_linear_addr := 0, ext_segment_addr := 0, has_eof := 1 }
      (by decide)⟩

theorem data_lines_cons (line : List Nat) (rest : List (List Nat)) :
    data_lines (line :: rest) =
      if record_type line = some 0 then line :: data_lines rest else data_lines rest := by
  unfold data_lines
  simp only [List.filter_cons, INTEL_HEX_RECORD_DATA, decide_eq_true_eq]

/-- The records appended by the loop are, in order, the records of the Data
lines, and `num_records` counts them. -/
theorem parse_lines_records (lines : List (List Nat)) :
    ∀ (f hf : intel_hex_file), parse_lines f lines = Outcome.ok hf →
      ∃ more, hf.head = f.head ++ more ∧
        List.Forall₂ emitted_from more (data_lines lines) ∧
        hf.num_records = f.num_records + more.length := by
  induction lines with
  | nil =>
    intro f hf h
    simp only [parse_lines, Outcome.ok.injEq] at h
    subst h
    exact ⟨[], by simp, by simp [data_lines], by simp⟩
  | cons line rest ih =>
    intro f hf h
    simp only [parse_lines] at h
    split_ifs at h with hb h0
    · obtain ⟨more, h1, h2, h3⟩ := ih f hf h
      refine ⟨more, h1, ?_, h3⟩
      rw [data_lines_cons, record_type_blank line hb]
      simpa using h2
    · cases hp : parse_record line f with
      | fail => simp [hp] at h
      | fault => simp [hp] at h
      | ok f1 =>
        simp only [hp] at h
        obtain ⟨r, hr, hrt, hh⟩ := parse_record_effect line f f1 hp
        obtain ⟨_, e2, e3, _, _⟩ := handle_record_effect r f f1 hh
        obtain ⟨more, h1, h2, h3⟩ := ih f1 hf h
        rw [data_lines_cons, hrt]
        by_cases ht : r.type = 0
        · simp only [ht, if_true] at e2 e3 ⊢
          refine ⟨(intel_hex_record.mk r.data
            (((r.address + f.ext_segment_addr * 16) ||| (f.ext_linear_addr <<< 16)) % 2 ^ 32)
            r.length) :: more,
            by rw [h1, e2]; simp, ?_, by rw [h3, e3]; simp; omega⟩
          refine List.Forall₂.cons ?_ h2
          exact ⟨r, hr, ht, rfl, rfl, f.ext_segment_addr, f.ext_linear_addr, rfl⟩
        · simp only [ht, if_false] at e2 e3
          have hne : ¬ (some r.type = some 0) := by simpa using ht
          simp only [hne, if_false]
          exact ⟨more, by rw [h1, e2], h2, by rw [h3, e3]; simp⟩

/-- Without extended address records among the lines, every record appended
by the loop uses the extended addresses of the starting state. -/
theorem parse_lines_plain_addresses (lines : List (List Nat)) :
    ∀ (f hf : intel_hex_file), parse_lines f lines = Outcome.ok hf →
      (∀ l ∈ lines, record_type l ≠ some 2 ∧ record_type l ≠ some 4) →
      hf.ext_segment_addr = f.ext_segment_addr ∧ hf.ext_linear_addr = f.ext_linear_addr ∧
      ∃ more, hf.head = f.head ++ more ∧
        List.Forall₂ (fun r l => ∃ c, check_record l = some c ∧
          r.address = ((c.address + f.ext_segment_addr * 16) |||
            (f.ext_linear_addr <<< 16)) % 2 ^ 32) more (data_lines lines) := by
  induction lines with
  | nil =>
    intro f hf h _
    simp only [parse_lines, Outcome.ok.injEq] at h
    subst h
    exact ⟨rfl, rfl, [], by simp, by simp [data_lines]⟩
  | cons line rest ih =>
    intro f hf h hno
    have hrest : ∀ l ∈ rest, record_type l ≠ some 2 ∧ record_type l ≠ some 4 :=
      fun l hl => hno l (by simp [hl])
    simp only [parse_lines] at h
    split_ifs at h with hb h0
    · obtain ⟨h1, h2, more, h3, h4⟩ := ih f hf h hrest
      refine ⟨h1, h2, more, h3, ?_⟩
      rw [data_lines_cons, record_type_blank line hb]
      simpa using h4
    · cases hp : parse_record line f with
      | fail => simp [hp] at h
      | fault => simp [hp] at h
      | ok f1 =>
        simp only [hp] at h
        obtain ⟨r, hr, hrt, hh⟩ := parse_record_effect line f f1 hp
        obtain ⟨_, e2, _, e4, e5⟩ := handle_record_effect r f f1 hh
        have hl := hno line (by simp)
        rw [hrt] at hl
        have hs : f1.ext_segment_addr = f.ext_segment_addr :=
          e4 (fun hc => hl.1 (by rw [hc]))
        have hlin : f1.ext_linear_addr = f.ext_linear_addr :=
          e5 (fun hc => hl.2 (by rw [hc]))
        obtain ⟨h1, h2, more, h3, h4⟩ := ih f1 hf h hrest
        rw [hs, hlin] at h4
        rw [data_lines_cons, hrt]
        refine ⟨by rw [h1, hs], by rw [h2, hlin], ?_⟩
        by_cases ht : r.type = 0
        · simp only [ht, if_true] at e2 ⊢
          refine ⟨(intel_hex_record.mk r.data
            (((r.address + f.ext_segment_addr * 16) ||| (f.ext_linear_addr <<< 16)) % 2 ^ 32)
            r.length) :: more,
            by rw [h3, e2]; simp, ?_⟩
          refine List.Forall₂.cons ?_ h4
          exact ⟨r, hr, rfl⟩
        · simp only [ht, if_false] at e2
          have hne : ¬ (some r.type = some 0) := by simpa using ht
          simp only [hne, if_false]
          exact ⟨more, by rw [h3, e2], h4⟩

theorem parse_file_ok (under : Nat → Nat × Nat) (contents : List Nat) (hf : intel_hex_file)
    (h : parse_intel_hex_file under contents = Outcome.ok hf) :
    parse_lines calloc_file (read_lines under contents) = Outcome.ok hf := by
  unfold parse_intel_hex_file at h
  cases hp : parse_lines calloc_file (read_lines under contents) with
  | ok f1 =>
    rw [hp] at h
    simp only at h
    split_ifs at h
    simp only [Outcome.ok.injEq] at h
    rw [h]
  | fail => rw [hp] at h; cases h
  | fault => rw [hp] at h; cases h

/-- C7: split the lines read from a successfully parsed file into `pre` and
`post`.  The records emitted while parsing `pre` are the first records of the
final list, unchanged by whatever `post` holds; and when `pre` holds no
extended segment or extended linear address record (type 02 or 04), each of
these records has the 16-bit address field of its Data line as address. -/
theorem extended_address_not_retroactive (under : Nat → Nat × Nat) (contents : List Nat)
    (pre post : List (List Nat)) (hf : intel_hex_file)
    (hlines : read_lines under contents = pre ++ post)
    (h : parse_intel_hex_file under contents = Outcome.ok hf) :
    ∃ f1 more, parse_lines calloc_file pre = Outcome.ok f1 ∧
      intel_hex_get_first_record hf = f1.head ++ more ∧
      ((∀ l ∈ pre, record_type l ≠ some 2 ∧ record_type l ≠ some 4) →
        List.Forall₂ (fun r l => line_address l = some r.address) f1.head (data_lines pre)) := by
  have hp := parse_file_ok under contents hf h
  rw [hlines, parse_lines_append] at hp
  cases hpre : parse_lines calloc_file pre with
  | fail => rw [hpre] at hp; cases hp
  | fault => rw [hpre] at hp; cases hp
  | ok f1 =>
    rw [hpre] at hp
    simp only at hp
    obtain ⟨more, hmore, _, _⟩ := parse_lines_records post f1 hf hp
    refine ⟨f1, more, rfl, hmore, ?_⟩
    intro hno
    obtain ⟨_, _, more1, h1, h2⟩ := parse_lines_plain_addresses pre calloc_file f1 hpre hno
    have e : f1.head = more1 := by simpa [calloc_file] using h1
    rw [e]
    refine List.Forall₂.imp ?_ h2
    rintro r l ⟨c, hc, ha⟩
    have hlt := (check_record_spec l c hc).2.2.2.2.2.2.2.2.2.2.1
    have hval : ((c.address + calloc_file.ext_segment_addr * 16) |||
        (calloc_file.ext_linear_addr <<< 16)) % 2 ^ 32 = c.address := by
      simp only [calloc_file, Nat.zero_mul, Nat.add_zero, Nat.zero_shiftLeft, Nat.or_zero]
      exact Nat.mod_eq_of_lt (by omega)
    rw [hval] at ha
    simp [line_address, hc, ha]

theorem extended_address_not_retroactive_witness :
    ∃ f1 more, parse_lines calloc_file [bytes ":0100000055AA"] = Outcome.ok f1 ∧
      intel_hex_get_first_record
        { head := [{ data := [0x55], address := 0, length := 1 },
                   { data := [0x66], address := 0x300001, length := 1 }],
          num_records := 2, start_addr := 0, ext_linear_addr := 0x30,
          ext_segment_addr := 0, has_eof := 1 } = f1.head ++ more ∧
      ((∀ l ∈ [bytes ":0100000055AA"], record_type l ≠ some 2 ∧ record_type l ≠ some 4) →
        List.Forall₂ (fun r l => line_address l = some r.address) f1.head
          (data_lines [bytes ":0100000055AA"])) :=
  extended_address_not_retroactive (fun _ => (0, 0))
    (bytes ":0100000055AA\n:020000040030CA\n:010001006698\n:00000001FF\n")
    [bytes ":0100000055AA"]
    [bytes ":020000040030CA", bytes ":010001006698", bytes ":00000001FF"]
    { head := [{ data := [0x55], address := 0, length := 1 },
               { data := [0x66], address := 0x300001, length := 1 }],
      num_records := 2, start_addr := 0, ext_linear_addr := 0x30,
      ext_segment_addr := 0, has_eof := 1 }
    (by decide) (by decide)

theorem walk_records_eq (rs : List intel_hex_record) :
    ∀ fuel, rs.length ≤ fuel →
      walk_records fuel rs = rs.map (fun r => (r.data, r.address, r.length)) := by
  induction rs with
  | nil =>
    intro fuel _
    cases fuel <;> simp [walk_records, intel_hex_get_next_record]
  | cons r rs ih =>
    intro fuel hfuel
    obtain ⟨fuel, rfl⟩ : ∃ f, fuel = f + 1 := ⟨fuel - 1, by simp at hfuel; omega⟩
    simp only [walk_records, intel_hex_get_next_record, List.map_cons]
    rw [ih fuel (by simp at hfuel; omega)]

/-- C10: after a successful parse the list reached through
`intel_hex_get_first_record` holds, in the order of the lines read, one
record for each Data line (type 00) and nothing else; walking it with
`intel_hex_get_next_record` visits these records in that order; and
`intel_hex_num_records` is the number of elements of the list. -/
theorem records_follow_data_lines (under : Nat → Nat × Nat) (contents : List Nat)
    (hf : intel_hex_file) (h : parse_intel_hex_file under contents = Outcome.ok hf) :
    List.Forall₂ emitted_from (intel_hex_get_first_record hf)
      (data_lines (read_lines under contents)) ∧
    (intel_hex_get_first_record hf).length = (data_lines (read_lines under contents)).length ∧
    (∀ fuel, (intel_hex_get_first_record hf).length ≤ fuel →
      walk_records fuel (intel_hex_get_first_record hf) =
        (intel_hex_get_first_record hf).map (fun r => (r.data, r.address, r.length))) ∧
    intel_hex_num_records hf = (intel_hex_get_first_record hf).length := by
  have hp := parse_file_ok under contents hf h
  obtain ⟨more, h1, h2, h3⟩ := parse_lines_records _ calloc_file hf hp
  have e : hf.head = more := by simpa [calloc_file] using h1
  subst e
  refine ⟨h2, h2.length_eq, fun fuel hfuel => walk_records_eq _ fuel hfuel, ?_⟩
  simpa [intel_hex_num_records, intel_hex_get_first_record, calloc_file] using h3

theorem records_follow_data_lines_witness :
    walk_records 2 (intel_hex_get_first_record
      { head := [{ data := [0x55], address := 0, length := 1 },
                 { data := [0x66], address := 0x300001, length := 1 }],
        num_records := 2, start_addr := 0, ext_linear_addr := 0x30,
        ext_segment_addr := 0, has_eof := 1 }) =
      (intel_hex_get_first_record
        { head := [{ data := [0x55], address := 0, length := 1 },
                   { data := [0x66], address := 0x300001, length := 1 }],
          num_records := 2, start_addr := 0, ext_linear_addr := 0x30,
          ext_segment_addr := 0, has_eof := 1 }).map (fun r => (r.data, r.address, r.length)) :=
  (records_follow_data_lines (fun _ => (0, 0))
    (bytes ":0100000055AA\n:020000040030CA\n:010001006698\n:00000001FF\n")
    { head := [{ data := [0x55], address := 0, length := 1 },
               { data := [0x66], address := 0x300001, length := 1 }],
      num_records := 2, start_addr := 0, ext_linear_addr := 0x30,
      ext_segment_addr := 0, has_eof := 1 }
    (by decide)).2.2.1 2 (by decide)

/-! ## Encoding a record and parsing it back -/

theorem hex_char_is_hex (x : Nat) (h : x < 16) : is_hex_char (hex_char x) = true := by
  unfold hex_char is_hex_char
  split <;> simp <;> omega

theorem hex_value_hex_char (x : Nat) (h : x < 16) : hex_value (hex_char x) = x := by
  unfold hex_char hex_value
  split_ifs <;> omega

theorem hex_byte_hex2 (b : Nat) (h : b < 256) :
    hex_byte (hex_char (b / 16 % 16)) (hex_char (b % 16)) = b := by
  unfold hex_byte
  rw [hex_value_hex_char _ (by omega), hex_value_hex_char _ (by omega)]
  omega

theorem hex_of_bytes_is_hex (d : List Nat) : ∀ c ∈ hex_of_bytes d, is_hex_char c = true := by
  induction d with
  | nil => intro c hc; simp [hex_of_bytes] at hc
  | cons b bs ih =>
    intro c hc
    simp only [hex_of_bytes, hex2, List.cons_append, List.nil_append, List.mem_cons] at hc
    rcases hc with rfl | rfl | hc
    · exact hex_char_is_hex _ (Nat.mod_lt _ (by decide))
    · exact hex_char_is_hex _ (Nat.mod_lt _ (by decide))
    · exact ih c hc

theorem hex_of_bytes_length (d : List Nat) : (hex_of_bytes d).length = 2 * d.length := by
  induction d with
  | nil => rfl
  | cons b bs ih => simp [hex_of_bytes, hex2, ih]; omega

theorem hex_bytes_hex_of_bytes (d : List Nat) (h : ∀ b ∈ d, b < 256) :
    hex_bytes (hex_of_bytes d) = d := by
  induction d with
  | nil => rfl
  | cons b bs ih =>
    have e : hex_of_bytes (b :: bs) =
        hex_char (b / 16 % 16) :: hex_char (b % 16) :: hex_of_bytes bs := rfl
    rw [e, hex_bytes, hex_byte_hex2 b (h b (by simp)), ih (fun x hx => h x (by simp [hx]))]

theorem encode_data_line_parsed (a : Nat) (d : List Nat) (file : intel_hex_file)
    (ha : a < 65536) (hn : d.length ≤ 255) (hd : ∀ b ∈ d, b < 256) :
    parse_record (encode_data_line a d) file =
      Outcome.ok { file with
        head := file.head ++
          [{ data := d,
             address := ((a + file.ext_segment_addr * 16) |||
                         (file.ext_linear_addr <<< 16)) % 2 ^ 32,
             length := d.length }],
        num_records := file.num_records + 1 } := by
  have hshape : encode_data_line a d =
      [58, hex_char (d.length / 16 % 16), hex_char (d.length % 16),
        hex_char (a / 256 % 256 / 16 % 16), hex_char (a / 256 % 256 % 16),
        hex_char (a % 256 / 16 % 16), hex_char (a % 256 % 16), 48, 48] ++
      hex_of_bytes d ++
      [hex_char (data_line_checksum a d / 16 % 16), hex_char (data_line_checksum a d % 16)] := by
    simp [encode_data_line, hex2, hex4]
  have hc : data_line_checksum a d < 256 := by
    unfold data_line_checksum
    omega
  have h00 : hex_byte 48 48 = 0 := by decide
  have hcheck := check_record_hex
    (hex_char (d.length / 16 % 16)) (hex_char (d.length % 16))
    (hex_char (a / 256 % 256 / 16 % 16)) (hex_char (a / 256 % 256 % 16))
    (hex_char (a % 256 / 16 % 16)) (hex_char (a % 256 % 16)) 48 48
    (hex_char (data_line_checksum a d / 16 % 16)) (hex_char (data_line_checksum a d % 16))
    (hex_of_bytes d)
    (by
      intro c hc
      simp only [List.mem_cons, List.mem_singleton, List.not_mem_nil, or_false] at hc
      rcases hc with rfl | rfl | rfl | rfl | rfl | rfl | rfl | rfl | rfl | rfl
      all_goals first
        | exact hex_char_is_hex _ (Nat.mod_lt _ (by decide))
        | decide)
    (hex_of_bytes_is_hex d)
    (by rw [hex_of_bytes_length, hex_byte_hex2 _ (by omega)])
    (by rw [h00]; omega)
  rw [hex_byte_hex2 _ (show d.length < 256 by omega),
    hex_byte_hex2 _ (show a / 256 % 256 < 256 by omega),
    hex_byte_hex2 _ (show a % 256 < 256 by omega),
    hex_byte_hex2 _ hc, hex_bytes_hex_of_bytes d hd, h00] at hcheck
  have hsum : (d.length + 0 + a / 256 % 256 + a % 256 + d.sum + data_line_checksum a d) % 256
      = 0 := by
    unfold data_line_checksum
    omega
  rw [if_pos hsum] at hcheck
  have haddr : 256 * (a / 256 % 256) + a % 256 = a := by omega
  rw [haddr] at hcheck
  unfold parse_record
  rw [hshape, hcheck]
  exact handle_record_data _ file rfl

/-- C11: for every 16-bit address `a` and every payload `d` of at most 255
bytes, the line `:` hex2(n) hex4(a) `00` hex(d) hex2(c), with `c` the two's
complement of the byte sum of `n`, the two address bytes and `d`, is accepted
by `parse_record` in every file state; the record it appends has length `n`,
data `d` and the address made of `a` and the extended addresses of the state,
which is `a` itself when both extended addresses are 0. -/
theorem data_line_round_trip (a : Nat) (d : List Nat) (file : intel_hex_file)
    (ha : a < 65536) (hn : d.length ≤ 255) (hd : ∀ b ∈ d, b < 256) :
    parse_record (encode_data_line a d) file =
      Outcome.ok { file with
        head := file.head ++
          [{ data := d,
             address := ((a + file.ext_segment_addr * 16) |||
                         (file.ext_linear_addr <<< 16)) % 2 ^ 32,
             length := d.length }],
        num_records := file.num_records + 1 } ∧
    (file.ext_segment_addr = 0 → file.ext_linear_addr = 0 →
      parse_record (encode_data_line a d) file =
        Outcome.ok { file with
          head := file.head ++ [{ data := d, address := a, length := d.length }],
          num_records := file.num_records + 1 }) := by
  have hmain := encode_data_line_parsed a d file ha hn hd
  refine ⟨hmain, ?_⟩
  intro hs hl
  rw [hmain, hs, hl]
  have : ((a + 0 * 16) ||| (0 <<< 16)) % 2 ^ 32 = a := by
    simp only [Nat.zero_mul, Nat.add_zero, Nat.zero_shiftLeft, Nat.or_zero]
    exact Nat.mod_eq_of_lt (by omega)
  rw [this]

theorem data_line_round_trip_witness :
    parse_record (encode_data_line 0x1234 [0xDE, 0xAD, 0xBE]) calloc_file =
      Outcome.ok { calloc_file with
        head := calloc_file.head ++
          [{ data := [0xDE, 0xAD, 0xBE],
             address := ((0x1234 + calloc_file.ext_segment_addr * 16) |||
                         (calloc_file.ext_linear_addr <<< 16)) % 2 ^ 32,
             length := [0xDE, 0xAD, 0xBE].length }],
        num_records := calloc_file.num_records + 1 } ∧
    (calloc_file.ext_segment_addr = 0 → calloc_file.ext_linear_addr = 0 →
      parse_record (encode_data_line 0x1234 [0xDE, 0xAD, 0xBE]) calloc_file =
        Outcome.ok { calloc_file with
          head := calloc_file.head ++
            [{ data := [0xDE, 0xAD, 0xBE], address := 0x1234,
               length := [0xDE, 0xAD, 0xBE].length }],
          num_records := calloc_file.num_records + 1 }) :=
  data_line_round_trip 0x1234 [0xDE, 0xAD, 0xBE] calloc_file (by decide) (by decide)
    (by decide)

/-- C12: `parse_record` returns -1 on every line with fewer than 11
characters, on every line whose length field is not read as a number, and on
every line whose number of characters differs from `11 + 2 * length`, where
`length` is the value read from the two characters of the length field. -/
theorem line_length_mismatch_rejected (line : List Nat) (file : intel_hex_file) :
    (line.length < 11 → parse_record line file = Outcome.fail) ∧
    (byte_at line 0 = none → parse_record line file = Outcome.fail) ∧
    (∀ length, byte_at line 0 = some length → line.length ≠ 11 + 2 * length →
      parse_record line file = Outcome.fail) := by
  have key : ∀ r, check_record line = some r →
      11 ≤ line.length ∧ byte_at line 0 = some r.length ∧ line.length = 11 + 2 * r.length := by
    intro r hr
    obtain ⟨_, hlen, b0, _⟩ := check_record_spec line r hr
    exact ⟨by omega, b0, by omega⟩
  have hfail : check_record line = none → parse_record line file = Outcome.fail := by
    intro h
    unfold parse_record
    rw [h]
  refine ⟨?_, ?_, ?_⟩
  · intro hlt
    apply hfail
    cases hr : check_record line with
    | none => rfl
    | some r => have := (key r hr).1; omega
  · intro hnone
    apply hfail
    cases hr : check_record line with
    | none => rfl
    | some r =>
      rw [(key r hr).2.1] at hnone
      cases hnone
  · intro length hb hne
    apply hfail
    cases hr : check_record line with
    | none => rfl
    | some r =>
      obtain ⟨_, h0, hl⟩ := key r hr
      rw [h0] at hb
      simp only [Option.some.injEq] at hb
      omega

/-- C13: three lines that `parse_record` accepts although a field holds a
character that is not a hexadecimal digit: a space in the checksum field, a
sign in the checksum field, and an `x` in the address field.  Each is parsed
as an empty Data record at address 0. -/
theorem non_hex_characters_accepted :
    is_hex_char 32 = false ∧ is_hex_char 43 = false ∧ is_hex_char 120 = false ∧
    (bytes ":00000000 0").getD 9 0 = 32 ∧
    (bytes ":00000000+0").getD 9 0 = 43 ∧
    (bytes ":000x000000").getD 4 0 = 120 ∧
    parse_record (bytes ":00000000 0") calloc_file =
      Outcome.ok { calloc_file with
        head := [{ data := [], address := 0, length := 0 }], num_records := 1 } ∧
    parse_record (bytes ":00000000+0") calloc_file =
      Outcome.ok { calloc_file with
        head := [{ data := [], address := 0, length := 0 }], num_records := 1 } ∧
    parse_record (bytes ":000x000000") calloc_file =
      Outcome.ok { calloc_file with
        head := [{ data := [], address := 0, length := 0 }], num_records := 1 } := by
  decide

/-! ## Line terminators -/

theorem line_length_mismatch_rejected_witness :
    parse_record (bytes ":01000055") calloc_file = Outcome.fail ∧
    parse_record (bytes ":0200000055AA") calloc_file = Outcome.fail :=
  ⟨(line_length_mismatch_rejected (bytes ":01000055") calloc_file).1 (by decide),
   (line_length_mismatch_rejected (bytes ":0200000055AA") calloc_file).2.2 2 (by decide)
     (by decide)⟩

theorem fgets_pieces_line (p : List Nat) :
    ∀ (cur rest : List Nat), 10 ∉ p → cur.length + p.length + 1 ≤ 255 →
      fgets_pieces 256 cur (p ++ 10 :: rest) = (cur ++ p ++ [10]) :: fgets_pieces 256 [] rest := by
  induction p with
  | nil =>
    intro cur rest _ _
    simp [fgets_pieces]
  | cons c p ih =>
    intro cur rest hp hlen
    have hc : c ≠ 10 := fun h => hp (by simp [h])
    have hsz : ¬ cur.length + 2 = 256 := by simp at hlen; omega
    have step : fgets_pieces 256 cur (c :: (p ++ 10 :: rest)) =
        fgets_pieces 256 (cur ++ [c]) (p ++ 10 :: rest) := by
      rw [fgets_pieces]
      simp [hc, hsz]
    rw [List.cons_append, step,
      ih (cur ++ [c]) rest (fun h => hp (by simp [h])) (by simp at hlen ⊢; omega)]
    simp

theorem fgets_pieces_file (e : List Nat) (he : 10 ∉ e) (lines : List (List Nat))
    (h : ∀ l ∈ lines, 10 ∉ l ∧ l.length + e.length + 1 ≤ 255) :
    fgets_pieces 256 [] (file_of_lines (e ++ [10]) lines) =
      lines.map (fun l => l ++ (e ++ [10])) := by
  induction lines with
  | nil => simp [file_of_lines, fgets_pieces]
  | cons l ls ih =>
    have hl := h l (by simp)
    have e1 : file_of_lines (e ++ [10]) (l :: ls) =
        (l ++ e) ++ 10 :: file_of_lines (e ++ [10]) ls := by
      simp [file_of_lines]
    rw [e1, fgets_pieces_line (l ++ e) [] _ (by simp [hl.1, he]) (by simp; omega),
      ih (fun x hx => h x (by simp [hx]))]
    simp

theorem c_string_no_nul (l : List Nat) (h : 0 ∉ l) : c_string l = l := by
  unfold c_string
  rw [List.takeWhile_eq_self_iff]
  intro x hx
  simp only [ne_eq, decide_not, Bool.not_eq_true', decide_eq_false_iff_not]
  exact fun hx0 => h (hx0 ▸ hx)

theorem c_string_append_no_nul (l t : List Nat) (h : 0 ∉ l) :
    c_string (l ++ t) = l ++ c_string t := by
  induction l with
  | nil => rfl
  | cons c l ih =>
    have hc : c ≠ 0 := fun hc => h (by simp [hc])
    have hl : 0 ∉ l := fun hl => h (by simp [hl])
    have := ih hl
    unfold c_string at this ⊢
    simpa [List.takeWhile_cons, hc] using this

theorem c_string_append_nul (l t : List Nat) (h : 0 ∈ l) :
    c_string (l ++ t) = c_string l := by
  induction l with
  | nil => simp at h
  | cons c l ih =>
    by_cases hc : c = 0
    · subst hc
      simp [c_string, List.takeWhile_cons]
    · have hl : 0 ∈ l := by
        rcases List.mem_cons.mp h with h0 | h0
        · exact absurd h0.symm hc
        · exact h0
      have := ih hl
      unfold c_string at this ⊢
      simpa [List.takeWhile_cons, hc] using this

theorem c_string_mem (l : List Nat) : ∀ c ∈ c_string l, c ∈ l := by
  induction l with
  | nil => intro c hc; simp [c_string] at hc
  | cons x l ih =>
    intro c hc
    unfold c_string at hc ih
    rw [List.takeWhile_cons] at hc
    split at hc
    · rcases List.mem_cons.mp hc with rfl | hc
      · simp
      · exact List.mem_cons_of_mem _ (ih c hc)
    · simp at hc

theorem getD_not_terminator (l : List Nat) (h10 : 10 ∉ l) (h13 : 13 ∉ l) (i : Nat)
    (hi : i < l.length) : l.getD i 0 ≠ 10 ∧ l.getD i 0 ≠ 13 := by
  rw [List.getD_eq_getElem _ _ hi]
  have hm : l[i] ∈ l := List.getElem_mem hi
  exact ⟨fun h => h10 (h ▸ hm), fun h => h13 (h ▸ hm)⟩

/-- A string without CR and LF is left as it is by the trimming step, whatever
lies below the buffer. -/
theorem trim_line_plain (under : Nat × Nat) (l : List Nat) (h10 : 10 ∉ l) (h13 : 13 ∉ l) :
    trim_line under l = l := by
  have hg := getD_not_terminator l h10 h13
  unfold trim_line char_from_end
  by_cases h2 : 2 ≤ l.length
  · have := hg (l.length - 2) (by omega)
    have := hg (l.length - 1) (by omega)
    have h1 : 1 ≤ l.length := by omega
    simp only [h2, h1, if_true]
    rw [if_neg (by tauto), if_neg (by tauto)]
  · simp only [h2, if_false]
    by_cases h1 : 1 ≤ l.length
    · have := hg (l.length - 1) (by omega)
      simp only [h1, if_true]
      split_ifs <;> first | rfl | tauto
    · simp only [h1, if_false]
      split_ifs <;> rfl

theorem trim_line_crlf (under : Nat × Nat) (l : List Nat) :
    trim_line under (l ++ [13, 10]) = l := by
  have hlen : (l ++ [13, 10]).length = l.length + 2 := by simp
  have hc : char_from_end under (l ++ [13, 10]) 2 = 13 := by
    unfold char_from_end
    rw [hlen, if_pos (by omega)]
    have : l.length + 2 - 2 = l.length + 0 := by omega
    rw [this, getD_append_add]
    rfl
  unfold trim_line
  rw [hc, if_pos (Or.inr rfl), hlen, if_pos (by omega)]
  simp

theorem trim_line_lf (under : Nat × Nat) (l : List Nat) (hne : l ≠ [])
    (h10 : 10 ∉ l) (h13 : 13 ∉ l) :
    trim_line under (l ++ [10]) = l := by
  have hpos : 1 ≤ l.length := by
    cases l with
    | nil => exact absurd rfl hne
    | cons _ _ => simp
  have hlen : (l ++ [10]).length = l.length + 1 := by simp
  have hc2 : char_from_end under (l ++ [10]) 2 = l.getD (l.length - 1) 0 := by
    unfold char_from_end
    rw [hlen, if_pos (by omega)]
    have : l.length + 1 - 2 = l.length - 1 := by omega
    rw [this, List.getD_eq_getElem?_getD, List.getD_eq_getElem?_getD,
      List.getElem?_append_left (by omega)]
  have hc1 : char_from_end under (l ++ [10]) 1 = 10 := by
    unfold char_from_end
    rw [hlen, if_pos (by omega)]
    have : l.length + 1 - 1 = l.length + 0 := by omega
    rw [this, getD_append_add]
    rfl
  have hg := getD_not_terminator l h10 h13 (l.length - 1) (by omega)
  unfold trim_line
  rw [hc2, if_neg (by tauto), hc1, if_pos (Or.inl rfl), hlen, if_pos (by omega)]
  simp

/-- The line feed alone: it is trimmed when the byte below the buffer is
neither CR nor LF, and kept otherwise. -/
theorem trim_line_lf_alone (under : Nat × Nat) :
    trim_line under [10] = if under.2 = 10 ∨ under.2 = 13 then [10] else [] := by
  unfold trim_line char_from_end
  by_cases h : under.2 = 10 ∨ under.2 = 13
  · simp [h]
  · simp [h]

theorem trimmed_crlf (under : Nat × Nat) (l : List Nat) (h10 : 10 ∉ l) (h13 : 13 ∉ l) :
    trim_line under (c_string (l ++ [13, 10])) = c_string l := by
  by_cases h0 : 0 ∈ l
  · rw [c_string_append_nul l _ h0]
    exact trim_line_plain under _ (fun h => h10 (c_string_mem l _ h))
      (fun h => h13 (c_string_mem l _ h))
  · rw [c_string_append_no_nul l _ h0, c_string_no_nul l h0,
      c_string_no_nul [13, 10] (by decide)]
    exact trim_line_crlf under l

theorem trimmed_lf (under : Nat × Nat) (l : List Nat) (hne : l ≠ [])
    (h10 : 10 ∉ l) (h13 : 13 ∉ l) :
    trim_line under (c_string (l ++ [10])) = c_string l := by
  by_cases h0 : 0 ∈ l
  · rw [c_string_append_nul l _ h0]
    exact trim_line_plain under _ (fun h => h10 (c_string_mem l _ h))
      (fun h => h13 (c_string_mem l _ h))
  · rw [c_string_append_no_nul l _ h0, c_string_no_nul l h0,
      c_string_no_nul [10] (by decide)]
    exact trim_line_lf under l hne h10 h13

theorem trim_pieces_map (under : Nat → Nat × Nat) (eol : List Nat) (lines : List (List Nat))
    (h : ∀ l ∈ lines, ∀ k, trim_line (under k) (c_string (l ++ eol)) = c_string l) :
    ∀ k, trim_pieces under k (lines.map (fun l => l ++ eol)) = lines.map c_string := by
  induction lines with
  | nil => intro k; rfl
  | cons l ls ih =>
    intro k
    simp only [List.map_cons, trim_pieces]
    rw [h l (by simp) k, ih (fun x hx => h x (by simp [hx])) (k + 1)]

theorem read_lines_crlf (under : Nat → Nat × Nat) (lines : List (List Nat))
    (h : ∀ l ∈ lines, l.length ≤ 253 ∧ 10 ∉ l ∧ 13 ∉ l) :
    read_lines under (file_of_lines [13, 10] lines) = lines.map c_string := by
  unfold read_lines
  have hp := fgets_pieces_file [13] (by decide) lines
    (fun l hl => ⟨(h l hl).2.1, by have := (h l hl).1; simp; omega⟩)
  have e : ([13] ++ [10] : List Nat) = [13, 10] := rfl
  rw [e] at hp
  rw [hp]
  exact trim_pieces_map under [13, 10] lines
    (fun l hl k => trimmed_crlf (under k) l (h l hl).2.1 (h l hl).2.2) 0

theorem read_lines_lf (under : Nat → Nat × Nat) (lines : List (List Nat))
    (h : ∀ l ∈ lines, l.length ≤ 253 ∧ 10 ∉ l ∧ 13 ∉ l)
    (hb : ∀ l ∈ lines, l = [] → ∀ k, (under k).2 ≠ 10 ∧ (under k).2 ≠ 13) :
    read_lines under (file_of_lines [10] lines) = lines.map c_string := by
  unfold read_lines
  have hp := fgets_pieces_file [] (by decide) lines
    (fun l hl => ⟨(h l hl).2.1, by have := (h l hl).1; simp; omega⟩)
  have e : ([] ++ [10] : List Nat) = [10] := rfl
  rw [e] at hp
  rw [hp]
  refine trim_pieces_map under [10] lines ?_ 0
  intro l hl k
  by_cases hne : l = []
  · subst hne
    have hk := hb [] hl rfl k
    have e1 : c_string ([] ++ [10]) = [10] := by decide
    have e2 : c_string [] = [] := rfl
    rw [e1, e2, trim_line_lf_alone, if_neg (by tauto)]
  · exact trimmed_lf (under k) l hne (h l hl).2.1 (h l hl).2.2

theorem parse_lines_skip_empty (lines : List (List Nat)) :
    ∀ f, parse_lines f (lines.map c_string) =
      parse_lines f ((lines.filter (fun l => l ≠ [])).map c_string) := by
  induction lines with
  | nil => intro f; rfl
  | cons l ls ih =>
    intro f
    by_cases hl : l = []
    · subst hl
      have e : c_string [] = [] := rfl
      simp only [List.map_cons, e, parse_lines, List.getD_nil, if_true]
      rw [ih f]
      simp
    · have hf : (l :: ls).filter (fun l => l ≠ []) = l :: ls.filter (fun l => l ≠ []) := by
        simp [List.filter_cons, hl]
      rw [hf]
      simp only [List.map_cons, parse_lines]
      split_ifs
      · exact ih f
      · rfl
      · cases parse_record (c_string l) f with
        | ok f1 => exact ih f1
        | fail => rfl
        | fault => rfl

theorem parse_file_of_lines (under : Nat → Nat × Nat) (contents : List Nat)
    (lines : List (List Nat)) (h : read_lines under contents = lines) :
    parse_intel_hex_file under contents =
      match parse_lines calloc_file lines with
      | Outcome.ok file => if file.has_eof = 0 then Outcome.fail else Outcome.ok file
      | Outcome.fail => Outcome.fail
      | Outcome.fault => Outcome.fault := by
  unfold parse_intel_hex_file
  rw [h]

/-- C14 (amended): let `lines` be record lines that are not empty, have at
most 253 characters and hold no CR and no LF, and let `lines2` be `lines` with
empty lines inserted anywhere.  `parse_intel_hex_file` returns the same
outcome, with the same file state on success, for `lines` terminated by LF,
for `lines` terminated by CR LF and for `lines2` terminated by CR LF. -/
theorem line_terminators_do_not_matter (under1 under2 under3 : Nat → Nat × Nat)
    (lines lines2 : List (List Nat))
    (hlines : ∀ l ∈ lines, l ≠ [] ∧ l.length ≤ 253 ∧ 10 ∉ l ∧ 13 ∉ l)
    (hins : lines2.filter (fun l => l ≠ []) = lines) :
    parse_intel_hex_file under1 (file_of_lines [10] lines) =
      parse_intel_hex_file under2 (file_of_lines [13, 10] lines) ∧
    parse_intel_hex_file under3 (file_of_lines [13, 10] lines2) =
      parse_intel_hex_file under2 (file_of_lines [13, 10] lines) := by
  have h1 : ∀ l ∈ lines, l.length ≤ 253 ∧ 10 ∉ l ∧ 13 ∉ l :=
    fun l hl => (hlines l hl).2
  have h2 : ∀ l ∈ lines2, l.length ≤ 253 ∧ 10 ∉ l ∧ 13 ∉ l := by
    intro l hl
    by_cases hne : l = []
    · subst hne
      simp
    · exact h1 l (by rw [← hins]; simp [hl, hne])
  have r1 := read_lines_lf under1 lines h1 (fun l hl he => absurd he (hlines l hl).1)
  have r2 := read_lines_crlf under2 lines h1
  have r3 := read_lines_crlf under3 lines2 h2
  have hskip := parse_lines_skip_empty lines2 calloc_file
  rw [hins] at hskip
  refine ⟨?_, ?_⟩
  · rw [parse_file_of_lines under1 _ _ r1, parse_file_of_lines under2 _ _ r2]
  · rw [parse_file_of_lines under3 _ _ r3, parse_file_of_lines under2 _ _ r2, hskip]

theorem line_terminators_do_not_matter_witness :
    parse_intel_hex_file (fun _ => (0, 0))
        (file_of_lines [10] [bytes ":0100000055AA", bytes ":00000001FF"]) =
      parse_intel_hex_file (fun _ => (7, 10))
        (file_of_lines [13, 10] [bytes ":0100000055AA", bytes ":00000001FF"]) ∧
    parse_intel_hex_file (fun _ => (13, 13))
        (file_of_lines [13, 10] [[], bytes ":0100000055AA", [], [], bytes ":00000001FF", []]) =
      parse_intel_hex_file (fun _ => (7, 10))
        (file_of_lines [13, 10] [bytes ":0100000055AA", bytes ":00000001FF"]) :=
  line_terminators_do_not_matter (fun _ => (0, 0)) (fun _ => (7, 10)) (fun _ => (13, 13))
    [bytes ":0100000055AA", bytes ":00000001FF"]
    [[], bytes ":0100000055AA", [], [], bytes ":00000001FF", []] (by decide) (by decide)

/-- C14 as stated fails for the record line `:00000001FF` followed by a CR
(12 characters): terminated by LF the file is parsed successfully, the
trimming step taking the CR and the LF together; terminated by CR LF the CR
stays on the line and the parse returns -1. -/
theorem line_ending_in_cr_depends_on_terminator :
    (bytes ":00000001FF\r").length ≤ 253 ∧
    parse_intel_hex_file (fun _ => (0, 0)) (file_of_lines [10] [bytes ":00000001FF\r"]) =
      Outcome.ok { calloc_file with has_eof := 1 } ∧
    parse_intel_hex_file (fun _ => (0, 0)) (file_of_lines [13, 10] [bytes ":00000001FF\r"]) =
      Outcome.fail := by
  decide

/-! ## Checksums -/

/-- The loop from byte pair `j` on, for an input of at most 254 bytes. -/
theorem calc_checksum_loop_sum (data : Nat → Nat) (n : Nat) (hn : n ≤ 254)
    (hd : ∀ i, i < n → data i < 256) :
    ∀ (r fuel j sum : Nat), j + r = (n + 1) / 2 → r < fuel → sum < 2 ^ 16 →
      calc_checksum_loop data n fuel (2 * j) sum =
        some ((sum + ((List.range' j r).map (checksum_word data n)).sum) % 2 ^ 16) := by
  intro r
  induction r with
  | zero =>
    intro fuel j sum hj hf hs
    obtain ⟨fuel, rfl⟩ : ∃ f, fuel = f + 1 := ⟨fuel - 1, by omega⟩
    have hnot : ¬ 2 * j < n := by omega
    simp only [calc_checksum_loop, hnot, if_false, List.range'_zero, List.map_nil,
      List.sum_nil, Nat.add_zero]
    rw [Nat.mod_eq_of_lt hs]
  | succ r ih =>
    intro fuel j sum hj hf hs
    obtain ⟨fuel, rfl⟩ : ∃ f, fuel = f + 1 := ⟨fuel - 1, by omega⟩
    have hlt : 2 * j < n := by omega
    have hnext : (2 * j + 2) % 2 ^ 8 = 2 * (j + 1) := by
      have : (2 : Nat) ^ 8 = 256 := by norm_num
      rw [this]
      omega
    have hword : data (2 * j) % 256 +
        256 * ((if 2 * j + 1 < n then data (2 * j + 1) else 0xff) % 256) =
        checksum_word data n j := by
      unfold checksum_word
      have h0 := hd (2 * j) hlt
      by_cases h1 : 2 * j + 1 < n
      · have := hd (2 * j + 1) h1
        simp only [h1, if_true]
        omega
      · simp only [h1, if_false]
        omega
    unfold calc_checksum_loop
    simp only [hlt, if_true, hnext, hword]
    rw [ih fuel (j + 1) _ (by omega) (by omega) (Nat.mod_lt _ (by norm_num))]
    simp only [List.range'_succ, List.map_cons, List.sum_cons]
    congr 1
    omega

/-- With 255 bytes the counter `i` goes from 254 back to 0 and the loop test
never fails. -/
theorem calc_checksum_loop_255 (data : Nat → Nat) :
    ∀ (fuel i sum : Nat), i % 2 = 0 → i < 256 →
      calc_checksum_loop data 255 fuel i sum = none := by
  intro fuel
  induction fuel with
  | zero => intro i sum _ _; rfl
  | succ fuel ih =>
    intro i sum hi hlt
    have h : i < 255 := by omega
    unfold calc_checksum_loop
    simp only [h, if_true]
    have : (2 : Nat) ^ 8 = 256 := by norm_num
    exact ih _ _ (by rw [this]; omega) (by rw [this]; omega)

/-- C15: what `rn_bootloader_calc_checksum` computes.  For `n` up to 254 bytes
it returns the sum modulo 2^16 of the little-endian words
`data[2k] + 256 * data[2k+1]`, `k` from 0 to `ceil(n/2) - 1`, the missing high
byte of an odd last word taken as `0xFF` (so the checksum of the single byte
`0x01` is `0xFF01`); for `n = 255` it never returns, however much fuel the
loop is given. -/
theorem calc_checksum_sums_words (data : Nat → Nat) (n : Nat)
    (hd : ∀ i, i < n → data i < 256) :
    (n ≤ 254 → ∀ fuel, (n + 1) / 2 < fuel →
      rn_bootloader_calc_checksum fuel data n = some (checksum_spec data n)) ∧
    (n = 255 → ∀ fuel, rn_bootloader_calc_checksum fuel data n = none) ∧
    (n = 1 → data 0 = 0x01 → ∀ fuel, 1 < fuel →
      rn_bootloader_calc_checksum fuel data n = some 0xFF01) := by
  have hmain : n ≤ 254 → ∀ fuel, (n + 1) / 2 < fuel →
      rn_bootloader_calc_checksum fuel data n = some (checksum_spec data n) := by
    intro hn fuel hf
    unfold rn_bootloader_calc_checksum checksum_spec
    have := calc_checksum_loop_sum data n hn hd ((n + 1) / 2) fuel 0 0 (by omega) hf
      (by norm_num)
    rw [List.range_eq_range']
    simpa using this
  refine ⟨hmain, ?_, ?_⟩
  · rintro rfl fuel
    exact calc_checksum_loop_255 data fuel 0 0 rfl (by norm_num)
  · rintro rfl h0 fuel hf
    rw [hmain (by norm_num) fuel (by simpa using hf)]
    simp [checksum_spec, checksum_word, h0, List.range_succ]

theorem calc_checksum_sums_words_witness :
    rn_bootloader_calc_checksum 2 (fun i => [0x01].getD i 0) 1 = some 0xFF01 ∧
    rn_bootloader_calc_checksum 1000 (fun i => (List.replicate 255 0x00).getD i 0) 255 = none :=
  ⟨(calc_checksum_sums_words (fun i => [0x01].getD i 0) 1
      (by intro i hi; interval_cases i; decide)).2.2 rfl rfl 2 (by decide),
   (calc_checksum_sums_words (fun i => (List.replicate 255 0x00).getD i 0) 255
      (by
        intro i _
        show (List.replicate 255 0x00).getD i 0 < 256
        rw [List.getD_eq_getElem?_getD, List.getElem?_replicate]
        split <;> simp)).2.1 rfl 1000⟩

/-- C16: for every 14-byte input `rn_bootloader_calc_config_checksum` returns
the sum modulo 2^16 of the seven little-endian words
`data[2k] + 256 * data[2k+1]`, each ANDed with its mask, the masks being
`0xFF00, 0x3F1F, 0xBF00, 0x00C5, 0xC00F, 0xE00F, 0x400F` in word order. -/
theorem config_checksum_sums_masked_words (data : Nat → Nat)
    (hd : ∀ i, i < 14 → data i < 256) :
    rn_bootloader_calc_config_checksum data = config_checksum_spec data ∧
    config_masks = [0xFF00, 0x3F1F, 0xBF00, 0x00C5, 0xC00F, 0xE00F, 0x400F] ∧
    rn_bootloader_calc_config_checksum data =
      (((data 0 + 256 * data 1) &&& 0xFF00) + ((data 2 + 256 * data 3) &&& 0x3F1F) +
       ((data 4 + 256 * data 5) &&& 0xBF00) + ((data 6 + 256 * data 7) &&& 0x00C5) +
       ((data 8 + 256 * data 9) &&& 0xC00F) + ((data 10 + 256 * data 11) &&& 0xE00F) +
       ((data 12 + 256 * data 13) &&& 0x400F)) % 2 ^ 16 := by
  have hw : ∀ k, k < 7 → config_word data k = data (2 * k) + 256 * data (2 * k + 1) := by
    intro k hk
    unfold config_word
    rw [Nat.mod_eq_of_lt (hd (2 * k) (by omega)), Nat.mod_eq_of_lt (hd (2 * k + 1) (by omega))]
  have hexp : rn_bootloader_calc_config_checksum data =
      (((data 0 + 256 * data 1) &&& 0xFF00) + ((data 2 + 256 * data 3) &&& 0x3F1F) +
       ((data 4 + 256 * data 5) &&& 0xBF00) + ((data 6 + 256 * data 7) &&& 0x00C5) +
       ((data 8 + 256 * data 9) &&& 0xC00F) + ((data 10 + 256 * data 11) &&& 0xE00F) +
       ((data 12 + 256 * data 13) &&& 0x400F)) % 2 ^ 16 := by
    unfold rn_bootloader_calc_config_checksum
    simp only [hw 0 (by decide), hw 1 (by decide), hw 2 (by decide), hw 3 (by decide),
      hw 4 (by decide), hw 5 (by decide), hw 6 (by decide)]
    generalize (data (2 * 0) + 256 * data (2 * 0 + 1)) &&& 0xFF00 = w0
    generalize (data (2 * 1) + 256 * data (2 * 1 + 1)) &&& 0x3F1F = w1
    generalize (data (2 * 2) + 256 * data (2 * 2 + 1)) &&& 0xBF00 = w2
    generalize (data (2 * 3) + 256 * data (2 * 3 + 1)) &&& 0x00C5 = w3
    generalize (data (2 * 4) + 256 * data (2 * 4 + 1)) &&& 0xC00F = w4
    generalize (data (2 * 5) + 256 * data (2 * 5 + 1)) &&& 0xE00F = w5
    generalize (data (2 * 6) + 256 * data (2 * 6 + 1)) &&& 0x400F = w6
    have : (2 : Nat) ^ 16 = 65536 := by norm_num
    rw [this]
    omega
  refine ⟨?_, rfl, hexp⟩
  rw [hexp]
  simp [config_checksum_spec, config_masks, List.range_succ]
  ring_nf

theorem config_checksum_sums_masked_words_witness :
    rn_bootloader_calc_config_checksum
        (fun i => [0xFF, 0xFF, 0xFF, 0xFF, 0xFF, 0xFF, 0xFF, 0xFF, 0xFF, 0xFF, 0xFF, 0xFF,
          0xFF, 0xFF].getD i 0) =
      config_checksum_spec
        (fun i => [0xFF, 0xFF, 0xFF, 0xFF, 0xFF, 0xFF, 0xFF, 0xFF, 0xFF, 0xFF, 0xFF, 0xFF,
          0xFF, 0xFF].getD i 0) :=
  (config_checksum_sums_masked_words
    (fun i => [0xFF, 0xFF, 0xFF, 0xFF, 0xFF, 0xFF, 0xFF, 0xFF, 0xFF, 0xFF, 0xFF, 0xFF,
      0xFF, 0xFF].getD i 0)
    (by intro i hi; interval_cases i <;> decide)).1

theorem land_flip_low (lo h M b : Nat) (hlo : lo < 256) (hb : b < 8)
    (hM : M.testBit b = false) :
    ((lo ^^^ 2 ^ b) + 256 * h) &&& M = (lo + 256 * h) &&& M := by
  have hx : lo ^^^ 2 ^ b < 2 ^ 8 :=
    Nat.xor_lt_two_pow (by norm_num; exact hlo) (Nat.pow_lt_pow_right (by norm_num) hb)
  have hlo8 : lo < 2 ^ 8 := by norm_num; exact hlo
  have e1 : (lo ^^^ 2 ^ b) + 256 * h = 2 ^ 8 * h + (lo ^^^ 2 ^ b) := by norm_num; omega
  have e2 : lo + 256 * h = 2 ^ 8 * h + lo := by norm_num; omega
  rw [e1, e2]
  apply Nat.eq_of_testBit_eq
  intro i
  rw [Nat.testBit_and, Nat.testBit_and, Nat.testBit_mul_pow_two_add h hx i,
    Nat.testBit_mul_pow_two_add h hlo8 i]
  by_cases hi : i < 8
  · simp only [hi, if_true, Nat.testBit_xor, Nat.testBit_two_pow]
    by_cases hbi : b = i
    · subst hbi
      simp [hM]
    · simp [hbi]
  · simp only [hi, if_false]

theorem land_flip_high (lo hi M b : Nat) (hlo : lo < 256)
    (hM : M.testBit (8 + b) = false) :
    (lo + 256 * (hi ^^^ 2 ^ b)) &&& M = (lo + 256 * hi) &&& M := by
  have hlo8 : lo < 2 ^ 8 := by norm_num; exact hlo
  have e1 : lo + 256 * (hi ^^^ 2 ^ b) = 2 ^ 8 * (hi ^^^ 2 ^ b) + lo := by norm_num; omega
  have e2 : lo + 256 * hi = 2 ^ 8 * hi + lo := by norm_num; omega
  rw [e1, e2]
  apply Nat.eq_of_testBit_eq
  intro i
  rw [Nat.testBit_and, Nat.testBit_and, Nat.testBit_mul_pow_two_add _ hlo8 i,
    Nat.testBit_mul_pow_two_add _ hlo8 i]
  by_cases hi8 : i < 8
  · simp only [hi8, if_true]
  · simp only [hi8, if_false, Nat.testBit_xor, Nat.testBit_two_pow]
    by_cases hbi : b = i - 8
    · have : i = 8 + b := by omega
      subst this
      simp [hM]
    · simp [hbi]

/-- The masked word `k` is unchanged when bit `b` of byte `j` is flipped, if
the byte lies in another word or the bit is 0 in the mask. -/
theorem config_word_flip (data : Nat → Nat) (j b k M : Nat) (hj : data j < 256) (hb : b < 8)
    (hM : j / 2 = k → M.testBit (8 * (j % 2) + b) = false) :
    config_word (flip_bit data j b) k &&& M = config_word data k &&& M := by
  unfold config_word flip_bit
  have hx : data j ^^^ 2 ^ b < 256 := by
    have := @Nat.xor_lt_two_pow (data j) (2 ^ b) 8 (by norm_num; exact hj)
      (Nat.pow_lt_pow_right (by norm_num) hb)
    norm_num at this
    exact this
  by_cases h0 : 2 * k = j
  · subst h0
    have hbit := hM (by omega)
    have hm : 2 * k % 2 = 0 := by omega
    rw [hm] at hbit
    rw [if_pos rfl, if_neg (by omega), Nat.mod_eq_of_lt hx, Nat.mod_eq_of_lt hj]
    exact land_flip_low _ _ _ _ hj hb (by simpa using hbit)
  · by_cases h1 : 2 * k + 1 = j
    · subst h1
      have hbit := hM (by omega)
      have hm : (2 * k + 1) % 2 = 1 := by omega
      rw [hm] at hbit
      rw [if_neg (by omega), if_pos rfl, Nat.mod_eq_of_lt hx, Nat.mod_eq_of_lt hj]
      exact land_flip_high _ _ _ _ (Nat.mod_lt _ (by norm_num)) (by simpa using hbit)
    · rw [if_neg h0, if_neg h1]

/-- C17: for every 14-byte input, flipping a bit that is 0 in the mask of its
word (bit `b` of byte `j` is bit `8 * (j mod 2) + b` of word `j / 2`) does not
change the value of `rn_bootloader_calc_config_checksum`; such bits are, for
instance, every bit of byte 0, bits 5 to 7 of byte 2 and every bit of
byte 7. -/
theorem config_checksum_ignores_masked_bits (data : Nat → Nat) (j b : Nat)
    (hd : ∀ i, i < 14 → data i < 256) (hj : j < 14) (hb : b < 8)
    (hmask : (config_masks.getD (j / 2) 0).testBit (8 * (j % 2) + b) = false) :
    rn_bootloader_calc_config_checksum (flip_bit data j b) =
      rn_bootloader_calc_config_checksum data := by
  have hdj := hd j hj
  have h0 := config_word_flip data j b 0 0xFF00 hdj hb
    (fun h => by rw [h] at hmask; exact hmask)
  have h1 := config_word_flip data j b 1 0x3F1F hdj hb
    (fun h => by rw [h] at hmask; exact hmask)
  have h2 := config_word_flip data j b 2 0xBF00 hdj hb
    (fun h => by rw [h] at hmask; exact hmask)
  have h3 := config_word_flip data j b 3 0x00C5 hdj hb
    (fun h => by rw [h] at hmask; exact hmask)
  have h4 := config_word_flip data j b 4 0xC00F hdj hb
    (fun h => by rw [h] at hmask; exact hmask)
  have h5 := config_word_flip data j b 5 0xE00F hdj hb
    (fun h => by rw [h] at hmask; exact hmask)
  have h6 := config_word_flip data j b 6 0x400F hdj hb
    (fun h => by rw [h] at hmask; exact hmask)
  unfold rn_bootloader_calc_config_checksum
  simp only [h0, h1, h2, h3, h4, h5, h6]

theorem config_checksum_ignores_masked_bits_witness :
    rn_bootloader_calc_config_checksum
        (flip_bit (fun i => [0x12, 0x34, 0x56, 0x78, 0x9A, 0xBC, 0xDE, 0xF0, 0x11, 0x22,
          0x33, 0x44, 0x55, 0x66].getD i 0) 2 6) =
      rn_bootloader_calc_config_checksum
        (fun i => [0x12, 0x34, 0x56, 0x78, 0x9A, 0xBC, 0xDE, 0xF0, 0x11, 0x22,
          0x33, 0x44, 0x55, 0x66].getD i 0) :=
  config_checksum_ignores_masked_bits
    (fun i => [0x12, 0x34, 0x56, 0x78, 0x9A, 0xBC, 0xDE, 0xF0, 0x11, 0x22,
      0x33, 0x44, 0x55, 0x66].getD i 0) 2 6
    (by intro i hi; interval_cases i <;> decide) (by decide) (by decide) (by decide)

theorem config_checksum_selected_bits (j b : Nat) (hb : b < 8)
    (h : j = 0 ∨ (j = 2 ∧ 5 ≤ b) ∨ j = 7) :
    (config_masks.getD (j / 2) 0).testBit (8 * (j % 2) + b) = false := by
  rcases h with rfl | ⟨rfl, h5⟩ | rfl <;> interval_cases b <;> decide

/-! ## download_firmware -/

theorem rn_bootloader_checksum_eq (dev : Device) (log : Log) (r : intel_hex_record)
    (hlen : r.length ≤ 255) :
    rn_bootloader_checksum dev log r.address r.length =
      (reported_checksum dev (log ++ [checksum_request r]), log ++ [checksum_request r]) := by
  unfold rn_bootloader_checksum rn_bootloader_do_command reported_checksum checksum_request
  have hnot : ¬ r.length > RN_BOOTLOADER_MAX_LENGTH := by
    simp only [RN_BOOTLOADER_MAX_LENGTH]; omega
  simp only [hnot, if_false]
  cases hd : dev (log ++ [marshal RN_BOOTLOADER_CMD_CHECKSUM r.length 0 0 r.address none]) with
  | none => rfl
  | some f => simp [sizeof_rsp_checksum, sizeof_cmd_base, List.getD_eq_getElem?_getD]

/-- C18: in the verify loop of `download_firmware` the local checksum of a
record is `rn_bootloader_calc_config_checksum(data)` when the address is
`0x300000` (the assertion `length == 14` holding) and
`rn_bootloader_calc_checksum(data, length)` for every other address, and the
loop goes on after the record exactly when the checksum reported by the device
equals that value; at `0x300000` with another length the assertion stops the
program. -/
theorem verify_selects_checksum (fuel : Nat) (dev : Device) (total_records : Nat)
    (beyond : Nat → Nat → Nat) (r : intel_hex_record) (records_complete : Nat) (log : Log)
    (progress : List Nat) (c : Nat)
    (htotal : total_records ≠ 0) (hlen : r.length ≤ 255)
    (hrep : reported_checksum dev (log ++ [checksum_request r]) = some c) :
    (r.address = 0x300000 → r.length = 14 →
      verify_calc_checksum fuel r.address r.length (record_ptr beyond records_complete r) =
        some (rn_bootloader_calc_config_checksum (record_ptr beyond records_complete r)) ∧
      ((verify_phase fuel dev total_records beyond [r] records_complete log progress).ret =
          some 0 ↔
        c = rn_bootloader_calc_config_checksum (record_ptr beyond records_complete r))) ∧
    (r.address ≠ 0x300000 →
      verify_calc_checksum fuel r.address r.length (record_ptr beyond records_complete r) =
        rn_bootloader_calc_checksum fuel (record_ptr beyond records_complete r) r.length ∧
      ∀ v, rn_bootloader_calc_checksum fuel (record_ptr beyond records_complete r) r.length =
          some v →
        ((verify_phase fuel dev total_records beyond [r] records_complete log progress).ret =
          some 0 ↔ c = v)) ∧
    (r.address = 0x300000 → r.length ≠ 14 →
      verify_calc_checksum fuel r.address r.length (record_ptr beyond records_complete r) =
        none ∧
      (verify_phase fuel dev total_records beyond [r] records_complete log progress).ret =
        none) := by
  have hstep : ∀ v, verify_calc_checksum fuel r.address r.length
        (record_ptr beyond records_complete r) = v →
      (verify_phase fuel dev total_records beyond [r] records_complete log progress).ret =
        match v with
        | none => none
        | some cv => if c ≠ cv then some (-1) else some 0 := by
    intro v hv
    simp only [verify_phase, htotal, if_false, rn_bootloader_checksum_eq dev log r hlen, hrep, hv]
    cases v with
    | none => rfl
    | some cv =>
      by_cases hc : c = cv
      · simp [hc]
      · simp [hc]
  refine ⟨?_, ?_, ?_⟩
  · intro ha hl
    have hv : verify_calc_checksum fuel r.address r.length
        (record_ptr beyond records_complete r) =
        some (rn_bootloader_calc_config_checksum (record_ptr beyond records_complete r)) := by
      simp [verify_calc_checksum, ha, hl]
    refine ⟨hv, ?_⟩
    rw [hstep _ hv]
    by_cases hc : c = rn_bootloader_calc_config_checksum (record_ptr beyond records_complete r)
    · simp [hc]
    · simp [hc]
  · intro ha
    have hv : verify_calc_checksum fuel r.address r.length
        (record_ptr beyond records_complete r) =
        rn_bootloader_calc_checksum fuel (record_ptr beyond records_complete r) r.length := by
      simp [verify_calc_checksum, ha]
    refine ⟨hv, ?_⟩
    intro v hcalc
    rw [hstep _ (hv.trans hcalc)]
    by_cases hc : c = v
    · simp [hc]
    · simp [hc]
  · intro ha hl
    have hv : verify_calc_checksum fuel r.address r.length
        (record_ptr beyond records_complete r) = none := by
      simp [verify_calc_checksum, ha, hl]
    exact ⟨hv, by rw [hstep _ hv]⟩

theorem verify_selects_checksum_witness :
    (verify_phase 4 sample_device 1 (fun _ _ => 0)
      [{ data := [1, 0], address := 0, length := 2 }] 0 [] []).ret = some 0 :=
  ((verify_selects_checksum 4 sample_device 1 (fun _ _ => 0)
    { data := [1, 0], address := 0, length := 2 } 0 [] [] 1
    (by decide) (by decide) rfl).2.1 (by decide)).2 1 rfl |>.mpr rfl

theorem verify_phase_cons (fuel : Nat) (dev : Device) (total_records : Nat)
    (beyond : Nat → Nat → Nat) (r : intel_hex_record) (next : List intel_hex_record)
    (rc : Nat) (log : Log) (progress : List Nat)
    (htotal : total_records ≠ 0) (hlen : r.length ≤ 255) :
    verify_phase fuel dev total_records beyond (r :: next) rc log progress =
      match reported_checksum dev (log ++ [checksum_request r]) with
      | none =>
        { ret := some (-1), log := log ++ [checksum_request r], records_complete := rc,
          progress := progress ++ [(100 * rc) / total_records] }
      | some c =>
        match verify_calc_checksum fuel r.address r.length (record_ptr beyond rc r) with
        | none =>
          { ret := none, log := log ++ [checksum_request r], records_complete := rc,
            progress := progress ++ [(100 * rc) / total_records] }
        | some cv =>
          if c ≠ cv then
            { ret := some (-1), log := log ++ [checksum_request r], records_complete := rc,
              progress := progress ++ [(100 * rc) / total_records] }
          else
            verify_phase fuel dev total_records beyond next (rc + 1)
              (log ++ [checksum_request r]) (progress ++ [(100 * rc) / total_records]) := by
  simp only [verify_phase, htotal, if_false, rn_bootloader_checksum_eq dev log r hlen]
  cases reported_checksum dev (log ++ [checksum_request r]) <;> rfl

/-- The verify loop over records whose checksums all match, followed by
further records. -/
theorem verify_phase_matching (fuel : Nat) (dev : Device) (total_records : Nat)
    (beyond : Nat → Nat → Nat) (htotal : total_records ≠ 0) (pre : List intel_hex_record) :
    ∀ (rest : List intel_hex_record) (rc : Nat) (log : Log) (progress : List Nat),
      (∀ r ∈ pre, r.length ≤ 255) →
      (∀ i r, pre[i]? = some r →
        ∃ c, reported_checksum dev (log ++ (pre.take (i + 1)).map checksum_request) = some c ∧
          verify_calc_checksum fuel r.address r.length (record_ptr beyond (rc + i) r) =
            some c) →
      verify_phase fuel dev total_records beyond (pre ++ rest) rc log progress =
        verify_phase fuel dev total_records beyond rest (rc + pre.length)
          (log ++ pre.map checksum_request)
          (progress ++ (List.range pre.length).map
            (fun i => (100 * (rc + i)) / total_records)) := by
  induction pre with
  | nil => intro rest rc log progress _ _; simp
  | cons r pre ih =>
    intro rest rc log progress hlen hmatch
    obtain ⟨c, hc, hv⟩ := hmatch 0 r (by simp)
    simp only [List.take_succ_cons, List.take_zero, List.map_cons, List.map_nil,
      Nat.add_zero] at hc hv
    rw [List.cons_append, verify_phase_cons fuel dev total_records beyond r _ rc log progress
      htotal (hlen r (by simp)), hc]
    simp only [hv, ne_eq, not_true_eq_false, if_false]
    rw [ih rest (rc + 1) (log ++ [checksum_request r]) _
      (fun x hx => hlen x (by simp [hx]))
      (fun i x hx => by
        obtain ⟨c1, h1, h2⟩ := hmatch (i + 1) x (by simpa using hx)
        refine ⟨c1, ?_, ?_⟩
        · simpa [List.take_succ_cons] using h1
        · have e : rc + 1 + i = rc + (i + 1) := by omega
          rw [e]
          exact h2)]
    have e1 : rc + 1 + pre.length = rc + (r :: pre).length := by simp; omega
    have e2 : log ++ [checksum_request r] ++ pre.map checksum_request =
        log ++ (r :: pre).map checksum_request := by simp
    have e3 : progress ++ [(100 * rc) / total_records] ++
        (List.range pre.length).map (fun i => (100 * (rc + 1 + i)) / total_records) =
        progress ++ (List.range (r :: pre).length).map
          (fun i => (100 * (rc + i)) / total_records) := by
      simp only [List.length_cons, List.range_succ_eq_map, List.map_cons, List.map_map,
        Nat.add_zero, List.append_assoc, List.singleton_append]
      congr 2
      apply List.map_congr_left
      intro i _
      simp only [Function.comp_apply]
      have : rc + 1 + i = rc + (i + 1) := by omega
      rw [this]
    rw [e1, e2, e3]

theorem download_firmware_after_write (fuel : Nat) (dev : Device) (log : Log)
    (hex : intel_hex_file) (beyond : Nat → Nat → Nat)
    (version : rn_bootloader_rsp_version) (log1 log2 : Log) (w v : phase_result)
    (hv : rn_bootloader_get_version_info dev log = (some version, log1))
    (he : rn_bootloader_erase fuel dev log1 0x300 (0x10000 - 0x300) version = (some 0, log2))
    (hw : write_phase fuel dev version (intel_hex_num_records hex) beyond
      (intel_hex_get_first_record hex) 0 log2 [] = w)
    (hwr : w.ret = some 0)
    (hvp : verify_phase fuel dev (intel_hex_num_records hex) beyond
      (intel_hex_get_first_record hex) 0 w.log (w.progress ++ [100]) = v) :
    download_firmware fuel dev log hex beyond =
      match v.ret with
      | some 0 =>
        match rn_bootloader_reset dev v.log with
        | (0, log4) =>
          { ret := some 0, log := log4, write_complete := w.records_complete,
            verify_complete := v.records_complete, progress := v.progress ++ [100] }
        | (_, log4) =>
          { ret := some (-1), log := log4, write_complete := w.records_complete,
            verify_complete := v.records_complete, progress := v.progress ++ [100] }
      | other =>
        { ret := other, log := v.log, write_complete := w.records_complete,
          verify_complete := v.records_complete, progress := v.progress } := by
  unfold download_firmware
  rw [hv]
  simp only []
  rw [he]
  simp only [hw, hwr, hvp]

theorem rn_bootloader_reset_eq (dev : Device) (log : Log) :
    rn_bootloader_reset dev log =
      (if (dev (log ++ [reset_request])).isNone then -1 else 0, log ++ [reset_request]) := by
  unfold rn_bootloader_reset rn_bootloader_do_command reset_request
  simp only [RN_BOOTLOADER_MAX_LENGTH, show ¬ (0 > 255) by decide, if_false]
  cases dev (log ++ [marshal RN_BOOTLOADER_CMD_RESET 0 0 0 0 none]) <;> simp

theorem write_phase_needs_total (fuel : Nat) (dev : Device)
    (version : rn_bootloader_rsp_version) (total_records : Nat) (beyond : Nat → Nat → Nat)
    (rs : List intel_hex_record) (rc : Nat) (log : Log) (progress : List Nat)
    (h : (write_phase fuel dev version total_records beyond rs rc log progress).ret = some 0) :
    rs = [] ∨ total_records ≠ 0 := by
  cases rs with
  | nil => exact Or.inl rfl
  | cons r next =>
    right
    intro h0
    simp [write_phase, h0] at h

theorem checksum_request_ne_reset (r : intel_hex_record) : checksum_request r ≠ reset_request := by
  intro h
  have := congrArg (fun p => p.getD 1 0) h
  simp [checksum_request, reset_request, marshal, RN_BOOTLOADER_CMD_CHECKSUM,
    RN_BOOTLOADER_CMD_RESET] at this

/-- C19: let a run of `download_firmware` reach the verify loop (version read,
erase and write loop all returned 0) with port history `w.log`.  If the
checksums reported for the records before record `m` equal the local ones and
the one reported for record `m` differs, the function returns -1 and the
Checksum request for record `m` is the last packet it sent: no request for a
later record, no Reset.  If the reported checksum equals the local one for
every record, the verify loop ends with all records counted and Reset is
sent; the function then returns 0 unless sending Reset fails. -/
theorem checksum_mismatch_is_fatal (fuel : Nat) (dev : Device) (log : Log)
    (hex : intel_hex_file) (beyond : Nat → Nat → Nat)
    (version : rn_bootloader_rsp_version) (log1 log2 : Log) (w : phase_result)
    (rs : List intel_hex_record)
    (hrs : intel_hex_get_first_record hex = rs)
    (hv : rn_bootloader_get_version_info dev log = (some version, log1))
    (he : rn_bootloader_erase fuel dev log1 0x300 (0x10000 - 0x300) version = (some 0, log2))
    (hw : write_phase fuel dev version (intel_hex_num_records hex) beyond rs 0 log2 [] = w)
    (hwr : w.ret = some 0)
    (hlen : ∀ r ∈ rs, r.length ≤ 255) :
    (∀ m r, rs[m]? = some r →
      (∀ i x, i < m → rs[i]? = some x → checksum_matches fuel dev beyond w.log rs i x) →
      checksum_differs fuel dev beyond w.log rs m r →
      (download_firmware fuel dev log hex beyond).ret = some (-1) ∧
      (download_firmware fuel dev log hex beyond).log =
        w.log ++ (rs.take (m + 1)).map checksum_request ∧
      reset_request ∉ (rs.take (m + 1)).map checksum_request) ∧
    ((∀ i x, rs[i]? = some x → checksum_matches fuel dev beyond w.log rs i x) →
      (download_firmware fuel dev log hex beyond).log =
        w.log ++ rs.map checksum_request ++ [reset_request] ∧
      (download_firmware fuel dev log hex beyond).verify_complete = rs.length ∧
      ((download_firmware fuel dev log hex beyond).ret = some 0 ↔
        dev (w.log ++ rs.map checksum_request ++ [reset_request]) ≠ none) ∧
      ((download_firmware fuel dev log hex beyond).ret = some 0 ∨
        (download_firmware fuel dev log hex beyond).ret = some (-1))) := by
  subst hrs
  have hdl := fun v hvp => download_firmware_after_write fuel dev log hex beyond version
    log1 log2 w v hv he hw hwr hvp
  have htot := write_phase_needs_total fuel dev version (intel_hex_num_records hex) beyond
    (intel_hex_get_first_record hex) 0 log2 [] (by rw [hw]; exact hwr)
  constructor
  · intro m r hm hpre hdiff
    have htotal : intel_hex_num_records hex ≠ 0 := by
      rcases htot with h | h
      · rw [h] at hm
        simp at hm
      · exact h
    have hmlt : m < (intel_hex_get_first_record hex).length := by
      rcases Nat.lt_or_ge m (intel_hex_get_first_record hex).length with h | h
      · exact h
      · rw [List.getElem?_eq_none h] at hm
        cases hm
    have hsplit : intel_hex_get_first_record hex =
        (intel_hex_get_first_record hex).take m ++
          r :: (intel_hex_get_first_record hex).drop (m + 1) := by
      have h1 := List.take_append_drop m (intel_hex_get_first_record hex)
      have h2 : (intel_hex_get_first_record hex).drop m =
          r :: (intel_hex_get_first_record hex).drop (m + 1) := by
        rw [List.drop_eq_getElem_cons hmlt]
        congr 1
        rw [List.getElem?_eq_getElem hmlt] at hm
        simpa using hm
      rw [h2] at h1
      exact h1.symm
    have htake : (intel_hex_get_first_record hex).take (m + 1) =
        (intel_hex_get_first_record hex).take m ++ [r] := by
      rw [List.take_succ, hm]
      rfl
    have hlenm : ((intel_hex_get_first_record hex).take m).length = m := by
      rw [List.length_take]
      omega
    obtain ⟨c, cv, hc, hcv, hne⟩ := hdiff
    have hvp : verify_phase fuel dev (intel_hex_num_records hex) beyond
        (intel_hex_get_first_record hex) 0 w.log (w.progress ++ [100]) =
        { ret := some (-1),
          log := w.log ++ ((intel_hex_get_first_record hex).take (m + 1)).map checksum_request,
          records_complete := m,
          progress := w.progress ++ [100] ++
            (List.range m).map (fun i => (100 * (0 + i)) / intel_hex_num_records hex) ++
            [(100 * m) / intel_hex_num_records hex] } := by
      conv_lhs => rw [hsplit]
      rw [verify_phase_matching fuel dev (intel_hex_num_records hex) beyond htotal _ _ 0 w.log _
        (fun x hx => hlen x (List.mem_of_mem_take hx))
        (fun i x hx => by
          have hi : i < m := by
            rcases Nat.lt_or_ge i m with h | h
            · exact h
            · rw [List.getElem?_eq_none (by rw [hlenm]; exact h)] at hx
              cases hx
          rw [List.getElem?_take_of_lt hi] at hx
          obtain ⟨c1, h1, h2⟩ := hpre i x hi hx
          refine ⟨c1, ?_, ?_⟩
          · rw [List.take_take, Nat.min_eq_left (by omega)]
            exact h1
          · rw [Nat.zero_add]
            exact h2)]
      rw [hlenm, Nat.zero_add, verify_phase_cons fuel dev (intel_hex_num_records hex) beyond r _
        m _ _ htotal (hlen r (List.getElem?_mem hm))]
      have hhist : w.log ++ ((intel_hex_get_first_record hex).take m).map checksum_request ++
          [checksum_request r] =
          w.log ++ ((intel_hex_get_first_record hex).take (m + 1)).map checksum_request := by
        rw [htake]
        simp
      rw [hhist, hc]
      simp only [hcv, ne_eq, hne, not_false_eq_true, if_true]
    rw [hdl _ hvp]
    refine ⟨rfl, rfl, ?_⟩
    intro hmem
    obtain ⟨x, _, hx⟩ := List.mem_map.mp hmem
    exact checksum_request_ne_reset x hx
  · intro hall
    have hvp : verify_phase fuel dev (intel_hex_num_records hex) beyond
        (intel_hex_get_first_record hex) 0 w.log (w.progress ++ [100]) =
        { ret := some 0,
          log := w.log ++ (intel_hex_get_first_record hex).map checksum_request,
          records_complete := (intel_hex_get_first_record hex).length,
          progress := w.progress ++ [100] ++
            (List.range (intel_hex_get_first_record hex).length).map
              (fun i => (100 * (0 + i)) / intel_hex_num_records hex) } := by
      rcases htot with h | htotal
      · rw [h]
        simp [verify_phase]
      · have := verify_phase_matching fuel dev (intel_hex_num_records hex) beyond htotal
          (intel_hex_get_first_record hex) [] 0 w.log (w.progress ++ [100]) hlen
          (fun i x hx => by
            obtain ⟨c1, h1, h2⟩ := hall i x hx
            exact ⟨c1, h1, by rw [Nat.zero_add]; exact h2⟩)
        rw [List.append_nil] at this
        rw [this]
        simp [verify_phase]
    rw [hdl _ hvp]
    simp only [rn_bootloader_reset_eq]
    cases hd : dev (w.log ++ (intel_hex_get_first_record hex).map checksum_request ++
        [reset_request]) with
    | none => simp
    | some f => simp

theorem checksum_mismatch_is_fatal_witness :
    (download_firmware 4 sample_device [] sample_hex (fun _ _ => 0)).ret = some (-1) ∧
    ((download_firmware 4 sample_device [] sample_hex (fun _ _ => 0)).log.map pkt_command =
      [0, 3, 2, 2, 8, 8]) :=
  have h := (checksum_mismatch_is_fatal 4 sample_device [] sample_hex (fun _ _ => 0)
    _ _ _ _ sample_hex.head rfl rfl rfl rfl rfl (by decide)).1 1
    { data := [2, 0], address := 2, length := 2 } rfl
    (fun i x hi hx => by
      obtain rfl : i = 0 := by omega
      obtain rfl : x = { data := [1, 0], address := 0, length := 2 } := by
        simpa [sample_hex] using hx.symm
      exact ⟨1, rfl, rfl⟩)
    ⟨1, 2, rfl, rfl, by decide⟩
  ⟨h.1, by rw [h.2.1]; rfl⟩

/-! ## A non-success status aborts -/

theorem do_command_cases (dev : Device) (log : Log)
    (command length key_one key_two address : Nat) (data : Option (Nat → Nat))
    (response_length : Nat) :
    ∃ pk, pkt_command pk = command % 256 ∧
      (rn_bootloader_do_command dev log command length key_one key_two address data
          response_length = (none, log) ∨
      (dev (log ++ [pk]) = none ∧
        rn_bootloader_do_command dev log command length key_one key_two address data
          response_length = (none, log ++ [pk])) ∨
      (∃ f, dev (log ++ [pk]) = some f ∧
        rn_bootloader_do_command dev log command length key_one key_two address data
          response_length = (some ((List.range response_length).map f), log ++ [pk]))) := by
  refine ⟨marshal command length key_one key_two address data, by simp [pkt_command, marshal],
    ?_⟩
  unfold rn_bootloader_do_command
  by_cases h : length > RN_BOOTLOADER_MAX_LENGTH
  · left
    simp [h]
  · right
    simp only [h, if_false]
    cases dev (log ++ [marshal command length key_one key_two address data]) with
    | none => exact Or.inl ⟨rfl, rfl⟩
    | some f => exact Or.inr ⟨f, rfl, rfl⟩

theorem rsp_status_range (f : Nat → Nat) :
    rsp_status ((List.range sizeof_rsp_status).map f) = f sizeof_cmd_base := by
  simp [rsp_status, sizeof_rsp_status, sizeof_cmd_base, List.getD_eq_getElem?_getD]

theorem pkt_command_marshal (command length k1 k2 address : Nat) (data : Option (Nat → Nat)) :
    pkt_command (marshal command length k1 k2 address data) = command % 256 := by
  simp [pkt_command, marshal]

theorem status_failure_nil (P : Packet → Prop) (dev : Device) (log : Log) (ret : Option Int) :
    status_failure_is_last P dev log [] ret := by
  intro i hi
  simp at hi

theorem status_failure_single_last (P : Packet → Prop) (dev : Device) (log : Log)
    (p : Packet) : status_failure_is_last P dev log [p] (some (-1)) := by
  intro i hi _ f _ _
  simp at hi
  subst hi
  exact ⟨rfl, rfl⟩

theorem status_failure_single_ok (P : Packet → Prop) (dev : Device) (log : Log)
    (p : Packet) (ret : Option Int) (f : Nat → Nat) (hf : dev (log ++ [p]) = some f)
    (hs : f sizeof_cmd_base = RN_BOOTLOADER_STATUS_SUCCESS) :
    status_failure_is_last P dev log [p] ret := by
  intro i hi _ g hg hne
  simp at hi
  subst hi
  simp only [Nat.zero_add, List.take_succ_cons, List.take_zero] at hg
  rw [hf] at hg
  cases hg
  exact absurd hs hne

theorem status_failure_of_not (P : Packet → Prop) (dev : Device) (log sent : Log)
    (ret : Option Int) (h : ∀ p ∈ sent, ¬ P p) :
    status_failure_is_last P dev log sent ret := by
  intro i hi hP
  have hmem : sent.getD i [] ∈ sent := by
    rw [List.getD_eq_getElem _ _ hi]
    exact List.getElem_mem hi
  exact absurd hP (h _ hmem)

theorem status_failure_mono (P Q : Packet → Prop) (dev : Device) (log sent : Log)
    (ret : Option Int) (hPQ : ∀ p, Q p → P p)
    (h : status_failure_is_last P dev log sent ret) :
    status_failure_is_last Q dev log sent ret :=
  fun i hi hQ => h i hi (hPQ _ hQ)

theorem status_failure_clean (P : Packet → Prop) (dev : Device) (log sent : Log)
    (ret ret1 : Option Int) (hret : ret ≠ some (-1))
    (h : status_failure_is_last P dev log sent ret) :
    status_failure_is_last P dev log sent ret1 :=
  fun i hi hP f hf hne => absurd (h i hi hP f hf hne).2 hret

theorem status_failure_append (P : Packet → Prop) (dev : Device) (log s1 s2 : Log)
    (ret : Option Int)
    (h1 : status_failure_is_last P dev log s1 (some 0))
    (h2 : status_failure_is_last P dev (log ++ s1) s2 ret) :
    status_failure_is_last P dev log (s1 ++ s2) ret := by
  intro i hi hP f hf hne
  by_cases h : i < s1.length
  · have e1 : (s1 ++ s2).getD i [] = s1.getD i [] := by
      rw [List.getD_eq_getElem _ _ hi, List.getD_eq_getElem _ _ h, List.getElem_append_left h]
    have e2 : (s1 ++ s2).take (i + 1) = s1.take (i + 1) :=
      List.take_append_of_le_length (by omega)
    rw [e1] at hP
    rw [e2] at hf
    exact absurd (h1 i h hP f hf hne).2 (by decide)
  · have hlen : (s1 ++ s2).length = s1.length + s2.length := List.length_append s1 s2
    have hi2 : i - s1.length < s2.length := by omega
    have e1 : (s1 ++ s2).getD i [] = s2.getD (i - s1.length) [] := by
      rw [List.getD_eq_getElem _ _ hi, List.getD_eq_getElem _ _ hi2,
        List.getElem_append_right (by omega)]
    have e2 : (s1 ++ s2).take (i + 1) = s1 ++ s2.take (i - s1.length + 1) := by
      rw [List.take_append_eq_append_take, List.take_of_length_le (by omega)]
      congr 2
      omega
    rw [e1] at hP
    rw [e2, ← List.append_assoc] at hf
    have := h2 (i - s1.length) hi2 hP f hf hne
    exact ⟨by omega, this.2⟩

theorem erase_loop_status (dev : Device) (start_address total_blocks erase_row_size : Nat) :
    ∀ fuel remaining_blocks log, ∃ sent,
      (erase_loop dev start_address total_blocks erase_row_size fuel remaining_blocks log).2 =
        log ++ sent ∧
      (∀ p ∈ sent, pkt_command p = RN_BOOTLOADER_CMD_ERASE) ∧
      status_failure_is_last (fun _ => True) dev log sent
        (erase_loop dev start_address total_blocks erase_row_size fuel remaining_blocks log).1 ∧
      ((erase_loop dev start_address total_blocks erase_row_size fuel remaining_blocks log).1 =
          none ∨
        (erase_loop dev start_address total_blocks erase_row_size fuel remaining_blocks log).1 =
          some 0 ∨
        (erase_loop dev start_address total_blocks erase_row_size fuel remaining_blocks log).1 =
          some (-1)) := by
  intro fuel
  induction fuel with
  | zero =>
    intro remaining_blocks log
    exact ⟨[], by simp [erase_loop], by simp, status_failure_nil _ _ _ _, Or.inl rfl⟩
  | succ fuel ih =>
    intro remaining_blocks log
    by_cases hr : remaining_blocks ≠ 0
    · simp only [erase_loop, ne_eq, (show ¬ remaining_blocks = 0 from hr), not_false_eq_true,
        if_true]
      obtain ⟨pk, hcmd, h | ⟨_, h⟩ | ⟨f, hf, h⟩⟩ := do_command_cases dev log RN_BOOTLOADER_CMD_ERASE
          (if (if remaining_blocks > 256 then 256 else remaining_blocks) = 256 then 0
            else (if remaining_blocks > 256 then 256 else remaining_blocks))
          RN_BOOTLOADER_KEY_ONE RN_BOOTLOADER_KEY_TWO
          ((start_address + (total_blocks - remaining_blocks) * erase_row_size) % 2 ^ 32)
          none sizeof_rsp_status
      · rw [h]
        exact ⟨[], by simp, by simp, status_failure_nil _ _ _ _, Or.inr (Or.inr rfl)⟩
      · rw [h]
        refine ⟨[pk], rfl, ?_, status_failure_single_last _ _ _ _, Or.inr (Or.inr rfl)⟩
        intro p hp
        rw [List.mem_singleton.mp hp, hcmd]
        rfl
      · rw [h]
        simp only [rsp_status_range]
        by_cases hs : f sizeof_cmd_base ≠ RN_BOOTLOADER_STATUS_SUCCESS
        · simp only [hs, if_true]
          refine ⟨[pk], rfl, ?_, status_failure_single_last _ _ _ _, Or.inr (Or.inr rfl)⟩
          intro p hp
          rw [List.mem_singleton.mp hp, hcmd]
          rfl
        · simp only [hs, if_false]
          obtain ⟨sent, h1, h2, h3, h4⟩ := ih
            (remaining_blocks - (if remaining_blocks > 256 then 256 else remaining_blocks))
            (log ++ [pk])
          refine ⟨pk :: sent, ?_, ?_, ?_, h4⟩
          · rw [h1]
            simp
          · intro p hp
            rcases List.mem_cons.mp hp with hp | hp
            · rw [hp, hcmd]
              rfl
            · exact h2 p hp
          · exact status_failure_append _ dev log [pk] sent _
              (status_failure_single_ok _ dev log _ _ f hf (not_not.mp hs)) h3
    · simp only [erase_loop, hr, if_false]
      exact ⟨[], by simp, by simp, status_failure_nil _ _ _ _, by simp⟩

theorem write_loop_status (dev : Device) (address length : Nat) (data : Nat → Nat)
    (write_latch_size : Nat) :
    ∀ fuel bytes_written log, ∃ sent,
      (write_loop dev address length data write_latch_size fuel bytes_written log).2 =
        log ++ sent ∧
      (∀ p ∈ sent, pkt_command p = RN_BOOTLOADER_CMD_WRITE) ∧
      status_failure_is_last (fun _ => True) dev log sent
        (write_loop dev address length data write_latch_size fuel bytes_written log).1 ∧
      ((write_loop dev address length data write_latch_size fuel bytes_written log).1 = none ∨
        (write_loop dev address length data write_latch_size fuel bytes_written log).1 =
          some 0 ∨
        (write_loop dev address length data write_latch_size fuel bytes_written log).1 =
          some (-1)) := by
  intro fuel
  induction fuel with
  | zero =>
    intro bytes_written log
    exact ⟨[], by simp [write_loop], by simp, status_failure_nil _ _ _ _, Or.inl rfl⟩
  | succ fuel ih =>
    intro bytes_written log
    by_cases hr : bytes_written < length
    · simp only [write_loop, hr, if_true]
      obtain ⟨pk, hcmd, h | ⟨_, h⟩ | ⟨f, hf, h⟩⟩ := do_command_cases dev log RN_BOOTLOADER_CMD_WRITE
          (if length > write_latch_size then write_latch_size else length)
          RN_BOOTLOADER_KEY_ONE RN_BOOTLOADER_KEY_TWO
          ((address + bytes_written) % 2 ^ 32)
          (some (fun i => data (bytes_written + i))) sizeof_rsp_status
      · rw [h]
        exact ⟨[], by simp, by simp, status_failure_nil _ _ _ _, Or.inr (Or.inr rfl)⟩
      · rw [h]
        refine ⟨[pk], rfl, ?_, status_failure_single_last _ _ _ _, Or.inr (Or.inr rfl)⟩
        intro p hp
        rw [List.mem_singleton.mp hp, hcmd]
        rfl
      · rw [h]
        simp only [rsp_status_range]
        by_cases hs : f sizeof_cmd_base ≠ RN_BOOTLOADER_STATUS_SUCCESS
        · rw [if_pos hs]
          refine ⟨[pk], rfl, ?_, status_failure_single_last _ _ _ _, Or.inr (Or.inr rfl)⟩
          intro p hp
          rw [List.mem_singleton.mp hp, hcmd]
          rfl
        · simp only [hs, if_false]
          obtain ⟨sent, h1, h2, h3, h4⟩ := ih
            ((bytes_written + (if length > write_latch_size then write_latch_size else length))
              % 2 ^ 16)
            (log ++ [pk])
          refine ⟨pk :: sent, ?_, ?_, ?_, h4⟩
          · rw [h1]
            simp
          · intro p hp
            rcases List.mem_cons.mp hp with hp | hp
            · rw [hp, hcmd]
              rfl
            · exact h2 p hp
          · exact status_failure_append _ dev log [pk] sent _
              (status_failure_single_ok _ dev log _ _ f hf (not_not.mp hs)) h3
    · simp only [write_loop, hr, if_false]
      exact ⟨[], by simp, by simp, status_failure_nil _ _ _ _, by simp⟩

theorem rn_bootloader_erase_status (fuel : Nat) (dev : Device) (log : Log)
    (start_address length : Nat) (version : rn_bootloader_rsp_version) :
    ∃ sent,
      (rn_bootloader_erase fuel dev log start_address length version).2 = log ++ sent ∧
      (∀ p ∈ sent, pkt_command p = RN_BOOTLOADER_CMD_ERASE) ∧
      status_failure_is_last (fun _ => True) dev log sent
        (rn_bootloader_erase fuel dev log start_address length version).1 ∧
      ((rn_bootloader_erase fuel dev log start_address length version).1 = none ∨
        (rn_bootloader_erase fuel dev log start_address length version).1 = some 0 ∨
        (rn_bootloader_erase fuel dev log start_address length version).1 = some (-1)) := by
  unfold rn_bootloader_erase
  by_cases h : version.erase_row_size = 0
  · simp only [h, if_true]
    exact ⟨[], by simp, by simp, status_failure_nil _ _ _ _, by simp⟩
  · simp only [h, if_false]
    exact erase_loop_status dev start_address _ _ fuel _ log

theorem rn_bootloader_write_status (fuel : Nat) (dev : Device) (log : Log)
    (address length : Nat) (data : Nat → Nat) (version : rn_bootloader_rsp_version) :
    ∃ sent,
      (rn_bootloader_write fuel dev log address length data version).2 = log ++ sent ∧
      (∀ p ∈ sent, pkt_command p = RN_BOOTLOADER_CMD_WRITE) ∧
      status_failure_is_last (fun _ => True) dev log sent
        (rn_bootloader_write fuel dev log address length data version).1 ∧
      ((rn_bootloader_write fuel dev log address length data version).1 = none ∨
        (rn_bootloader_write fuel dev log address length data version).1 = some 0 ∨
        (rn_bootloader_write fuel dev log address length data version).1 = some (-1)) :=
  write_loop_status dev address length data version.write_latch_size fuel 0 log

theorem write_phase_status (fuel : Nat) (dev : Device) (version : rn_bootloader_rsp_version)
    (total_records : Nat) (beyond : Nat → Nat → Nat) :
    ∀ (rs : List intel_hex_record) (records_complete : Nat) (log : Log) (progress : List Nat),
      ∃ sent,
        (write_phase fuel dev version total_records beyond rs records_complete log
          progress).log = log ++ sent ∧
        (∀ p ∈ sent, pkt_command p = RN_BOOTLOADER_CMD_WRITE) ∧
        status_failure_is_last (fun _ => True) dev log sent
          (write_phase fuel dev version total_records beyond rs records_complete log
            progress).ret := by
  intro rs
  induction rs with
  | nil =>
    intro records_complete log progress
    exact ⟨[], by simp [write_phase], by simp, status_failure_nil _ _ _ _⟩
  | cons r next ih =>
    intro records_complete log progress
    by_cases ht : total_records = 0
    · exact ⟨[], by simp [write_phase, ht], by simp, status_failure_nil _ _ _ _⟩
    · obtain ⟨s1, h1, h2, h3, h4⟩ := rn_bootloader_write_status fuel dev log r.address r.length
        (record_ptr beyond records_complete r) version
      cases hw : rn_bootloader_write fuel dev log r.address r.length
          (record_ptr beyond records_complete r) version with
      | mk ret log1 =>
        rw [hw] at h1 h3 h4
        simp only at h1 h3 h4
        subst h1
        simp only [write_phase, ht, if_false, hw]
        rcases h4 with h | h | h
        · subst h
          exact ⟨s1, rfl, h2, h3⟩
        · subst h
          obtain ⟨s2, g1, g2, g3⟩ := ih (records_complete + 1) (log ++ s1)
            (progress ++ [(100 * records_complete) / total_records])
          refine ⟨s1 ++ s2, ?_, ?_, ?_⟩
          · simp only []
            rw [g1, List.append_assoc]
          · intro p hp
            rcases List.mem_append.mp hp with hp | hp
            · exact h2 p hp
            · exact g2 p hp
          · exact status_failure_append _ dev log s1 s2 _ h3 g3
        · subst h
          exact ⟨s1, rfl, h2, h3⟩

theorem verify_phase_sent (fuel : Nat) (dev : Device) (total_records : Nat)
    (beyond : Nat → Nat → Nat) :
    ∀ (rs : List intel_hex_record) (records_complete : Nat) (log : Log) (progress : List Nat),
      ∃ sent,
        (verify_phase fuel dev total_records beyond rs records_complete log progress).log =
          log ++ sent ∧
        (∀ p ∈ sent, pkt_command p = RN_BOOTLOADER_CMD_CHECKSUM) := by
  intro rs
  induction rs with
  | nil =>
    intro records_complete log progress
    exact ⟨[], by simp [verify_phase], by simp⟩
  | cons r next ih =>
    intro records_complete log progress
    by_cases ht : total_records = 0
    · exact ⟨[], by simp [verify_phase, ht], by simp⟩
    · simp only [verify_phase, ht, if_false, rn_bootloader_checksum]
      obtain ⟨pk, hcmd, h | ⟨_, h⟩ | ⟨f, hf, h⟩⟩ := do_command_cases dev log
        RN_BOOTLOADER_CMD_CHECKSUM r.length 0 0 r.address none sizeof_rsp_checksum
      · rw [h]
        exact ⟨[], by simp, by simp⟩
      · rw [h]
        refine ⟨[pk], rfl, ?_⟩
        intro p hp
        rw [List.mem_singleton.mp hp, hcmd]
        rfl
      · rw [h]
        simp only []
        have hone : ∀ p ∈ [pk], pkt_command p = RN_BOOTLOADER_CMD_CHECKSUM := by
          intro p hp
          rw [List.mem_singleton.mp hp, hcmd]
          rfl
        cases verify_calc_checksum fuel r.address r.length
            (record_ptr beyond records_complete r) with
        | none => exact ⟨[pk], rfl, hone⟩
        | some cv =>
          simp only []
          split
          · exact ⟨[pk], rfl, hone⟩
          · obtain ⟨s2, g1, g2⟩ := ih (records_complete + 1) (log ++ [pk])
              (progress ++ [(100 * records_complete) / total_records])
            refine ⟨pk :: s2, ?_, ?_⟩
            · rw [g1]
              simp
            · intro p hp
              rcases List.mem_cons.mp hp with hp | hp
              · rw [hp, hcmd]
                rfl
              · exact g2 p hp

theorem get_version_info_sent (dev : Device) (log : Log) :
    ∃ sent, (rn_bootloader_get_version_info dev log).2 = log ++ sent ∧
      (∀ p ∈ sent, pkt_command p = RN_BOOTLOADER_CMD_GET_VERSION) := by
  unfold rn_bootloader_get_version_info
  obtain ⟨pk, hcmd, h | ⟨_, h⟩ | ⟨f, hf, h⟩⟩ := do_command_cases dev log
    RN_BOOTLOADER_CMD_GET_VERSION 0 0 0 0 none sizeof_rsp_version
  · rw [h]
    exact ⟨[], by simp, by simp⟩
  · rw [h]
    refine ⟨[pk], rfl, ?_⟩
    intro p hp
    rw [List.mem_singleton.mp hp, hcmd]
    rfl
  · rw [h]
    refine ⟨[pk], rfl, ?_⟩
    intro p hp
    rw [List.mem_singleton.mp hp, hcmd]
    rfl

theorem not_erase_or_write_of_command (s : Log) (c : Nat)
    (hc : c ≠ RN_BOOTLOADER_CMD_ERASE ∧ c ≠ RN_BOOTLOADER_CMD_WRITE)
    (h : ∀ p ∈ s, pkt_command p = c) : ∀ p ∈ s, ¬ erase_or_write p := by
  intro p hp hew
  rcases hew with e | e
  · exact hc.1 ((h p hp).symm.trans e)
  · exact hc.2 ((h p hp).symm.trans e)

theorem download_firmware_status (fuel : Nat) (dev : Device) (log : Log)
    (hex : intel_hex_file) (beyond : Nat → Nat → Nat) :
    ∃ sent, (download_firmware fuel dev log hex beyond).log = log ++ sent ∧
      status_failure_is_last erase_or_write dev log sent
        (download_firmware fuel dev log hex beyond).ret := by
  obtain ⟨s0, a1, a2⟩ := get_version_info_sent dev log
  have k0 : ∀ ret, status_failure_is_last erase_or_write dev log s0 ret := fun ret =>
    status_failure_of_not _ _ _ _ _ (not_erase_or_write_of_command s0 _ (by decide) a2)
  cases hv : rn_bootloader_get_version_info dev log with
  | mk vopt log1 =>
    rw [hv] at a1
    simp only at a1
    subst a1
    cases vopt with
    | none =>
      simp only [download_firmware, hv]
      exact ⟨s0, rfl, k0 _⟩
    | some version =>
      obtain ⟨s1, b1, _, b3, b4⟩ := rn_bootloader_erase_status fuel dev (log ++ s0) 0x300
        (0x10000 - 0x300) version
      cases he : rn_bootloader_erase fuel dev (log ++ s0) 0x300 (0x10000 - 0x300) version with
      | mk r log2 =>
        rw [he] at b1 b3 b4
        simp only at b1 b3 b4
        subst b1
        have k1 : status_failure_is_last erase_or_write dev log (s0 ++ s1) r :=
          status_failure_append _ _ _ _ _ _ (k0 _)
            (status_failure_mono _ _ _ _ _ _ (fun _ _ => trivial) b3)
        rcases b4 with h | h | h
        · subst h
          simp only [download_firmware, hv, he]
          exact ⟨s0 ++ s1, by rw [List.append_assoc], k1⟩
        · subst h
          obtain ⟨s2, c1, _, c3⟩ := write_phase_status fuel dev version
            (intel_hex_num_records hex) beyond (intel_hex_get_first_record hex) 0
            (log ++ s0 ++ s1) []
          have k2 : status_failure_is_last erase_or_write dev log (s0 ++ s1 ++ s2)
              (write_phase fuel dev version (intel_hex_num_records hex) beyond
                (intel_hex_get_first_record hex) 0 (log ++ s0 ++ s1) []).ret := by
            refine status_failure_append _ _ _ _ _ _ k1 ?_
            rw [← List.append_assoc]
            exact status_failure_mono _ _ _ _ _ _ (fun _ _ => trivial) c3
          obtain ⟨s3, d1, d2⟩ := verify_phase_sent fuel dev (intel_hex_num_records hex) beyond
            (intel_hex_get_first_record hex) 0
            (write_phase fuel dev version (intel_hex_num_records hex) beyond
              (intel_hex_get_first_record hex) 0 (log ++ s0 ++ s1) []).log
            ((write_phase fuel dev version (intel_hex_num_records hex) beyond
              (intel_hex_get_first_record hex) 0 (log ++ s0 ++ s1) []).progress ++ [100])
          simp only [download_firmware, hv, he]
          split
          · rename_i hwr
            rw [hwr] at k2
            have k3 : ∀ ret, status_failure_is_last erase_or_write dev log
                (s0 ++ s1 ++ s2 ++ s3) ret := fun ret =>
              status_failure_append _ _ _ _ _ _ k2
                (status_failure_of_not _ _ _ _ _
                  (not_erase_or_write_of_command s3 _ (by decide) d2))
            split
            · simp only [rn_bootloader_reset_eq]
              have k4 : ∀ ret, status_failure_is_last erase_or_write dev log
                  (s0 ++ s1 ++ s2 ++ s3 ++ [reset_request]) ret := fun ret =>
                status_failure_append _ _ _ _ _ _ (k3 _)
                  (status_failure_of_not _ _ _ _ _
                    (not_erase_or_write_of_command [reset_request] RN_BOOTLOADER_CMD_RESET
                      (by decide) (by
                        intro p hp
                        rw [List.mem_singleton.mp hp]
                        rfl)))
              have hl : (verify_phase fuel dev (intel_hex_num_records hex) beyond
                  (intel_hex_get_first_record hex) 0
                  (write_phase fuel dev version (intel_hex_num_records hex) beyond
                    (intel_hex_get_first_record hex) 0 (log ++ s0 ++ s1) []).log
                  ((write_phase fuel dev version (intel_hex_num_records hex) beyond
                    (intel_hex_get_first_record hex) 0 (log ++ s0 ++ s1) []).progress ++
                      [100])).log ++ [reset_request] =
                  log ++ (s0 ++ s1 ++ s2 ++ s3 ++ [reset_request]) := by
                rw [d1, c1]
                simp only [List.append_assoc]
              split
              · rename_i log4 heq
                obtain ⟨_, rfl⟩ := Prod.mk.inj heq
                exact ⟨_, hl, k4 _⟩
              · rename_i x log4 hne heq
                obtain ⟨_, rfl⟩ := Prod.mk.inj heq
                exact ⟨_, hl, k4 _⟩
            · refine ⟨s0 ++ s1 ++ s2 ++ s3, ?_, k3 _⟩
              simp only []
              rw [d1, c1]
              simp only [List.append_assoc]
          · refine ⟨s0 ++ s1 ++ s2, ?_, k2⟩
            simp only []
            rw [c1]
            simp only [List.append_assoc]
        · subst h
          simp only [download_firmware, hv, he]
          exact ⟨s0 ++ s1, by rw [List.append_assoc], k1⟩

/-- C20: whatever the device answers, the commands sent by
`rn_bootloader_erase` are Erase commands and those sent by
`rn_bootloader_write` are Write commands, and a response to one of them whose
status byte (the byte after the echoed header) is not 1 makes that command the
last one sent and the return value -1.  In a run of `download_firmware`, an
Erase or Write command whose response carries a status byte other than 1 is
the last packet of the whole run (no later Write, Checksum request or Reset)
and the function returns -1. -/
theorem non_success_status_aborts (fuel : Nat) (dev : Device) (log : Log) :
    (∀ (start_address length : Nat) (version : rn_bootloader_rsp_version), ∃ sent,
      (rn_bootloader_erase fuel dev log start_address length version).2 = log ++ sent ∧
      (∀ p ∈ sent, pkt_command p = RN_BOOTLOADER_CMD_ERASE) ∧
      status_failure_is_last (fun _ => True) dev log sent
        (rn_bootloader_erase fuel dev log start_address length version).1) ∧
    (∀ (address length : Nat) (data : Nat → Nat) (version : rn_bootloader_rsp_version),
      ∃ sent,
        (rn_bootloader_write fuel dev log address length data version).2 = log ++ sent ∧
        (∀ p ∈ sent, pkt_command p = RN_BOOTLOADER_CMD_WRITE) ∧
        status_failure_is_last (fun _ => True) dev log sent
          (rn_bootloader_write fuel dev log address length data version).1) ∧
    (∀ (hex : intel_hex_file) (beyond : Nat → Nat → Nat), ∃ sent,
      (download_firmware fuel dev log hex beyond).log = log ++ sent ∧
      status_failure_is_last erase_or_write dev log sent
        (download_firmware fuel dev log hex beyond).ret) := by
  refine ⟨?_, ?_, ?_⟩
  · intro start_address length version
    obtain ⟨sent, h1, h2, h3, _⟩ :=
      rn_bootloader_erase_status fuel dev log start_address length version
    exact ⟨sent, h1, h2, h3⟩
  · intro address length data version
    obtain ⟨sent, h1, h2, h3, _⟩ :=
      rn_bootloader_write_status fuel dev log address length data version
    exact ⟨sent, h1, h2, h3⟩
  · intro hex beyond
    exact download_firmware_status fuel dev log hex beyond

theorem non_success_status_aborts_witness :
    2 + 1 =
      (download_firmware 4 write_failing_device [] sample_hex (fun _ _ => 0)).log.length ∧
    (download_firmware 4 write_failing_device [] sample_hex (fun _ _ => 0)).ret =
      some (-1) := by
  obtain ⟨sent, hs, h⟩ :=
    (non_success_status_aborts 4 write_failing_device []).2.2 sample_hex (fun _ _ => 0)
  rw [List.nil_append] at hs
  subst hs
  exact h 2 (by decide) (Or.inr rfl) _ rfl (by decide)

/-! ## Wire format of the commands -/

theorem do_command_sent (dev : Device) (log : Log)
    (command length key_one key_two address : Nat) (data : Option (Nat → Nat))
    (response_length : Nat) (h : length ≤ RN_BOOTLOADER_MAX_LENGTH) :
    (rn_bootloader_do_command dev log command length key_one key_two address data
      response_length).2 = log ++ [marshal command length key_one key_two address data] := by
  unfold rn_bootloader_do_command
  rw [if_neg (by omega)]
  simp only []
  cases dev (log ++ [marshal command length key_one key_two address data]) <;> rfl

theorem do_command_rejected (dev : Device) (log : Log)
    (command length key_one key_two address : Nat) (data : Option (Nat → Nat))
    (response_length : Nat) (h : length > RN_BOOTLOADER_MAX_LENGTH) :
    rn_bootloader_do_command dev log command length key_one key_two address data
      response_length = (none, log) := by
  unfold rn_bootloader_do_command
  rw [if_pos h]

theorem do_command_accepted (dev : Device) (log : Log)
    (command length key_one key_two address : Nat) (data : Option (Nat → Nat))
    (response_length : Nat) (h : length ≤ RN_BOOTLOADER_MAX_LENGTH) :
    (dev (log ++ [marshal command length key_one key_two address data]) = none ∧
      rn_bootloader_do_command dev log command length key_one key_two address data
        response_length =
        (none, log ++ [marshal command length key_one key_two address data])) ∨
    (∃ f, dev (log ++ [marshal command length key_one key_two address data]) = some f ∧
      rn_bootloader_do_command dev log command length key_one key_two address data
        response_length =
        (some ((List.range response_length).map f),
          log ++ [marshal command length key_one key_two address data])) := by
  unfold rn_bootloader_do_command
  rw [if_neg (by omega)]
  simp only []
  cases dev (log ++ [marshal command length key_one key_two address data]) with
  | none => exact Or.inl ⟨rfl, rfl⟩
  | some f => exact Or.inr ⟨f, rfl, rfl⟩

theorem marshal_header (command length key_one key_two address : Nat)
    (data : Option (Nat → Nat)) :
    (marshal command length key_one key_two address data).take sizeof_cmd_base =
      [RN_BOOTLOADER_MAGIC, command % 256, length % 256, length / 256 % 256,
       key_one % 256, key_two % 256, address % 256, address / 256 % 256,
       address / 65536 % 256, address / 16777216 % 256] := by
  simp [marshal, sizeof_cmd_base]

theorem marshal_length (command length key_one key_two address : Nat)
    (data : Option (Nat → Nat)) :
    (marshal command length key_one key_two address data).length =
      sizeof_cmd_base + (match data with
        | none => 0
        | some _ => length) := by
  cases data with
  | none => simp [marshal, sizeof_cmd_base]
  | some d =>
    simp only [marshal, sizeof_cmd_base, List.length_append, List.length_cons, List.length_nil,
      List.length_map, List.length_range]

theorem all_succeeded_nil (dev : Device) (log : Log) : all_succeeded dev log [] := by
  intro i hi
  simp at hi

theorem all_succeeded_single (dev : Device) (log : Log) (p : Packet) (f : Nat → Nat)
    (hf : dev (log ++ [p]) = some f)
    (hs : f sizeof_cmd_base = RN_BOOTLOADER_STATUS_SUCCESS) :
    all_succeeded dev log [p] := by
  intro i hi
  simp at hi
  subst hi
  exact ⟨f, hf, hs⟩

theorem all_succeeded_append (dev : Device) (log s1 s2 : Log)
    (h1 : all_succeeded dev log s1) (h2 : all_succeeded dev (log ++ s1) s2) :
    all_succeeded dev log (s1 ++ s2) := by
  intro i hi
  by_cases h : i < s1.length
  · have e2 : (s1 ++ s2).take (i + 1) = s1.take (i + 1) :=
      List.take_append_of_le_length (by omega)
    rw [e2]
    exact h1 i h
  · have hlen : (s1 ++ s2).length = s1.length + s2.length := List.length_append s1 s2
    have e2 : (s1 ++ s2).take (i + 1) = s1 ++ s2.take (i - s1.length + 1) := by
      rw [List.take_append_eq_append_take, List.take_of_length_le (by omega)]
      congr 2
      omega
    rw [e2, ← List.append_assoc]
    exact h2 (i - s1.length) (by omega)

theorem erase_loop_trace (dev : Device) (start_address total_blocks erase_row_size : Nat) :
    ∀ fuel remaining_blocks log, ∃ sent,
      (erase_loop dev start_address total_blocks erase_row_size fuel remaining_blocks log).2 =
        log ++ sent ∧
      (∀ p ∈ sent, erase_packet p) ∧
      ((erase_loop dev start_address total_blocks erase_row_size fuel remaining_blocks log).1 =
        some 0 → all_succeeded dev log sent) := by
  intro fuel
  induction fuel with
  | zero =>
    intro remaining_blocks log
    exact ⟨[], by simp [erase_loop], by simp, fun _ => all_succeeded_nil _ _⟩
  | succ fuel ih =>
    intro remaining_blocks log
    by_cases hr : remaining_blocks ≠ 0
    · have hle : (if (if remaining_blocks > 256 then 256 else remaining_blocks) = 256 then 0
          else (if remaining_blocks > 256 then 256 else remaining_blocks)) ≤
          RN_BOOTLOADER_MAX_LENGTH := by
        unfold RN_BOOTLOADER_MAX_LENGTH
        split_ifs <;> omega
      obtain ⟨pk, hpk, hcase⟩ : ∃ pk, erase_packet pk ∧
          ((dev (log ++ [pk]) = none ∧
            rn_bootloader_do_command dev log RN_BOOTLOADER_CMD_ERASE
              (if (if remaining_blocks > 256 then 256 else remaining_blocks) = 256 then 0
                else (if remaining_blocks > 256 then 256 else remaining_blocks))
              RN_BOOTLOADER_KEY_ONE RN_BOOTLOADER_KEY_TWO
              ((start_address + (total_blocks - remaining_blocks) * erase_row_size) % 2 ^ 32)
              none sizeof_rsp_status = (none, log ++ [pk])) ∨
          (∃ f, dev (log ++ [pk]) = some f ∧
            rn_bootloader_do_command dev log RN_BOOTLOADER_CMD_ERASE
              (if (if remaining_blocks > 256 then 256 else remaining_blocks) = 256 then 0
                else (if remaining_blocks > 256 then 256 else remaining_blocks))
              RN_BOOTLOADER_KEY_ONE RN_BOOTLOADER_KEY_TWO
              ((start_address + (total_blocks - remaining_blocks) * erase_row_size) % 2 ^ 32)
              none sizeof_rsp_status =
              (some ((List.range sizeof_rsp_status).map f), log ++ [pk]))) :=
        ⟨_, ⟨_, _, hle, Nat.mod_lt _ (by norm_num), rfl⟩,
          do_command_accepted dev log _ _ _ _ _ _ _ hle⟩
      have hone : ∀ p ∈ [pk], erase_packet p := fun p hp => by
        rw [List.mem_singleton.mp hp]
        exact hpk
      simp only [erase_loop, ne_eq, (show ¬ remaining_blocks = 0 from hr), not_false_eq_true,
        if_true]
      rcases hcase with ⟨_, h⟩ | ⟨f, hf, h⟩
      · rw [h]
        exact ⟨[pk], rfl, hone, fun hret => by simp at hret⟩
      · rw [h]
        simp only [rsp_status_range]
        by_cases hs : f sizeof_cmd_base ≠ RN_BOOTLOADER_STATUS_SUCCESS
        · simp only [ne_eq, (show ¬ f sizeof_cmd_base = RN_BOOTLOADER_STATUS_SUCCESS from hs),
            not_false_eq_true, if_true]
          exact ⟨[pk], rfl, hone, fun hret => by simp at hret⟩
        · simp only [hs, if_false]
          obtain ⟨sent, h1, h2, h3⟩ := ih
            (remaining_blocks - (if remaining_blocks > 256 then 256 else remaining_blocks))
            (log ++ [pk])
          refine ⟨pk :: sent, ?_, ?_, ?_⟩
          · rw [h1]
            simp
          · intro p hp
            rcases List.mem_cons.mp hp with hp | hp
            · rw [hp]
              exact hpk
            · exact h2 p hp
          · intro hret
            exact all_succeeded_append dev log [pk] sent
              (all_succeeded_single dev log pk f hf (not_not.mp hs)) (h3 hret)
    · simp only [erase_loop, hr, if_false]
      exact ⟨[], by simp, by simp, fun _ => all_succeeded_nil _ _⟩

theorem write_loop_trace (dev : Device) (address length : Nat) (data : Nat → Nat)
    (write_latch_size : Nat) :
    ∀ fuel bytes_written log, bytes_written < 2 ^ 16 → ∃ sent,
      (write_loop dev address length data write_latch_size fuel bytes_written log).2 =
        log ++ sent ∧
      (∀ p ∈ sent, write_packet address data p) ∧
      ((write_loop dev address length data write_latch_size fuel bytes_written log).1 =
        some 0 → all_succeeded dev log sent) := by
  intro fuel
  induction fuel with
  | zero =>
    intro bytes_written log _
    exact ⟨[], by simp [write_loop], by simp, fun _ => all_succeeded_nil _ _⟩
  | succ fuel ih =>
    intro bytes_written log hbw
    by_cases hr : bytes_written < length
    · simp only [write_loop, hr, if_true]
      by_cases hle : (if length > write_latch_size then write_latch_size else length) ≤
          RN_BOOTLOADER_MAX_LENGTH
      · obtain ⟨pk, hpk, hcase⟩ : ∃ pk, write_packet address data pk ∧
            ((dev (log ++ [pk]) = none ∧
              rn_bootloader_do_command dev log RN_BOOTLOADER_CMD_WRITE
                (if length > write_latch_size then write_latch_size else length)
                RN_BOOTLOADER_KEY_ONE RN_BOOTLOADER_KEY_TWO
                ((address + bytes_written) % 2 ^ 32)
                (some (fun i => data (bytes_written + i))) sizeof_rsp_status =
                (none, log ++ [pk])) ∨
            (∃ f, dev (log ++ [pk]) = some f ∧
              rn_bootloader_do_command dev log RN_BOOTLOADER_CMD_WRITE
                (if length > write_latch_size then write_latch_size else length)
                RN_BOOTLOADER_KEY_ONE RN_BOOTLOADER_KEY_TWO
                ((address + bytes_written) % 2 ^ 32)
                (some (fun i => data (bytes_written + i))) sizeof_rsp_status =
                (some ((List.range sizeof_rsp_status).map f), log ++ [pk]))) :=
          ⟨_, ⟨_, bytes_written, hle, hbw, rfl⟩,
            do_command_accepted dev log _ _ _ _ _ _ _ hle⟩
        have hone : ∀ p ∈ [pk], write_packet address data p := fun p hp => by
          rw [List.mem_singleton.mp hp]
          exact hpk
        rcases hcase with ⟨_, h⟩ | ⟨f, hf, h⟩
        · rw [h]
          exact ⟨[pk], rfl, hone, fun hret => by simp at hret⟩
        · rw [h]
          simp only [rsp_status_range]
          by_cases hs : f sizeof_cmd_base ≠ RN_BOOTLOADER_STATUS_SUCCESS
          · rw [if_pos hs]
            exact ⟨[pk], rfl, hone, fun hret => by simp at hret⟩
          · rw [if_neg hs]
            obtain ⟨sent, h1, h2, h3⟩ := ih
              ((bytes_written + (if length > write_latch_size then write_latch_size
                else length)) % 2 ^ 16)
              (log ++ [pk]) (Nat.mod_lt _ (by norm_num))
            refine ⟨pk :: sent, ?_, ?_, ?_⟩
            · rw [h1]
              simp
            · intro p hp
              rcases List.mem_cons.mp hp with hp | hp
              · rw [hp]
                exact hpk
              · exact h2 p hp
            · intro hret
              exact all_succeeded_append dev log [pk] sent
                (all_succeeded_single dev log pk f hf (not_not.mp hs)) (h3 hret)
      · rw [do_command_rejected dev log _ _ _ _ _ _ _ (by omega)]
        exact ⟨[], by simp, by simp, fun hret => by simp at hret⟩
    · simp only [write_loop, hr, if_false]
      exact ⟨[], by simp, by simp, fun _ => all_succeeded_nil _ _⟩

theorem rn_bootloader_erase_trace (fuel : Nat) (dev : Device) (log : Log)
    (start_address length : Nat) (version : rn_bootloader_rsp_version) :
    ∃ sent,
      (rn_bootloader_erase fuel dev log start_address length version).2 = log ++ sent ∧
      (∀ p ∈ sent, erase_packet p) ∧
      ((rn_bootloader_erase fuel dev log start_address length version).1 = some 0 →
        all_succeeded dev log sent) := by
  unfold rn_bootloader_erase
  by_cases h : version.erase_row_size = 0
  · simp only [h, if_true]
    exact ⟨[], by simp, by simp, fun _ => all_succeeded_nil _ _⟩
  · simp only [h, if_false]
    exact erase_loop_trace dev start_address _ _ fuel _ log

theorem rn_bootloader_write_trace (fuel : Nat) (dev : Device) (log : Log)
    (address length : Nat) (data : Nat → Nat) (version : rn_bootloader_rsp_version) :
    ∃ sent,
      (rn_bootloader_write fuel dev log address length data version).2 = log ++ sent ∧
      (∀ p ∈ sent, write_packet address data p) ∧
      ((rn_bootloader_write fuel dev log address length data version).1 = some 0 →
        all_succeeded dev log sent) :=
  write_loop_trace dev address length data version.write_latch_size fuel 0 log (by norm_num)

theorem rn_bootloader_get_version_info_sent (dev : Device) (log : Log) :
    (rn_bootloader_get_version_info dev log).2 = log ++ [version_request] := by
  have h := do_command_sent dev log RN_BOOTLOADER_CMD_GET_VERSION 0 0 0 0 none
    sizeof_rsp_version (by decide)
  unfold rn_bootloader_get_version_info
  cases hc : rn_bootloader_do_command dev log RN_BOOTLOADER_CMD_GET_VERSION 0 0 0 0 none
      sizeof_rsp_version with
  | mk res log1 =>
    rw [hc] at h
    cases res <;> exact h

theorem rn_bootloader_checksum_sent (dev : Device) (log : Log) (address length : Nat)
    (hlen : length ≤ RN_BOOTLOADER_MAX_LENGTH) :
    (rn_bootloader_checksum dev log address length).2 =
      log ++ [marshal RN_BOOTLOADER_CMD_CHECKSUM length 0 0 address none] := by
  have h := do_command_sent dev log RN_BOOTLOADER_CMD_CHECKSUM length 0 0 address none
    sizeof_rsp_checksum hlen
  unfold rn_bootloader_checksum
  cases hc : rn_bootloader_do_command dev log RN_BOOTLOADER_CMD_CHECKSUM length 0 0 address
      none sizeof_rsp_checksum with
  | mk res log1 =>
    rw [hc] at h
    cases res <;> exact h

theorem erase_packet_fields (p : Packet) (h : erase_packet p) :
    p.length = sizeof_cmd_base ∧ p.getD 0 0 = 0x55 ∧ p.getD 1 0 = 0x03 ∧
    p.getD 4 0 = 0x55 ∧ p.getD 5 0 = 0xAA := by
  obtain ⟨n, a, _, _, rfl⟩ := h
  simp [marshal, sizeof_cmd_base, RN_BOOTLOADER_MAGIC, RN_BOOTLOADER_CMD_ERASE,
    RN_BOOTLOADER_KEY_ONE, RN_BOOTLOADER_KEY_TWO]

theorem write_packet_fields (address : Nat) (data : Nat → Nat) (p : Packet)
    (h : write_packet address data p) :
    p.length = sizeof_cmd_base + pkt_length p ∧ p.getD 0 0 = 0x55 ∧ p.getD 1 0 = 0x02 ∧
    p.getD 4 0 = 0x55 ∧ p.getD 5 0 = 0xAA := by
  obtain ⟨n, bw, hn, _, rfl⟩ := h
  have hn1 : n % 256 = n := Nat.mod_eq_of_lt (by unfold RN_BOOTLOADER_MAX_LENGTH at hn; omega)
  have hn2 : n / 256 % 256 = 0 := by
    unfold RN_BOOTLOADER_MAX_LENGTH at hn
    omega
  refine ⟨?_, ?_, ?_, ?_, ?_⟩
  · rw [marshal_length]
    simp only [pkt_length, marshal, List.cons_append, List.getD_cons_succ, List.getD_cons_zero,
      hn1, hn2]
    omega
  all_goals simp [marshal, RN_BOOTLOADER_MAGIC, RN_BOOTLOADER_CMD_WRITE,
    RN_BOOTLOADER_KEY_ONE, RN_BOOTLOADER_KEY_TWO]

/-- C21: for every command that `rn_bootloader_do_command` accepts (length
field at most 255) exactly one packet is written, whose first ten bytes are
the magic `0x55`, the opcode, the low and the high byte of the length field,
`key_one`, `key_two` and the four address bytes least-significant first,
followed by `length` bytes copied from `data` when `data` is supplied and by
nothing when it is absent.  GetVersion, Checksum and Reset are sent without
data by the functions that issue them, and so is every Erase command of
`rn_bootloader_erase`: these packets are the ten header bytes alone. -/
theorem command_wire_layout (dev : Device) (log : Log)
    (command length key_one key_two address : Nat) (data : Option (Nat → Nat))
    (response_length : Nat)
    (hlen : length ≤ RN_BOOTLOADER_MAX_LENGTH) (hcmd : command < 256)
    (hk1 : key_one < 256) (hk2 : key_two < 256) (haddr : address < 2 ^ 32) :
    (∃ pk,
      (rn_bootloader_do_command dev log command length key_one key_two address data
        response_length).2 = log ++ [pk] ∧
      pk.take 10 = [0x55, command, length % 256, length / 256, key_one, key_two,
        address % 256, address / 256 % 256, address / 65536 % 256, address / 16777216] ∧
      (∀ d, data = some d → pk.drop 10 = (List.range length).map d ∧
        (pk.drop 10).length = length) ∧
      (data = none → pk.drop 10 = [])) ∧
    (rn_bootloader_get_version_info dev log).2 = log ++ [version_request] ∧
    version_request.length = 10 ∧
    (rn_bootloader_checksum dev log address length).2 =
      log ++ [marshal RN_BOOTLOADER_CMD_CHECKSUM length 0 0 address none] ∧
    (marshal RN_BOOTLOADER_CMD_CHECKSUM length 0 0 address none).length = 10 ∧
    (rn_bootloader_reset dev log).2 = log ++ [reset_request] ∧
    reset_request.length = 10 ∧
    (∀ (fuel start_address len : Nat) (version : rn_bootloader_rsp_version), ∃ sent,
      (rn_bootloader_erase fuel dev log start_address len version).2 = log ++ sent ∧
      ∀ p ∈ sent, p.length = 10 ∧ p.getD 1 0 = 0x03) := by
  refine ⟨⟨marshal command length key_one key_two address data,
    do_command_sent dev log command length key_one key_two address data response_length hlen,
    ?_, ?_, ?_⟩, rn_bootloader_get_version_info_sent dev log, rfl,
    rn_bootloader_checksum_sent dev log address length hlen, rfl, ?_, rfl, ?_⟩
  · have h := marshal_header command length key_one key_two address data
    rw [show sizeof_cmd_base = 10 from rfl] at h
    rw [h, Nat.mod_eq_of_lt hcmd, Nat.mod_eq_of_lt hk1, Nat.mod_eq_of_lt hk2]
    unfold RN_BOOTLOADER_MAX_LENGTH at hlen
    have e1 : length / 256 % 256 = length / 256 := by omega
    have e2 : address / 16777216 % 256 = address / 16777216 := by
      have : address < 4294967296 := by simpa using haddr
      omega
    rw [e1, e2]
    rfl
  · intro d hd
    subst hd
    simp [marshal]
  · intro hd
    subst hd
    simp [marshal]
  · rw [rn_bootloader_reset_eq]
  · intro fuel start_address len version
    obtain ⟨sent, h1, h2, _⟩ := rn_bootloader_erase_trace fuel dev log start_address len version
    refine ⟨sent, h1, fun p hp => ?_⟩
    have := erase_packet_fields p (h2 p hp)
    exact ⟨this.1, this.2.2.1⟩

theorem command_wire_layout_witness :
    (rn_bootloader_do_command success_device [] RN_BOOTLOADER_CMD_WRITE 2
      RN_BOOTLOADER_KEY_ONE RN_BOOTLOADER_KEY_TWO 0x12345678 (some (fun i => 0xA0 + i))
      sizeof_rsp_status).2 =
      [[0x55, 0x02, 0x02, 0x00, 0x55, 0xAA, 0x78, 0x56, 0x34, 0x12, 0xA0, 0xA1]] := by
  obtain ⟨pk, h1, h2, h3, _⟩ := (command_wire_layout success_device []
    RN_BOOTLOADER_CMD_WRITE 2 RN_BOOTLOADER_KEY_ONE RN_BOOTLOADER_KEY_TWO 0x12345678
    (some (fun i => 0xA0 + i)) sizeof_rsp_status (by decide) (by decide) (by decide)
    (by decide) (by decide)).1
  rw [h1, ← List.take_append_drop 10 pk, h2, (h3 _ rfl).1]
  rfl

/-- C24: called with a length field above 255, `rn_bootloader_do_command`
returns -1 and leaves the port history as it was: nothing is written, whatever
the command, the keys, the address, the data and the device. -/
theorem oversize_length_rejected (dev : Device) (log : Log)
    (command length key_one key_two address : Nat) (data : Option (Nat → Nat))
    (response_length : Nat) (h : length > 255) :
    rn_bootloader_do_command dev log command length key_one key_two address data
      response_length = (none, log) :=
  do_command_rejected dev log command length key_one key_two address data response_length h

theorem oversize_length_rejected_witness :
    rn_bootloader_do_command success_device [] RN_BOOTLOADER_CMD_WRITE 256
      RN_BOOTLOADER_KEY_ONE RN_BOOTLOADER_KEY_TWO 0 (some (fun _ => 0)) sizeof_rsp_status =
      (none, []) :=
  oversize_length_rejected success_device [] RN_BOOTLOADER_CMD_WRITE 256
    RN_BOOTLOADER_KEY_ONE RN_BOOTLOADER_KEY_TWO 0 (some (fun _ => 0)) sizeof_rsp_status
    (by decide)

/-- C22 as stated fails: the header is 10 bytes, not 12.  The Reset command
(no payload) is written as 10 bytes and a Write command carrying 3 payload
bytes as 13 bytes; `sizeof(struct rn_bootloader_cmd_base)`, the echoed
header of a response, is 10. -/
theorem command_header_is_not_twelve_bytes :
    (rn_bootloader_reset success_device []).2.map List.length = [10] ∧
    (rn_bootloader_do_command success_device [] RN_BOOTLOADER_CMD_WRITE 3
      RN_BOOTLOADER_KEY_ONE RN_BOOTLOADER_KEY_TWO 0 (some (fun _ => 0))
      sizeof_rsp_status).2.map List.length = [13] ∧
    sizeof_cmd_base = 10 ∧ sizeof_cmd_base ≠ 12 := by
  decide

/-- C22 (amended): the command header is a fixed 10 bytes.  For every accepted
command `rn_bootloader_do_command` writes exactly 10 bytes when no data is
supplied and exactly `10 + n` bytes when `n` bytes of data are supplied, and
so does every Write command of `rn_bootloader_write`.  The echoed header of a
response occupies its first 10 bytes: the status is the byte at offset 10 of
a status response, the checksum is read from offsets 10 and 11 and the
bootloader version from offsets 10 and 11 of their responses, whose sizes are
11, 12 and 26 bytes. -/
theorem command_header_is_ten_bytes (dev : Device) (log : Log)
    (command n key_one key_two address : Nat) (data : Option (Nat → Nat))
    (response_length : Nat) (hlen : n ≤ RN_BOOTLOADER_MAX_LENGTH) :
    (∃ pk,
      (rn_bootloader_do_command dev log command n key_one key_two address data
        response_length).2 = log ++ [pk] ∧
      (data = none → pk.length = 10) ∧
      (data ≠ none → pk.length = 10 + n)) ∧
    (∀ (fuel addr len : Nat) (buf : Nat → Nat) (version : rn_bootloader_rsp_version),
      ∃ sent, (rn_bootloader_write fuel dev log addr len buf version).2 = log ++ sent ∧
        ∀ p ∈ sent, p.length = 10 + pkt_length p ∧ (pkt_payload p).length = pkt_length p) ∧
    (∀ f, dev (log ++ [marshal command n key_one key_two address data]) = some f →
      ∃ response,
        rn_bootloader_do_command dev log command n key_one key_two address data
          sizeof_rsp_status = (some response, log ++
            [marshal command n key_one key_two address data]) ∧
        response.length = 11 ∧ rsp_status response = f 10) ∧
    (∀ f, dev (log ++ [marshal RN_BOOTLOADER_CMD_CHECKSUM n 0 0 address none]) = some f →
      (rn_bootloader_checksum dev log address n).1 = some (le_to_host_16 (f 10) (f 11))) ∧
    (∀ f, dev (log ++ [version_request]) = some f →
      ∃ v, (rn_bootloader_get_version_info dev log).1 = some v ∧
        v.version = le_to_host_16 (f 10) (f 11)) ∧
    sizeof_rsp_status = 10 + 1 ∧ sizeof_rsp_checksum = 10 + 2 ∧
    sizeof_rsp_version = 10 + 16 := by
  refine ⟨⟨marshal command n key_one key_two address data,
    do_command_sent dev log command n key_one key_two address data response_length hlen,
    ?_, ?_⟩, ?_, ?_, ?_, ?_, rfl, rfl, rfl⟩
  · intro hd
    subst hd
    rfl
  · intro hd
    rw [marshal_length]
    cases data with
    | none => exact absurd rfl hd
    | some d => rfl
  · intro fuel addr len buf version
    obtain ⟨sent, h1, h2, _⟩ := rn_bootloader_write_trace fuel dev log addr len buf version
    refine ⟨sent, h1, fun p hp => ?_⟩
    have hf := (write_packet_fields addr buf p (h2 p hp)).1
    refine ⟨hf, ?_⟩
    unfold pkt_payload
    rw [List.length_drop, hf]
    omega
  · intro f hf
    refine ⟨(List.range sizeof_rsp_status).map f, ?_, by simp [sizeof_rsp_status,
      sizeof_cmd_base], rsp_status_range f⟩
    unfold rn_bootloader_do_command
    rw [if_neg (by omega)]
    simp only [hf]
  · intro f hf
    unfold rn_bootloader_checksum rn_bootloader_do_command
    rw [if_neg (by omega)]
    simp only [hf]
    simp [sizeof_rsp_checksum, sizeof_cmd_base, List.getD_eq_getElem?_getD]
  · intro f hf
    unfold version_request at hf
    unfold rn_bootloader_get_version_info rn_bootloader_do_command
    rw [if_neg (by decide)]
    simp only [hf]
    refine ⟨_, rfl, ?_⟩
    simp [sizeof_rsp_version, sizeof_cmd_base, List.getD_eq_getElem?_getD]

theorem command_header_is_ten_bytes_witness :
    (rn_bootloader_do_command success_device [] RN_BOOTLOADER_CMD_ERASE 4
      RN_BOOTLOADER_KEY_ONE RN_BOOTLOADER_KEY_TWO 0x300 none
      sizeof_rsp_status).2.map List.length = [10] := by
  obtain ⟨pk, h1, h2, _⟩ := (command_header_is_ten_bytes success_device []
    RN_BOOTLOADER_CMD_ERASE 4 RN_BOOTLOADER_KEY_ONE RN_BOOTLOADER_KEY_TWO 0x300 none
    sizeof_rsp_status (by decide)).1
  rw [h1]
  simp [h2 rfl]

/-- C23: every packet sent by `rn_bootloader_get_version_info`,
`rn_bootloader_erase`, `rn_bootloader_write`, `rn_bootloader_checksum` and
`rn_bootloader_reset` starts with the magic byte `0x55`; every packet sent by
`rn_bootloader_erase` has opcode `0x03`, every packet sent by
`rn_bootloader_write` has opcode `0x02`, and both carry `key_one = 0x55` and
`key_two = 0xAA`. -/
theorem packets_carry_magic_and_keys (fuel : Nat) (dev : Device) (log : Log) :
    (∃ sent, (rn_bootloader_get_version_info dev log).2 = log ++ sent ∧
      ∀ p ∈ sent, p.getD 0 0 = 0x55) ∧
    (∀ (start_address length : Nat) (version : rn_bootloader_rsp_version), ∃ sent,
      (rn_bootloader_erase fuel dev log start_address length version).2 = log ++ sent ∧
      ∀ p ∈ sent, p.getD 0 0 = 0x55 ∧ p.getD 1 0 = 0x03 ∧ p.getD 4 0 = 0x55 ∧
        p.getD 5 0 = 0xAA) ∧
    (∀ (address length : Nat) (data : Nat → Nat) (version : rn_bootloader_rsp_version),
      ∃ sent,
        (rn_bootloader_write fuel dev log address length data version).2 = log ++ sent ∧
        ∀ p ∈ sent, p.getD 0 0 = 0x55 ∧ p.getD 1 0 = 0x02 ∧ p.getD 4 0 = 0x55 ∧
          p.getD 5 0 = 0xAA) ∧
    (∀ (address length : Nat), ∃ sent,
      (rn_bootloader_checksum dev log address length).2 = log ++ sent ∧
      ∀ p ∈ sent, p.getD 0 0 = 0x55) ∧
    (∃ sent, (rn_bootloader_reset dev log).2 = log ++ sent ∧
      ∀ p ∈ sent, p.getD 0 0 = 0x55) := by
  refine ⟨⟨[version_request], rn_bootloader_get_version_info_sent dev log, ?_⟩, ?_, ?_, ?_,
    ⟨[reset_request], by rw [rn_bootloader_reset_eq], ?_⟩⟩
  · intro p hp
    rw [List.mem_singleton.mp hp]
    rfl
  · intro start_address length version
    obtain ⟨sent, h1, h2, _⟩ :=
      rn_bootloader_erase_trace fuel dev log start_address length version
    exact ⟨sent, h1, fun p hp => (erase_packet_fields p (h2 p hp)).2⟩
  · intro address length data version
    obtain ⟨sent, h1, h2, _⟩ :=
      rn_bootloader_write_trace fuel dev log address length data version
    exact ⟨sent, h1, fun p hp => (write_packet_fields address data p (h2 p hp)).2⟩
  · intro address length
    by_cases hlen : length ≤ RN_BOOTLOADER_MAX_LENGTH
    · refine ⟨[_], rn_bootloader_checksum_sent dev log address length hlen, ?_⟩
      intro p hp
      rw [List.mem_singleton.mp hp]
      rfl
    · refine ⟨[], ?_, by simp⟩
      unfold rn_bootloader_checksum
      rw [do_command_rejected dev log _ _ _ _ _ _ _ (by omega)]
      simp
  · intro p hp
    rw [List.mem_singleton.mp hp]
    rfl

/-- C25: `rn_bootloader_get_version_info` decodes a version response `f` as
follows, the echoed header being its first `sizeof_cmd_base` bytes: the
version is the little-endian 16-bit value in the first two bytes after the
header, the device id the one in the 7th and 8th bytes after it, the erase row
size the 11th and the write latch size the 12th byte after it;
`rn_bootloader_get_version`, `rn_bootloader_get_device_id` and
`rn_bootloader_get_write_size` return these values. -/
theorem version_response_decoding (dev : Device) (log : Log) (f : Nat → Nat)
    (hf : dev (log ++ [version_request]) = some f) (hb : ∀ i, f i < 256) :
    ∃ v, rn_bootloader_get_version_info dev log = (some v, log ++ [version_request]) ∧
      v.version = f sizeof_cmd_base + 256 * f (sizeof_cmd_base + 1) ∧
      v.device_id = f (sizeof_cmd_base + 6) + 256 * f (sizeof_cmd_base + 7) ∧
      v.erase_row_size = f (sizeof_cmd_base + 10) ∧
      v.write_latch_size = f (sizeof_cmd_base + 11) ∧
      rn_bootloader_get_version v =
        ((f sizeof_cmd_base + 256 * f (sizeof_cmd_base + 1) : Nat) : Int) ∧
      rn_bootloader_get_device_id v =
        ((f (sizeof_cmd_base + 6) + 256 * f (sizeof_cmd_base + 7) : Nat) : Int) ∧
      rn_bootloader_get_write_size v = ((f (sizeof_cmd_base + 11) : Nat) : Int) := by
  unfold version_request at hf
  unfold rn_bootloader_get_version_info rn_bootloader_do_command
  rw [if_neg (by decide)]
  simp only [hf]
  refine ⟨_, rfl, ?_⟩
  simp [sizeof_rsp_version, sizeof_cmd_base, List.getD_eq_getElem?_getD, le_to_host_16,
    Nat.mod_eq_of_lt (hb _), rn_bootloader_get_version, rn_bootloader_get_device_id,
    rn_bootloader_get_write_size]

theorem version_response_decoding_witness :
    ∃ v, rn_bootloader_get_version_info sample_device [] = (some v, [] ++ [version_request]) ∧
      v.version = 1 ∧ v.device_id = 0 ∧ v.erase_row_size = 255 ∧ v.write_latch_size = 255 ∧
      rn_bootloader_get_version v = 1 ∧ rn_bootloader_get_device_id v = 0 ∧
      rn_bootloader_get_write_size v = 255 :=
  version_response_decoding sample_device []
    (fun i => if i = sizeof_cmd_base then 1 else if i = 20 ∨ i = 21 then 255 else 0) rfl
    (fun i => by beta_reduce; split_ifs <;> omega)

/-! ## Termination of the checksum loop, bounds of the metadata reads -/

theorem calc_checksum_some (data : Nat → Nat) (n : Nat) (hn : n ≤ 254)
    (hd : ∀ i, i < n → data i < 256) (fuel : Nat) (hf : (n + 1) / 2 < fuel) :
    rn_bootloader_calc_checksum fuel data n = some (checksum_spec data n) := by
  unfold rn_bootloader_calc_checksum checksum_spec
  have := calc_checksum_loop_sum data n hn hd ((n + 1) / 2) fuel 0 0 (by omega) hf
    (by norm_num)
  rw [List.range_eq_range']
  simpa using this

/-- C29: `rn_bootloader_calc_checksum` returns for every length from 0 to 254
(128 iterations of fuel are enough), but for length 255 it never returns,
whatever the data and however many iterations it is given: the 8-bit counter
goes from 254 to `(254 + 2) mod 256 = 0`, which is below 255 again. -/
theorem calc_checksum_does_not_return_at_255 (data : Nat → Nat)
    (hd : ∀ i, i < 255 → data i < 256) :
    (∀ n, n ≤ 254 → ∀ fuel, 128 ≤ fuel →
      rn_bootloader_calc_checksum fuel data n = some (checksum_spec data n)) ∧
    (∀ fuel, rn_bootloader_calc_checksum fuel data 255 = none) ∧
    (∀ fuel sum, calc_checksum_loop data 255 (fuel + 1) 254 sum =
      calc_checksum_loop data 255 fuel 0
        ((sum + (data 254 % 256 + 256 * (0xff % 256))) % 2 ^ 16)) := by
  refine ⟨?_, ?_, ?_⟩
  · intro n hn fuel hf
    exact calc_checksum_some data n hn (fun i hi => hd i (by omega)) fuel (by omega)
  · intro fuel
    exact calc_checksum_loop_255 data fuel 0 0 rfl (by norm_num)
  · intro fuel sum
    simp [calc_checksum_loop]

theorem calc_checksum_does_not_return_at_255_witness :
    rn_bootloader_calc_checksum 128 (fun _ => 1) 4 = some 514 ∧
    rn_bootloader_calc_checksum 100000 (fun _ => 1) 255 = none :=
  ⟨((calc_checksum_does_not_return_at_255 (fun _ => 1) (fun _ _ => by norm_num)).1 4
      (by norm_num) 128 (by norm_num)).trans (by decide),
   (calc_checksum_does_not_return_at_255 (fun _ => 1) (fun _ _ => by norm_num)).2.1 100000⟩

/-- C30: a line can pass every syntax and checksum check of `parse_record`
with a type 02 or 04 and fewer than 2 payload bytes, or with a type 03 or 05
and fewer than 4 payload bytes; `parse_record` then reads `data[i]` at or
beyond the declared length.  This is the case of every such line, for
example of `:00000002FE`, `:00000004FC`, `:0100000300FC` and
`:00000005FB`. -/
theorem short_metadata_payload_is_read (line : List Nat) (r : record_fields)
    (file : intel_hex_file) (h : check_record line = some r) :
    r.data.length = r.length ∧
    ((r.type = 2 ∨ r.type = 4) → r.length < 2 → parse_record line file = Outcome.fault) ∧
    ((r.type = 3 ∨ r.type = 5) → r.length < 4 → parse_record line file = Outcome.fault) ∧
    (check_record (bytes ":00000002FE")).isSome = true ∧
    parse_record (bytes ":00000002FE") file = Outcome.fault ∧
    parse_record (bytes ":00000004FC") file = Outcome.fault ∧
    parse_record (bytes ":0100000300FC") file = Outcome.fault ∧
    parse_record (bytes ":00000005FB") file = Outcome.fault := by
  have hlen : r.data.length = r.length :=
    (parse_data_spec line r.length 0 r.data (check_record_spec line r h).2.2.2.2.2.2.2.1).1
  refine ⟨hlen, ?_, ?_, by decide, ?_, ?_, ?_, ?_⟩
  · intro ht hl
    unfold parse_record
    rw [h]
    simp only [handle_record, INTEL_HEX_RECORD_DATA, INTEL_HEX_RECORD_EOF,
      INTEL_HEX_RECORD_EXT_SEG_ADDR, INTEL_HEX_RECORD_START_SEG_ADDR,
      INTEL_HEX_RECORD_EXT_LIN_ADDR, INTEL_HEX_RECORD_START_LIN_ADDR]
    rw [← hlen] at hl
    match hd : r.data, hl with
    | [], _ => rcases ht with ht | ht <;> simp [ht]
    | [_], _ => rcases ht with ht | ht <;> simp [ht]
  · intro ht hl
    unfold parse_record
    rw [h]
    simp only [handle_record, INTEL_HEX_RECORD_DATA, INTEL_HEX_RECORD_EOF,
      INTEL_HEX_RECORD_EXT_SEG_ADDR, INTEL_HEX_RECORD_START_SEG_ADDR,
      INTEL_HEX_RECORD_EXT_LIN_ADDR, INTEL_HEX_RECORD_START_LIN_ADDR]
    rw [← hlen] at hl
    match hd : r.data, hl with
    | [], _ => rcases ht with ht | ht <;> simp [ht]
    | [_], _ => rcases ht with ht | ht <;> simp [ht]
    | [_, _], _ => rcases ht with ht | ht <;> simp [ht]
    | [_, _, _], _ => rcases ht with ht | ht <;> simp [ht]
  · have e : check_record (bytes ":00000002FE") =
        some { length := 0, address := 0, type := 2, checksum := 254, data := [] } := by
      decide
    simp [parse_record, e, handle_record, INTEL_HEX_RECORD_DATA, INTEL_HEX_RECORD_EOF,
      INTEL_HEX_RECORD_EXT_SEG_ADDR]
  · have e : check_record (bytes ":00000004FC") =
        some { length := 0, address := 0, type := 4, checksum := 252, data := [] } := by
      decide
    simp [parse_record, e, handle_record, INTEL_HEX_RECORD_DATA, INTEL_HEX_RECORD_EOF,
      INTEL_HEX_RECORD_EXT_SEG_ADDR, INTEL_HEX_RECORD_START_SEG_ADDR,
      INTEL_HEX_RECORD_EXT_LIN_ADDR]
  · have e : check_record (bytes ":0100000300FC") =
        some { length := 1, address := 0, type := 3, checksum := 252, data := [0] } := by
      decide
    simp [parse_record, e, handle_record, INTEL_HEX_RECORD_DATA, INTEL_HEX_RECORD_EOF,
      INTEL_HEX_RECORD_EXT_SEG_ADDR, INTEL_HEX_RECORD_START_SEG_ADDR]
  · have e : check_record (bytes ":00000005FB") =
        some { length := 0, address := 0, type := 5, checksum := 251, data := [] } := by
      decide
    simp [parse_record, e, handle_record, INTEL_HEX_RECORD_DATA, INTEL_HEX_RECORD_EOF,
      INTEL_HEX_RECORD_EXT_SEG_ADDR, INTEL_HEX_RECORD_START_SEG_ADDR,
      INTEL_HEX_RECORD_EXT_LIN_ADDR, INTEL_HEX_RECORD_START_LIN_ADDR]

theorem short_metadata_payload_is_read_witness :
    parse_record (bytes ":00000004FC") calloc_file = Outcome.fault :=
  (short_metadata_payload_is_read (bytes ":00000004FC")
    { length := 0, address := 0, type := 4, checksum := 252, data := [] } calloc_file
    (by decide)).2.1 (Or.inr rfl) (by decide)

/-! ## The echoed header is not looked at -/

theorem do_command_agree (dev1 dev2 : Device) (h : agree_after_header dev1 dev2) (log : Log)
    (command length key_one key_two address : Nat) (data : Option (Nat → Nat))
    (response_length : Nat) :
    ∃ log1,
      (rn_bootloader_do_command dev1 log command length key_one key_two address data
          response_length = (none, log1) ∧
        rn_bootloader_do_command dev2 log command length key_one key_two address data
          response_length = (none, log1)) ∨
      (∃ f g,
        rn_bootloader_do_command dev1 log command length key_one key_two address data
          response_length = (some ((List.range response_length).map f), log1) ∧
        rn_bootloader_do_command dev2 log command length key_one key_two address data
          response_length = (some ((List.range response_length).map g), log1) ∧
        ∀ i, sizeof_cmd_base ≤ i → f i = g i) := by
  unfold rn_bootloader_do_command
  by_cases hl : length > RN_BOOTLOADER_MAX_LENGTH
  · exact ⟨log, Or.inl ⟨by rw [if_pos hl], by rw [if_pos hl]⟩⟩
  · refine ⟨log ++ [marshal command length key_one key_two address data], ?_⟩
    rw [if_neg hl, if_neg hl]
    rcases h (log ++ [marshal command length key_one key_two address data]) with
      ⟨h1, h2⟩ | ⟨f, g, h1, h2, hfg⟩
    · left
      simp only [h1, h2, and_self]
    · right
      exact ⟨f, g, by simp only [h1], by simp only [h2], hfg⟩

theorem erase_loop_agree (dev1 dev2 : Device) (h : agree_after_header dev1 dev2)
    (start_address total_blocks erase_row_size : Nat) :
    ∀ fuel remaining_blocks log,
      erase_loop dev1 start_address total_blocks erase_row_size fuel remaining_blocks log =
        erase_loop dev2 start_address total_blocks erase_row_size fuel remaining_blocks log := by
  intro fuel
  induction fuel with
  | zero => intro _ _; rfl
  | succ fuel ih =>
    intro remaining_blocks log
    by_cases hr : remaining_blocks ≠ 0
    · simp only [erase_loop, ne_eq, (show ¬ remaining_blocks = 0 from hr), not_false_eq_true,
        if_true]
      obtain ⟨log1, ⟨e1, e2⟩ | ⟨f, g, e1, e2, hfg⟩⟩ := do_command_agree dev1 dev2 h log
        RN_BOOTLOADER_CMD_ERASE
        (if (if remaining_blocks > 256 then 256 else remaining_blocks) = 256 then 0
          else (if remaining_blocks > 256 then 256 else remaining_blocks))
        RN_BOOTLOADER_KEY_ONE RN_BOOTLOADER_KEY_TWO
        ((start_address + (total_blocks - remaining_blocks) * erase_row_size) % 2 ^ 32)
        none sizeof_rsp_status
      · rw [e1, e2]
      · rw [e1, e2]
        simp only [rsp_status_range, hfg sizeof_cmd_base (Nat.le_refl _), ih]
    · simp only [erase_loop, hr, if_false]

theorem write_loop_agree (dev1 dev2 : Device) (h : agree_after_header dev1 dev2)
    (address length : Nat) (data : Nat → Nat) (write_latch_size : Nat) :
    ∀ fuel bytes_written log,
      write_loop dev1 address length data write_latch_size fuel bytes_written log =
        write_loop dev2 address length data write_latch_size fuel bytes_written log := by
  intro fuel
  induction fuel with
  | zero => intro _ _; rfl
  | succ fuel ih =>
    intro bytes_written log
    by_cases hr : bytes_written < length
    · simp only [write_loop, hr, if_true]
      obtain ⟨log1, ⟨e1, e2⟩ | ⟨f, g, e1, e2, hfg⟩⟩ := do_command_agree dev1 dev2 h log
        RN_BOOTLOADER_CMD_WRITE
        (if length > write_latch_size then write_latch_size else length)
        RN_BOOTLOADER_KEY_ONE RN_BOOTLOADER_KEY_TWO
        ((address + bytes_written) % 2 ^ 32)
        (some (fun i => data (bytes_written + i))) sizeof_rsp_status
      · rw [e1, e2]
      · rw [e1, e2]
        simp only [rsp_status_range, hfg sizeof_cmd_base (Nat.le_refl _), ih]
    · simp only [write_loop, hr, if_false]

theorem getD_range_map (f : Nat → Nat) (n i : Nat) (hi : i < n) :
    ((List.range n).map f).getD i 0 = f i := by
  simp [List.getD_eq_getElem?_getD, hi]

/-- C28: let two devices behave alike except for the first ten bytes (the
echoed header) of their responses.  Then `rn_bootloader_erase`,
`rn_bootloader_write`, `rn_bootloader_checksum` and
`rn_bootloader_get_version_info` return the same value and send the same
packets with one device as with the other: the status, the checksum and the
version fields they decode, and their success or failure, do not depend on
the echoed header. -/
theorem echoed_header_is_not_validated (dev1 dev2 : Device)
    (h : agree_after_header dev1 dev2) (fuel : Nat) (log : Log) :
    (∀ (start_address length : Nat) (version : rn_bootloader_rsp_version),
      rn_bootloader_erase fuel dev1 log start_address length version =
        rn_bootloader_erase fuel dev2 log start_address length version) ∧
    (∀ (address length : Nat) (data : Nat → Nat) (version : rn_bootloader_rsp_version),
      rn_bootloader_write fuel dev1 log address length data version =
        rn_bootloader_write fuel dev2 log address length data version) ∧
    (∀ (address length : Nat),
      rn_bootloader_checksum dev1 log address length =
        rn_bootloader_checksum dev2 log address length) ∧
    rn_bootloader_get_version_info dev1 log = rn_bootloader_get_version_info dev2 log := by
  refine ⟨?_, ?_, ?_, ?_⟩
  · intro start_address length version
    unfold rn_bootloader_erase
    rw [erase_loop_agree dev1 dev2 h]
  · intro address length data version
    unfold rn_bootloader_write
    rw [write_loop_agree dev1 dev2 h]
  · intro address length
    unfold rn_bootloader_checksum
    obtain ⟨log1, ⟨e1, e2⟩ | ⟨f, g, e1, e2, hfg⟩⟩ := do_command_agree dev1 dev2 h log
      RN_BOOTLOADER_CMD_CHECKSUM length 0 0 address none sizeof_rsp_checksum
    · rw [e1, e2]
    · rw [e1, e2]
      simp only [getD_range_map _ sizeof_rsp_checksum _ (show 10 < sizeof_rsp_checksum by decide),
        getD_range_map _ sizeof_rsp_checksum _ (show 11 < sizeof_rsp_checksum by decide),
        hfg 10 (by decide), hfg 11 (by decide)]
  · unfold rn_bootloader_get_version_info
    obtain ⟨log1, ⟨e1, e2⟩ | ⟨f, g, e1, e2, hfg⟩⟩ := do_command_agree dev1 dev2 h log
      RN_BOOTLOADER_CMD_GET_VERSION 0 0 0 0 none sizeof_rsp_version
    · rw [e1, e2]
    · rw [e1, e2]
      simp only [getD_range_map _ sizeof_rsp_version _ (show 10 < sizeof_rsp_version by decide),
        getD_range_map _ sizeof_rsp_version _ (show 11 < sizeof_rsp_version by decide),
        getD_range_map _ sizeof_rsp_version _ (show 12 < sizeof_rsp_version by decide),
        getD_range_map _ sizeof_rsp_version _ (show 13 < sizeof_rsp_version by decide),
        getD_range_map _ sizeof_rsp_version _ (show 14 < sizeof_rsp_version by decide),
        getD_range_map _ sizeof_rsp_version _ (show 15 < sizeof_rsp_version by decide),
        getD_range_map _ sizeof_rsp_version _ (show 16 < sizeof_rsp_version by decide),
        getD_range_map _ sizeof_rsp_version _ (show 17 < sizeof_rsp_version by decide),
        getD_range_map _ sizeof_rsp_version _ (show 18 < sizeof_rsp_version by decide),
        getD_range_map _ sizeof_rsp_version _ (show 19 < sizeof_rsp_version by decide),
        getD_range_map _ sizeof_rsp_version _ (show 20 < sizeof_rsp_version by decide),
        getD_range_map _ sizeof_rsp_version _ (show 21 < sizeof_rsp_version by decide),
        getD_range_map _ sizeof_rsp_version _ (show 22 < sizeof_rsp_version by decide),
        getD_range_map _ sizeof_rsp_version _ (show 23 < sizeof_rsp_version by decide),
        getD_range_map _ sizeof_rsp_version _ (show 24 < sizeof_rsp_version by decide),
        getD_range_map _ sizeof_rsp_version _ (show 25 < sizeof_rsp_version by decide),
        hfg 10 (by decide), hfg 11 (by decide), hfg 12 (by decide), hfg 13 (by decide),
        hfg 14 (by decide), hfg 15 (by decide), hfg 16 (by decide), hfg 17 (by decide),
        hfg 18 (by decide), hfg 19 (by decide), hfg 20 (by decide), hfg 21 (by decide),
        hfg 22 (by decide), hfg 23 (by decide), hfg 24 (by decide), hfg 25 (by decide)]

theorem echoed_header_is_not_validated_witness :
    rn_bootloader_checksum sample_device [] 0x800 64 =
      rn_bootloader_checksum other_echo_device [] 0x800 64 ∧
    (∃ f g, sample_device [] = some f ∧ other_echo_device [] = some g ∧ f 0 ≠ g 0) :=
  ⟨(echoed_header_is_not_validated sample_device other_echo_device
      (fun _ => Or.inr ⟨_, _, rfl, rfl, fun i hi => by
        have h1 : ¬ i < sizeof_cmd_base := by omega
        simp only [h1, if_false]⟩) 4 []).2.2.1 0x800 64,
   ⟨_, _, rfl, rfl, by decide⟩⟩

/-! ## A complete run -/

theorem do_command_answered (dev : Device) (log : Log)
    (command length key_one key_two address : Nat) (data : Option (Nat → Nat))
    (response_length : Nat) (f : Nat → Nat) (h : length ≤ RN_BOOTLOADER_MAX_LENGTH)
    (hf : dev (log ++ [marshal command length key_one key_two address data]) = some f) :
    rn_bootloader_do_command dev log command length key_one key_two address data
      response_length =
      (some ((List.range response_length).map f),
        log ++ [marshal command length key_one key_two address data]) := by
  unfold rn_bootloader_do_command
  rw [if_neg (by omega)]
  simp only [hf]

theorem erase_loop_succeeds (dev : Device) (h : answers_success dev)
    (start_address total_blocks erase_row_size : Nat) :
    ∀ fuel remaining_blocks log, (remaining_blocks + 255) / 256 < fuel →
      (erase_loop dev start_address total_blocks erase_row_size fuel remaining_blocks log).1 =
        some 0 := by
  intro fuel
  induction fuel with
  | zero => intro _ _ hf; omega
  | succ fuel ih =>
    intro remaining_blocks log hfuel
    by_cases hr : remaining_blocks ≠ 0
    · have hle : (if (if remaining_blocks > 256 then 256 else remaining_blocks) = 256 then 0
          else (if remaining_blocks > 256 then 256 else remaining_blocks)) ≤
          RN_BOOTLOADER_MAX_LENGTH := by
        unfold RN_BOOTLOADER_MAX_LENGTH
        split_ifs <;> omega
      obtain ⟨f, hf, hs⟩ := h log (marshal RN_BOOTLOADER_CMD_ERASE
          (if (if remaining_blocks > 256 then 256 else remaining_blocks) = 256 then 0
            else (if remaining_blocks > 256 then 256 else remaining_blocks))
          RN_BOOTLOADER_KEY_ONE RN_BOOTLOADER_KEY_TWO
          ((start_address + (total_blocks - remaining_blocks) * erase_row_size) % 2 ^ 32)
          none) (Or.inl (by rw [pkt_command_marshal]; rfl))
      simp only [erase_loop, ne_eq, (show ¬ remaining_blocks = 0 from hr), not_false_eq_true,
        if_true]
      rw [do_command_answered dev log _ _ _ _ _ _ _ f hle hf]
      simp only [rsp_status_range, hs, ne_eq, not_true_eq_false, if_false]
      apply ih
      split_ifs <;> omega
    · simp only [erase_loop, hr, if_false]

theorem write_loop_succeeds (dev : Device) (h : answers_success dev)
    (address length : Nat) (data : Nat → Nat) (write_latch_size : Nat)
    (hw : 1 ≤ write_latch_size) (hn : length ≤ 255) :
    ∀ fuel bytes_written log, length - bytes_written < fuel →
      (write_loop dev address length data write_latch_size fuel bytes_written log).1 =
        some 0 := by
  intro fuel
  induction fuel with
  | zero => intro _ _ hf; omega
  | succ fuel ih =>
    intro bytes_written log hfuel
    by_cases hr : bytes_written < length
    · have hle : (if length > write_latch_size then write_latch_size else length) ≤
          RN_BOOTLOADER_MAX_LENGTH := by
        unfold RN_BOOTLOADER_MAX_LENGTH
        split_ifs <;> omega
      have hpos : 1 ≤ (if length > write_latch_size then write_latch_size else length) := by
        split_ifs <;> omega
      obtain ⟨f, hf, hs⟩ := h log (marshal RN_BOOTLOADER_CMD_WRITE
          (if length > write_latch_size then write_latch_size else length)
          RN_BOOTLOADER_KEY_ONE RN_BOOTLOADER_KEY_TWO
          ((address + bytes_written) % 2 ^ 32)
          (some (fun i => data (bytes_written + i))))
          (Or.inr (by rw [pkt_command_marshal]; rfl))
      simp only [write_loop, hr, if_true]
      rw [do_command_answered dev log _ _ _ _ _ _ _ f hle hf]
      simp only [rsp_status_range, hs, ne_eq, not_true_eq_false, if_false]
      apply ih
      unfold RN_BOOTLOADER_MAX_LENGTH at hle
      have hmod : ∀ nb, nb ≤ 255 → (bytes_written + nb) % 2 ^ 16 = bytes_written + nb :=
        fun nb hnb => Nat.mod_eq_of_lt (by
          have : (2 : Nat) ^ 16 = 65536 := by norm_num
          omega)
      rw [hmod _ hle]
      omega
    · simp only [write_loop, hr, if_false]

theorem write_phase_succeeds (fuel : Nat) (dev : Device) (h : answers_success dev)
    (version : rn_bootloader_rsp_version) (total_records : Nat) (beyond : Nat → Nat → Nat)
    (hw : 1 ≤ version.write_latch_size) (hfuel : 256 ≤ fuel) :
    ∀ (rs : List intel_hex_record) (records_complete : Nat) (log : Log) (progress : List Nat),
      (rs = [] ∨ total_records ≠ 0) → (∀ r ∈ rs, r.length ≤ 255) →
      (write_phase fuel dev version total_records beyond rs records_complete log
        progress).ret = some 0 ∧
      (write_phase fuel dev version total_records beyond rs records_complete log
        progress).records_complete = records_complete + rs.length := by
  intro rs
  induction rs with
  | nil =>
    intro records_complete log progress _ _
    exact ⟨rfl, rfl⟩
  | cons r next ih =>
    intro records_complete log progress ht hlen
    have ht1 : total_records ≠ 0 := by
      rcases ht with ht | ht
      · cases ht
      · exact ht
    have hwr := write_loop_succeeds dev h r.address r.length
      (record_ptr beyond records_complete r) version.write_latch_size hw
      (hlen r (List.mem_cons_self _ _)) fuel 0 log (by
        have := hlen r (List.mem_cons_self _ _)
        omega)
    cases hc : rn_bootloader_write fuel dev log r.address r.length
        (record_ptr beyond records_complete r) version with
    | mk ret log1 =>
      have hret : ret = some 0 := by
        have : (rn_bootloader_write fuel dev log r.address r.length
          (record_ptr beyond records_complete r) version).1 = some 0 := hwr
        rw [hc] at this
        exact this
      subst hret
      simp only [write_phase, ht1, if_false, hc]
      have := ih (records_complete + 1) log1
        (progress ++ [(100 * records_complete) / total_records]) (Or.inr ht1)
        (fun x hx => hlen x (List.mem_cons_of_mem _ hx))
      refine ⟨this.1, ?_⟩
      rw [this.2, List.length_cons]
      omega

theorem calc_checksum_loop_returns (data : Nat → Nat) (n : Nat) (hn : n ≤ 254) :
    ∀ (r fuel j sum : Nat), j + r = (n + 1) / 2 → r < fuel →
      ∃ c, calc_checksum_loop data n fuel (2 * j) sum = some c := by
  intro r
  induction r with
  | zero =>
    intro fuel j sum hj hf
    obtain ⟨fuel, rfl⟩ : ∃ f, fuel = f + 1 := ⟨fuel - 1, by omega⟩
    have hnot : ¬ 2 * j < n := by omega
    exact ⟨sum, by simp only [calc_checksum_loop, hnot, if_false]⟩
  | succ r ih =>
    intro fuel j sum hj hf
    obtain ⟨fuel, rfl⟩ : ∃ f, fuel = f + 1 := ⟨fuel - 1, by omega⟩
    have hlt : 2 * j < n := by omega
    have hstep : (2 * j + 2) % 2 ^ 8 = 2 * (j + 1) := by
      rw [Nat.mod_eq_of_lt (by norm_num; omega)]
      ring
    simp only [calc_checksum_loop, hlt, if_true, hstep]
    exact ih fuel (j + 1) _ (by omega) (by omega)

theorem verify_calc_checksum_returns (fuel : Nat) (address length : Nat) (data : Nat → Nat)
    (hn : length ≤ 254) (hcfg : address = 0x300000 → length = 14) (hfuel : 128 ≤ fuel) :
    ∃ c, verify_calc_checksum fuel address length data = some c := by
  unfold verify_calc_checksum
  by_cases ha : address = 0x300000
  · rw [if_pos ha, if_pos (hcfg ha)]
    exact ⟨_, rfl⟩
  · rw [if_neg ha]
    exact calc_checksum_loop_returns data length hn ((length + 1) / 2) fuel 0 0 (by omega)
      (by omega)

theorem fgets_pieces_length :
    ∀ (rest cur : List Nat), cur.length ≤ 254 →
      ∀ p ∈ fgets_pieces 256 cur rest, p.length ≤ 255 := by
  intro rest
  induction rest with
  | nil =>
    intro cur hcur p hp
    unfold fgets_pieces at hp
    split_ifs at hp
    · cases hp
    · rw [List.mem_singleton.mp hp]
      omega
  | cons c rest ih =>
    intro cur hcur p hp
    unfold fgets_pieces at hp
    split_ifs at hp with hc
    · rcases List.mem_cons.mp hp with hp | hp
      · rw [hp, List.length_append, List.length_singleton]
        omega
      · exact ih [] (by simp) p hp
    · refine ih (cur ++ [c]) ?_ p hp
      rw [List.length_append, List.length_singleton]
      have : ¬ cur.length + 2 = 256 := fun e => hc (Or.inr e)
      omega

theorem c_string_length_le (buf : List Nat) : (c_string buf).length ≤ buf.length := by
  unfold c_string
  induction buf with
  | nil => simp
  | cons c rest ih =>
    rw [List.takeWhile_cons]
    split
    · simp only [List.length_cons]
      omega
    · simp

theorem trim_line_length_le (under : Nat × Nat) (line : List Nat) :
    (trim_line under line).length ≤ line.length := by
  unfold trim_line
  split_ifs <;> simp

theorem trim_pieces_length (under : Nat → Nat × Nat) (b : Nat) (ps : List (List Nat))
    (h : ∀ p ∈ ps, p.length ≤ b) :
    ∀ k, ∀ l ∈ trim_pieces under k ps, l.length ≤ b := by
  induction ps with
  | nil =>
    intro k l hl
    simp [trim_pieces] at hl
  | cons p ps ih =>
    intro k l hl
    simp only [trim_pieces, List.mem_cons] at hl
    rcases hl with hl | hl
    · rw [hl]
      exact Nat.le_trans (trim_line_length_le _ _)
        (Nat.le_trans (c_string_length_le p) (h p (List.mem_cons_self _ _)))
    · exact ih (fun q hq => h q (List.mem_cons_of_mem _ hq)) (k + 1) l hl

theorem read_lines_length (under : Nat → Nat × Nat) (contents : List Nat) :
    ∀ l ∈ read_lines under contents, l.length ≤ 255 :=
  trim_pieces_length under 255 _ (fgets_pieces_length contents [] (by simp)) 0

theorem forall₂_mem_left {α β : Type} (R : α → β → Prop) :
    ∀ (l1 : List α) (l2 : List β), List.Forall₂ R l1 l2 → ∀ a ∈ l1, ∃ b ∈ l2, R a b := by
  intro l1 l2 h
  induction h with
  | nil =>
    intro a ha
    cases ha
  | cons hab _ ih =>
    intro a ha
    rcases List.mem_cons.mp ha with ha | ha
    · subst ha
      exact ⟨_, List.mem_cons_self _ _, hab⟩
    · obtain ⟨b, hb, hr⟩ := ih a ha
      exact ⟨b, List.mem_cons_of_mem _ hb, hr⟩

theorem parsed_file_records (under : Nat → Nat × Nat) (contents : List Nat)
    (hex : intel_hex_file) (h : parse_intel_hex_file under contents = Outcome.ok hex) :
    hex.num_records = hex.head.length ∧
    ∀ r ∈ hex.head, r.data.length = r.length ∧ r.length ≤ 122 ∧ ∀ b ∈ r.data, b < 256 := by
  have hp := parse_file_ok under contents hex h
  obtain ⟨more, h1, h2, h3⟩ := parse_lines_records (read_lines under contents) calloc_file hex hp
  have hhead : hex.head = more := by
    rw [h1]
    rfl
  refine ⟨?_, ?_⟩
  · rw [h3, hhead]
    simp [calloc_file]
  · intro r hr
    rw [hhead] at hr
    obtain ⟨l, hl, c, hc, _, hdata, hlen, _⟩ := forall₂_mem_left _ _ _ h2 r hr
    have hl1 : l ∈ read_lines under contents := by
      unfold data_lines at hl
      exact (List.mem_filter.mp hl).1
    have hll := read_lines_length under contents l hl1
    have hspec := check_record_spec l c hc
    have hdl : c.data.length = c.length :=
      (parse_data_spec l c.length 0 c.data hspec.2.2.2.2.2.2.2.1).1
    refine ⟨by rw [hdata, hlen, hdl], ?_, ?_⟩
    · rw [hlen]
      have := hspec.2.1
      omega
    · intro b hb
      rw [hdata] at hb
      exact record_bytes_lt l c hc b (by
        unfold record_bytes
        simp [hb])

theorem download_firmware_succeeds (hex : intel_hex_file) (dev : Device) (log : Log)
    (beyond : Nat → Nat → Nat) (fuel : Nat)
    (hnum : intel_hex_num_records hex = (intel_hex_get_first_record hex).length)
    (hrec : ∀ r ∈ intel_hex_get_first_record hex, r.length ≤ 254)
    (hcfg : ∀ r ∈ intel_hex_get_first_record hex, r.address = 0x300000 → r.length = 14)
    (hlog : ∀ p ∈ log, pkt_command p ≠ RN_BOOTLOADER_CMD_CHECKSUM)
    (hver : ∃ f, dev (log ++ [version_request]) = some f ∧ 1 ≤ f 20 % 256 ∧ 1 ≤ f 21 % 256)
    (hsucc : answers_success dev)
    (hsum : answers_checksums fuel dev beyond (intel_hex_get_first_record hex))
    (hreset : ∀ hist, dev (hist ++ [reset_request]) ≠ none)
    (hfuel : 300 ≤ fuel) :
    (download_firmware fuel dev log hex beyond).ret = some 0 ∧
    (download_firmware fuel dev log hex beyond).write_complete =
      (intel_hex_get_first_record hex).length ∧
    (download_firmware fuel dev log hex beyond).verify_complete =
      (intel_hex_get_first_record hex).length := by
  obtain ⟨f, hf, he, hw⟩ := hver
  obtain ⟨V, hv, hVe, hVw⟩ : ∃ V,
      rn_bootloader_get_version_info dev log = (some V, log ++ [version_request]) ∧
      V.erase_row_size = f 20 % 256 ∧ V.write_latch_size = f 21 % 256 := by
    unfold version_request at hf
    unfold rn_bootloader_get_version_info rn_bootloader_do_command
    rw [if_neg (by decide)]
    simp only [hf]
    exact ⟨_, rfl, by simp [sizeof_rsp_version, sizeof_cmd_base, List.getD_eq_getElem?_getD],
      by simp [sizeof_rsp_version, sizeof_cmd_base, List.getD_eq_getElem?_getD]⟩
  -- the erase
  have her1 : (rn_bootloader_erase fuel dev (log ++ [version_request]) 0x300
      (0x10000 - 0x300) V).1 = some 0 := by
    unfold rn_bootloader_erase
    rw [if_neg (by omega)]
    apply erase_loop_succeeds dev hsucc
    have := Nat.div_le_self (0x10000 - 0x300) V.erase_row_size
    omega
  obtain ⟨s1, b1, b2, _, _⟩ := rn_bootloader_erase_status fuel dev (log ++ [version_request])
    0x300 (0x10000 - 0x300) V
  have her : rn_bootloader_erase fuel dev (log ++ [version_request]) 0x300
      (0x10000 - 0x300) V = (some 0, log ++ [version_request] ++ s1) :=
    Prod.ext her1 b1
  -- the write loop
  have htot : intel_hex_get_first_record hex = [] ∨ intel_hex_num_records hex ≠ 0 := by
    cases hh : intel_hex_get_first_record hex with
    | nil => exact Or.inl rfl
    | cons r next =>
      right
      rw [hnum, hh]
      simp
  have hwp := write_phase_succeeds fuel dev hsucc V (intel_hex_num_records hex) beyond
    (by omega) (by omega) (intel_hex_get_first_record hex) 0 (log ++ [version_request] ++ s1) []
    htot (fun r hr => by have := hrec r hr; omega)
  obtain ⟨s2, c1, c2, _⟩ := write_phase_status fuel dev V (intel_hex_num_records hex) beyond
    (intel_hex_get_first_record hex) 0 (log ++ [version_request] ++ s1) []
  have hops : ∀ p ∈ (write_phase fuel dev V (intel_hex_num_records hex) beyond
      (intel_hex_get_first_record hex) 0 (log ++ [version_request] ++ s1) []).log,
      pkt_command p ≠ RN_BOOTLOADER_CMD_CHECKSUM := by
    intro p hp
    rw [c1] at hp
    simp only [List.mem_append, List.mem_singleton] at hp
    rcases hp with ((hp | hp) | hp) | hp
    · exact hlog p hp
    · rw [hp]
      decide
    · rw [b2 p hp]
      decide
    · rw [c2 p hp]
      decide
  -- the verify loop
  have hmatch : ∀ i r, (intel_hex_get_first_record hex)[i]? = some r →
      ∃ c, reported_checksum dev
          ((write_phase fuel dev V (intel_hex_num_records hex) beyond
            (intel_hex_get_first_record hex) 0 (log ++ [version_request] ++ s1) []).log ++
            ((intel_hex_get_first_record hex).take (i + 1)).map checksum_request) = some c ∧
        verify_calc_checksum fuel r.address r.length (record_ptr beyond (0 + i) r) =
          some c := by
    intro i r hr
    have hmem := List.getElem?_mem hr
    obtain ⟨c, hc⟩ := verify_calc_checksum_returns fuel r.address r.length
      (record_ptr beyond i r) (hrec r hmem) (hcfg r hmem) (by omega)
    exact ⟨c, hsum _ hops i r c hr hc, by rw [Nat.zero_add]; exact hc⟩
  have hvp : verify_phase fuel dev (intel_hex_num_records hex) beyond
      (intel_hex_get_first_record hex) 0
      (write_phase fuel dev V (intel_hex_num_records hex) beyond
        (intel_hex_get_first_record hex) 0 (log ++ [version_request] ++ s1) []).log
      ((write_phase fuel dev V (intel_hex_num_records hex) beyond
        (intel_hex_get_first_record hex) 0 (log ++ [version_request] ++ s1) []).progress ++
        [100]) =
      { ret := some 0,
        log := (write_phase fuel dev V (intel_hex_num_records hex) beyond
          (intel_hex_get_first_record hex) 0 (log ++ [version_request] ++ s1) []).log ++
          (intel_hex_get_first_record hex).map checksum_request,
        records_complete := (intel_hex_get_first_record hex).length,
        progress := (write_phase fuel dev V (intel_hex_num_records hex) beyond
          (intel_hex_get_first_record hex) 0 (log ++ [version_request] ++ s1) []).progress ++
          [100] ++ (List.range (intel_hex_get_first_record hex).length).map
            (fun i => (100 * (0 + i)) / intel_hex_num_records hex) } := by
    rcases htot with h0 | htotal
    · rw [h0]
      simp [verify_phase]
    · have := verify_phase_matching fuel dev (intel_hex_num_records hex) beyond htotal
        (intel_hex_get_first_record hex) [] 0 _
        ((write_phase fuel dev V (intel_hex_num_records hex) beyond
          (intel_hex_get_first_record hex) 0 (log ++ [version_request] ++ s1) []).progress ++
          [100])
        (fun r hr => by have := hrec r hr; omega) hmatch
      rw [List.append_nil] at this
      rw [this]
      simp [verify_phase]
  rw [download_firmware_after_write fuel dev log hex beyond V _ _ _ _ hv her rfl hwp.1 hvp]
  simp only [rn_bootloader_reset_eq]
  cases hd : dev ((write_phase fuel dev V (intel_hex_num_records hex) beyond
      (intel_hex_get_first_record hex) 0 (log ++ [version_request] ++ s1) []).log ++
      (intel_hex_get_first_record hex).map checksum_request ++ [reset_request]) with
  | none => exact absurd hd (hreset _)
  | some g =>
    simp only [Option.isNone_some, Bool.false_eq_true, if_false]
    exact ⟨trivial, by rw [hwp.2, Nat.zero_add], trivial⟩

/-- C26: let `hex` be the result of a successful parse in which every record
at `0x300000` has length 14, and let the device answer the version request
with an erase row size and a write latch size of at least 1, answer every
Erase and Write command with status success, answer the Checksum request of
each record with the value the host computes for it, and accept the Reset
command.  Then `download_firmware` (with fuel for 300 iterations of each
loop) returns 0, and `records_complete` equals the number of records both
when the write loop ends and when the verify loop ends. -/
theorem end_to_end_download (under : Nat → Nat × Nat) (contents : List Nat)
    (hex : intel_hex_file) (dev : Device) (log : Log) (beyond : Nat → Nat → Nat) (fuel : Nat)
    (hparse : parse_intel_hex_file under contents = Outcome.ok hex)
    (hcfg : ∀ r ∈ intel_hex_get_first_record hex, r.address = 0x300000 → r.length = 14)
    (hlog : ∀ p ∈ log, pkt_command p ≠ RN_BOOTLOADER_CMD_CHECKSUM)
    (hver : ∃ f, dev (log ++ [version_request]) = some f ∧ 1 ≤ f 20 % 256 ∧ 1 ≤ f 21 % 256)
    (hsucc : answers_success dev)
    (hsum : answers_checksums fuel dev beyond (intel_hex_get_first_record hex))
    (hreset : ∀ hist, dev (hist ++ [reset_request]) ≠ none)
    (hfuel : 300 ≤ fuel) :
    (download_firmware fuel dev log hex beyond).ret = some 0 ∧
    (download_firmware fuel dev log hex beyond).write_complete =
      (intel_hex_get_first_record hex).length ∧
    (download_firmware fuel dev log hex beyond).verify_complete =
      (intel_hex_get_first_record hex).length ∧
    intel_hex_num_records hex = (intel_hex_get_first_record hex).length := by
  obtain ⟨hnum, hrec⟩ := parsed_file_records under contents hex hparse
  have h := download_firmware_succeeds hex dev log beyond fuel hnum
    (fun r hr => by have := (hrec r hr).2.1; omega) hcfg hlog hver hsucc hsum hreset hfuel
  exact ⟨h.1, h.2.1, h.2.2, hnum⟩

set_option maxRecDepth 100000 in
theorem end_to_end_download_witness :
    parse_intel_hex_file (fun _ => (0, 0)) two_record_file = Outcome.ok two_record_hex ∧
    (intel_hex_get_first_record two_record_hex).map (fun r => (r.address, r.length)) =
      [(0, 16)] ∧
    (download_firmware 300 mock_device [] two_record_hex (fun _ _ => 0)).ret = some 0 ∧
    (download_firmware 300 mock_device [] two_record_hex (fun _ _ => 0)).write_complete = 1 ∧
    (download_firmware 300 mock_device [] two_record_hex (fun _ _ => 0)).verify_complete = 1 :=
  have hparse : parse_intel_hex_file (fun _ => (0, 0)) two_record_file =
      Outcome.ok two_record_hex := by decide
  have h := end_to_end_download (fun _ => (0, 0)) two_record_file two_record_hex mock_device []
    (fun _ _ => 0) 300 hparse (by decide) (by simp) ⟨_, rfl, by decide, by decide⟩
    (fun hist p hp => ⟨_, rfl, by
      have e : pkt_command ((hist ++ [p]).getLastD []) ≠ RN_BOOTLOADER_CMD_CHECKSUM := by
        rw [List.getLastD_concat]
        rcases hp with hp | hp <;> rw [hp] <;> decide
      simp only [e, if_false]
      rfl⟩)
    (fun hist _ i r c hr hc => by
      have hi : i = 0 := by
        rcases i with _ | i
        · rfl
        · simp [intel_hex_get_first_record, two_record_hex] at hr
      subst hi
      have hr0 : r = first_record := by
        simpa [intel_hex_get_first_record, two_record_hex] using hr.symm
      subst hr0
      have hc1 : c = 0x4038 := by
        have e : verify_calc_checksum 300 first_record.address first_record.length
            (record_ptr (fun _ _ => 0) 0 first_record) = some 0x4038 := by decide
        rw [e] at hc
        exact (Option.some.inj hc).symm
      subst hc1
      have hl : (hist ++ List.map checksum_request
          (List.take (0 + 1) (intel_hex_get_first_record two_record_hex))) =
          hist ++ [checksum_request first_record] := rfl
      rw [hl]
      unfold reported_checksum mock_device
      simp only [List.getLastD_concat, Option.map_some']
      rfl)
    (fun hist => by simp [mock_device]) (by decide)
  ⟨hparse, rfl, h.1, h.2.1, h.2.2.1⟩

/-! ## Order of the commands -/

theorem write_phase_trace (fuel : Nat) (dev : Device) (version : rn_bootloader_rsp_version)
    (total_records : Nat) (beyond : Nat → Nat → Nat) :
    ∀ (rs : List intel_hex_record) (rc : Nat) (log : Log) (progress : List Nat),
      ∃ ws : List Log,
        (write_phase fuel dev version total_records beyond rs rc log progress).log =
          log ++ ws.flatten ∧
        ws.length ≤ rs.length ∧
        (∀ k L r, ws[k]? = some L → rs[k]? = some r →
          ∀ p ∈ L, write_packet r.address (record_ptr beyond (rc + k) r) p) ∧
        ((write_phase fuel dev version total_records beyond rs rc log progress).ret = some 0 →
          ws.length = rs.length ∧ all_succeeded dev log ws.flatten) := by
  intro rs
  induction rs with
  | nil =>
    intro rc log progress
    refine ⟨[], by simp [write_phase], by simp, ?_, fun _ => ⟨rfl, all_succeeded_nil _ _⟩⟩
    intro k L r hk
    simp at hk
  | cons r next ih =>
    intro rc log progress
    by_cases ht : total_records = 0
    · refine ⟨[], by simp [write_phase, ht], by simp, ?_, ?_⟩
      · intro k L r hk
        simp at hk
      · intro hret
        simp [write_phase, ht] at hret
    · obtain ⟨L1, h1, h2, h3⟩ := rn_bootloader_write_trace fuel dev log r.address r.length
        (record_ptr beyond rc r) version
      obtain ⟨_, _, _, _, h4⟩ := rn_bootloader_write_status fuel dev log r.address r.length
        (record_ptr beyond rc r) version
      cases hw : rn_bootloader_write fuel dev log r.address r.length
          (record_ptr beyond rc r) version with
      | mk ret log1 =>
        rw [hw] at h1 h3 h4
        simp only at h1 h3 h4
        subst h1
        have hone : ∀ k L x, [L1][k]? = some L → (r :: next)[k]? = some x →
            ∀ p ∈ L, write_packet x.address (record_ptr beyond (rc + k) x) p := by
          intro k L x hk hx
          rcases k with _ | k
          · simp only [List.getElem?_cons_zero, Option.some.injEq] at hk hx
            subst hk hx
            exact h2
          · simp at hk
        simp only [write_phase, ht, if_false, hw]
        rcases h4 with h | h | h
        · subst h
          exact ⟨[L1], by simp, by simp, hone, fun hret => by simp at hret⟩
        · subst h
          obtain ⟨ws, g1, g2, g3, g4⟩ := ih (rc + 1) (log ++ L1)
            (progress ++ [(100 * rc) / total_records])
          refine ⟨L1 :: ws, ?_, ?_, ?_, ?_⟩
          · simp only []
            rw [g1, List.flatten_cons, List.append_assoc]
          · simp only [List.length_cons]
            omega
          · intro k L x hk hx
            rcases k with _ | k
            · simp only [List.getElem?_cons_zero, Option.some.injEq] at hk hx
              subst hk hx
              exact h2
            · simp only [List.getElem?_cons_succ] at hk hx
              have := g3 k L x hk hx
              rw [show rc + (k + 1) = rc + 1 + k by omega]
              exact this
          · intro hret
            obtain ⟨q1, q2⟩ := g4 hret
            refine ⟨by simp only [List.length_cons]; omega, ?_⟩
            rw [List.flatten_cons]
            exact all_succeeded_append dev log L1 ws.flatten (h3 rfl) q2
        · subst h
          exact ⟨[L1], by simp, by simp, hone, fun hret => by simp at hret⟩

theorem verify_phase_trace (fuel : Nat) (dev : Device) (total_records : Nat)
    (beyond : Nat → Nat → Nat) :
    ∀ (rs : List intel_hex_record) (rc : Nat) (log : Log) (progress : List Nat),
      ∃ m, m ≤ rs.length ∧
        (verify_phase fuel dev total_records beyond rs rc log progress).log =
          log ++ (rs.take m).map checksum_request ∧
        ((verify_phase fuel dev total_records beyond rs rc log progress).ret = some 0 →
          m = rs.length) := by
  intro rs
  induction rs with
  | nil =>
    intro rc log progress
    exact ⟨0, by simp, by simp [verify_phase], fun _ => rfl⟩
  | cons r next ih =>
    intro rc log progress
    by_cases ht : total_records = 0
    · exact ⟨0, by simp, by simp [verify_phase, ht], fun hret => by
        simp [verify_phase, ht] at hret⟩
    · by_cases hlen : r.length ≤ 255
      · rw [verify_phase_cons fuel dev total_records beyond r next rc log progress ht hlen]
        have hm1 : log ++ [checksum_request r] =
            log ++ ((r :: next).take 1).map checksum_request := by simp
        cases reported_checksum dev (log ++ [checksum_request r]) with
        | none => exact ⟨1, by simp, hm1, fun hret => by simp at hret⟩
        | some c =>
          simp only []
          cases verify_calc_checksum fuel r.address r.length (record_ptr beyond rc r) with
          | none => exact ⟨1, by simp, hm1, fun hret => by simp at hret⟩
          | some cv =>
            simp only []
            by_cases hc : c ≠ cv
            · rw [if_pos hc]
              exact ⟨1, by simp, hm1, fun hret => by simp at hret⟩
            · rw [if_neg hc]
              obtain ⟨m, g1, g2, g3⟩ := ih (rc + 1) (log ++ [checksum_request r])
                (progress ++ [(100 * rc) / total_records])
              refine ⟨m + 1, by simp only [List.length_cons]; omega, ?_, ?_⟩
              · rw [g2]
                simp
              · intro hret
                rw [g3 hret, List.length_cons]
      · have hrej : rn_bootloader_checksum dev log r.address r.length = (none, log) := by
          unfold rn_bootloader_checksum
          rw [do_command_rejected dev log _ _ _ _ _ _ _ (by
            unfold RN_BOOTLOADER_MAX_LENGTH
            omega)]
        refine ⟨0, by simp, by simp [verify_phase, ht, hrej], fun hret => ?_⟩
        simp [verify_phase, ht, hrej] at hret

theorem get_version_info_answered (dev : Device) (log : Log)
    (version : rn_bootloader_rsp_version) (log1 : Log)
    (h : rn_bootloader_get_version_info dev log = (some version, log1)) :
    ∃ f, dev (log ++ [version_request]) = some f := by
  unfold rn_bootloader_get_version_info at h
  rcases do_command_accepted dev log RN_BOOTLOADER_CMD_GET_VERSION 0 0 0 0 none
    sizeof_rsp_version (by decide) with ⟨_, e⟩ | ⟨f, hf, _⟩
  · rw [e] at h
    simp at h
  · exact ⟨f, hf⟩

theorem download_firmware_ordered (fuel : Nat) (dev : Device) (log : Log)
    (hex : intel_hex_file) (beyond : Nat → Nat → Nat) :
    ordered_run dev log beyond (intel_hex_get_first_record hex)
      (download_firmware fuel dev log hex beyond).log
      (download_firmware fuel dev log hex beyond).ret := by
  have a1 := rn_bootloader_get_version_info_sent dev log
  have hnil : ∀ (k : Nat) (L : Log) (r : intel_hex_record), ([] : List Log)[k]? = some L →
      (intel_hex_get_first_record hex)[k]? = some r →
      ∀ p ∈ L, write_packet r.address (record_ptr beyond k r) p := by
    intro k L r hk
    simp at hk
  cases hv : rn_bootloader_get_version_info dev log with
  | mk vopt log1 =>
    rw [hv] at a1
    simp only at a1
    subst a1
    cases vopt with
    | none =>
      simp only [download_firmware, hv]
      exact ⟨[], [], 0, [], by simp, by simp, by simp, hnil, by simp, Or.inl rfl,
        fun h => by simp at h, fun h => by simp at h, fun h => by simp at h,
        fun h => by simp at h⟩
    | some version =>
      obtain ⟨f0, hf0⟩ := get_version_info_answered dev log version _ hv
      obtain ⟨e, b1, b2, b3⟩ := rn_bootloader_erase_trace fuel dev (log ++ [version_request])
        0x300 (0x10000 - 0x300) version
      obtain ⟨_, _, _, _, b4⟩ := rn_bootloader_erase_status fuel dev (log ++ [version_request])
        0x300 (0x10000 - 0x300) version
      cases he : rn_bootloader_erase fuel dev (log ++ [version_request]) 0x300
          (0x10000 - 0x300) version with
      | mk r log2 =>
        rw [he] at b1 b3 b4
        simp only at b1 b3 b4
        subst b1
        rcases b4 with h | h | h
        · subst h
          simp only [download_firmware, hv, he]
          exact ⟨e, [], 0, [], by simp, b2, by simp, hnil, by simp, Or.inl rfl,
            fun h => by simp at h, fun h => by simp at h, fun h => by simp at h,
            fun h => by simp at h⟩
        · subst h
          have hG1 : (∃ f, dev (log ++ [version_request]) = some f) ∧
              all_succeeded dev (log ++ [version_request]) e := ⟨⟨f0, hf0⟩, b3 rfl⟩
          obtain ⟨ws, c1, c2, c3, c4⟩ := write_phase_trace fuel dev version
            (intel_hex_num_records hex) beyond (intel_hex_get_first_record hex) 0
            (log ++ [version_request] ++ e) []
          simp only [Nat.zero_add] at c3
          obtain ⟨m, d1, d2, d3⟩ := verify_phase_trace fuel dev (intel_hex_num_records hex)
            beyond (intel_hex_get_first_record hex) 0
            (write_phase fuel dev version (intel_hex_num_records hex) beyond
              (intel_hex_get_first_record hex) 0 (log ++ [version_request] ++ e) []).log
            ((write_phase fuel dev version (intel_hex_num_records hex) beyond
              (intel_hex_get_first_record hex) 0 (log ++ [version_request] ++ e) []).progress ++
              [100])
          simp only [download_firmware, hv, he]
          split
          · rename_i hwr
            have hG2 := c4 hwr
            split
            · rename_i hvr
              have hm := d3 hvr
              have hl : (verify_phase fuel dev (intel_hex_num_records hex) beyond
                  (intel_hex_get_first_record hex) 0
                  (write_phase fuel dev version (intel_hex_num_records hex) beyond
                    (intel_hex_get_first_record hex) 0 (log ++ [version_request] ++ e) []).log
                  ((write_phase fuel dev version (intel_hex_num_records hex) beyond
                    (intel_hex_get_first_record hex) 0 (log ++ [version_request] ++ e)
                    []).progress ++ [100])).log ++ [reset_request] =
                  log ++ ([version_request] ++ e ++ ws.flatten ++
                    ((intel_hex_get_first_record hex).take m).map checksum_request ++
                    [reset_request]) := by
                rw [d2, c1]
                simp only [List.append_assoc]
              simp only [rn_bootloader_reset_eq]
              split
              · rename_i log4 heq
                obtain ⟨_, rfl⟩ := Prod.mk.inj heq
                exact ⟨e, ws, m, [reset_request], hl, b2, c2, c3, d1, Or.inr rfl,
                  fun _ => hG1, fun _ => hG2, fun _ => hm, fun _ => rfl⟩
              · rename_i x log4 hne heq
                obtain ⟨_, rfl⟩ := Prod.mk.inj heq
                exact ⟨e, ws, m, [reset_request], hl, b2, c2, c3, d1, Or.inr rfl,
                  fun _ => hG1, fun _ => hG2, fun _ => hm, fun _ => rfl⟩
            · rename_i hne
              refine ⟨e, ws, m, [], ?_, b2, c2, c3, d1, Or.inl rfl,
                fun _ => hG1, fun _ => hG2, ?_, ?_⟩
              · simp only []
                rw [d2, c1]
                simp only [List.append_assoc, List.append_nil]
              · intro h
                rcases h with h | h
                · exact absurd rfl h
                · exact d3 h
              · intro h
                exact absurd h hne
          · rename_i hne
            refine ⟨e, ws, 0, [], ?_, b2, c2, c3, by simp, Or.inl rfl,
              fun _ => hG1, ?_, ?_, ?_⟩
            · simp only []
              rw [c1]
              simp only [List.append_assoc, List.take_zero, List.map_nil, List.append_nil]
            · intro h
              rcases h with h | h | h
              · exact absurd rfl h
              · exact absurd rfl h
              · exact c4 h
            · intro h
              rcases h with h | h
              · exact absurd rfl h
              · exact absurd h hne
            · intro h
              exact absurd h hne
        · subst h
          simp only [download_firmware, hv, he]
          exact ⟨e, [], 0, [], by simp, b2, by simp, hnil, by simp, Or.inl rfl,
            fun h => by simp at h, fun h => by simp at h, fun h => by simp at h,
            fun h => by simp at h⟩

theorem map_eq_replicate_of_forall {α β : Type} (f : α → β) (c : β) :
    ∀ (l : List α), (∀ a ∈ l, f a = c) → l.map f = List.replicate l.length c := by
  intro l
  induction l with
  | nil => intro _; rfl
  | cons a l ih =>
    intro h
    rw [List.map_cons, List.length_cons, List.replicate_succ, h a (List.mem_cons_self _ _),
      ih (fun b hb => h b (List.mem_cons_of_mem _ hb))]

theorem ordered_run_opcodes (dev : Device) (log : Log) (beyond : Nat → Nat → Nat)
    (rs : List intel_hex_record) (final : Log) (ret : Option Int)
    (h : ordered_run dev log beyond rs final ret) :
    ∃ ne nw nc nr,
      (final.drop log.length).map pkt_command =
        [RN_BOOTLOADER_CMD_GET_VERSION] ++ List.replicate ne RN_BOOTLOADER_CMD_ERASE ++
          List.replicate nw RN_BOOTLOADER_CMD_WRITE ++
          List.replicate nc RN_BOOTLOADER_CMD_CHECKSUM ++
          List.replicate nr RN_BOOTLOADER_CMD_RESET ∧
      nc ≤ rs.length ∧ nr ≤ 1 ∧ (ret = some 0 → nc = rs.length ∧ nr = 1) := by
  obtain ⟨e, ws, m, tail, h1, h2, h3, h4, h5, h6, _, _, h9, h10⟩ := h
  have he : e.map pkt_command = List.replicate e.length RN_BOOTLOADER_CMD_ERASE :=
    map_eq_replicate_of_forall _ _ e (fun p hp => (erase_packet_fields p (h2 p hp)).2.2.1)
  have hw : ws.flatten.map pkt_command =
      List.replicate ws.flatten.length RN_BOOTLOADER_CMD_WRITE := by
    apply map_eq_replicate_of_forall
    intro p hp
    obtain ⟨L, hL, hpL⟩ := List.mem_flatten.mp hp
    obtain ⟨k, hk, hkL⟩ := List.getElem_of_mem hL
    have hk2 : k < rs.length := by omega
    have := h4 k L rs[k] (by rw [List.getElem?_eq_getElem hk, hkL])
      (List.getElem?_eq_getElem hk2) p hpL
    exact (write_packet_fields _ _ p this).2.2.1
  have hc : ((rs.take m).map checksum_request).map pkt_command =
      List.replicate m RN_BOOTLOADER_CMD_CHECKSUM := by
    have := map_eq_replicate_of_forall pkt_command RN_BOOTLOADER_CMD_CHECKSUM
      ((rs.take m).map checksum_request) (fun p hp => by
        obtain ⟨r, _, rfl⟩ := List.mem_map.mp hp
        unfold checksum_request
        rw [pkt_command_marshal]
        rfl)
    rw [this, List.length_map, List.length_take, Nat.min_eq_left h5]
  have ht : tail.map pkt_command = List.replicate tail.length RN_BOOTLOADER_CMD_RESET := by
    rcases h6 with h | h <;> rw [h] <;> rfl
  refine ⟨e.length, ws.flatten.length, m, tail.length, ?_, h5, ?_, ?_⟩
  · rw [h1, List.drop_left]
    simp only [List.map_append, he, hw, hc, ht]
    rfl
  · rcases h6 with h | h <;> rw [h] <;> simp
  · intro hret
    refine ⟨h9 (Or.inr hret), ?_⟩
    rw [h10 hret]
    rfl

/-- C27: every run of `download_firmware` is an ordered run (`ordered_run`):
the packets it sends are the GetVersion command, then Erase commands, then,
record by record in list order, the Write commands of the records, then the
Checksum requests of the records in list order, then the Reset command, or a
leading part of this sequence.  A Write is only sent when the version request
was answered and every Erase command was answered with success, a Checksum
request only when all records were written and every Write command was
answered with success, the Reset only after the Checksum request of every
record, and the function returns 0 only when the Reset was sent.  In opcodes:
one `0x00`, then `0x03`s, then `0x02`s, then at most one `0x08` per record,
then at most one `0x09`. -/
theorem commands_are_sent_in_order (fuel : Nat) (dev : Device) (log : Log)
    (hex : intel_hex_file) (beyond : Nat → Nat → Nat) :
    ordered_run dev log beyond (intel_hex_get_first_record hex)
      (download_firmware fuel dev log hex beyond).log
      (download_firmware fuel dev log hex beyond).ret ∧
    ∃ ne nw nc nr,
      ((download_firmware fuel dev log hex beyond).log.drop log.length).map pkt_command =
        [RN_BOOTLOADER_CMD_GET_VERSION] ++ List.replicate ne RN_BOOTLOADER_CMD_ERASE ++
          List.replicate nw RN_BOOTLOADER_CMD_WRITE ++
          List.replicate nc RN_BOOTLOADER_CMD_CHECKSUM ++
          List.replicate nr RN_BOOTLOADER_CMD_RESET ∧
      nc ≤ (intel_hex_get_first_record hex).length ∧ nr ≤ 1 ∧
      ((download_firmware fuel dev log hex beyond).ret = some 0 →
        nc = (intel_hex_get_first_record hex).length ∧ nr = 1) :=
  ⟨download_firmware_ordered fuel dev log hex beyond,
    ordered_run_opcodes dev log beyond _ _ _ (download_firmware_ordered fuel dev log hex beyond)⟩

theorem two_record_run_opcodes :
    (download_firmware 300 mock_device [] two_record_hex (fun _ _ => 0)).log.map pkt_command =
      [0x00, 0x03, 0x03, 0x03, 0x03, 0x02, 0x08, 0x09] ∧
    (download_firmware 300 mock_device [] two_record_hex (fun _ _ => 0)).ret = some 0 := by
  decide

/-! ## The trimming step -/

/-- An empty line terminated by LF alone is a line of one character, for which
the trimming step reads the byte below the buffer: when that byte is LF the
line is not trimmed and the parse returns -1. -/
theorem lf_empty_line_depends_on_byte_below :
    parse_intel_hex_file (fun _ => (0, 0)) (file_of_lines [10] [bytes ":00000001FF", []]) =
      Outcome.ok { calloc_file with has_eof := 1 } ∧
    parse_intel_hex_file (fun _ => (0, 10)) (file_of_lines [10] [bytes ":00000001FF", []]) =
      Outcome.fail := by
  decide

/-- C31: the trimming step stays inside the line only when the line has at
least two characters: then its result does not depend on the bytes below the
buffer.  For a line of one character `strlen(line) - 2` is the index -1: the
byte tested is the one stored below the buffer (`line[-1]`), and the result
for the line `"\n"`, which `fgets` returns for an empty line of a file with LF
terminators, depends on it: the line is emptied when that byte is neither CR
nor LF and left as `"\n"` when it is.  The file `:00000001FF`, LF, LF is
parsed successfully in the first case and rejected in the second. -/
theorem trimming_reads_below_one_character_line :
    (∀ (under1 under2 : Nat × Nat) (line : List Nat), 2 ≤ line.length →
      trim_line under1 line = trim_line under2 line) ∧
    (∀ (under : Nat × Nat) (c : Nat), char_from_end under [c] 2 = under.2) ∧
    (∀ a : Nat, trim_line (a, 0) [10] = [] ∧ trim_line (a, 10) [10] = [10] ∧
      trim_line (a, 13) [10] = [10]) ∧
    fgets_pieces 256 [] (bytes ":00000001FF\n\n") = [bytes ":00000001FF\n", bytes "\n"] ∧
    parse_intel_hex_file (fun _ => (0, 0)) (bytes ":00000001FF\n\n") =
      Outcome.ok { calloc_file with has_eof := 1 } ∧
    parse_intel_hex_file (fun _ => (0, 10)) (bytes ":00000001FF\n\n") = Outcome.fail := by
  refine ⟨?_, ?_, ?_, by decide, by decide, by decide⟩
  · intro under1 under2 line h
    have h1 : 1 ≤ line.length := by omega
    simp only [trim_line, char_from_end, h, h1, if_true]
  · intro under c
    simp [char_from_end]
  · intro a
    refine ⟨?_, ?_, ?_⟩ <;> simp [trim_line, char_from_end]

/-! ## Progress -/

theorem fgets_pieces_cons (size : Nat) (cur : List Nat) (c : Nat) (rest : List Nat) :
    fgets_pieces size cur (c :: rest) =
      if c = 10 ∨ cur.length + 2 = size then (cur ++ [c]) :: fgets_pieces size [] rest
      else fgets_pieces size (cur ++ [c]) rest := by
  rw [fgets_pieces]

theorem trim_pieces_cons (under : Nat → Nat × Nat) (k : Nat) (p : List Nat)
    (ps : List (List Nat)) :
    trim_pieces under k (p :: ps) =
      trim_line (under k) (c_string p) :: trim_pieces under (k + 1) ps := by
  rw [trim_pieces]

theorem fgets_pieces_after_newline (rest : List Nat) :
    ∀ (pre cur : List Nat),
      fgets_pieces 256 cur (pre ++ 10 :: rest) =
        fgets_pieces 256 cur (pre ++ [10]) ++ fgets_pieces 256 [] rest := by
  intro pre
  induction pre with
  | nil =>
    intro cur
    simp [fgets_pieces]
  | cons c pre ih =>
    intro cur
    rw [List.cons_append, List.cons_append, fgets_pieces_cons, fgets_pieces_cons]
    split_ifs
    · rw [ih, List.cons_append]
    · rw [ih]

theorem fgets_pieces_full (c : Nat) (rest : List Nat) :
    ∀ (p cur : List Nat), 10 ∉ p → cur.length + p.length = 254 →
      fgets_pieces 256 cur (p ++ c :: rest) =
        (cur ++ p ++ [c]) :: fgets_pieces 256 [] rest := by
  intro p
  induction p with
  | nil =>
    intro cur _ hlen
    have h : cur.length + 2 = 256 := by
      simp only [List.length_nil] at hlen
      omega
    rw [List.nil_append, fgets_pieces_cons, if_pos (Or.inr h), List.append_nil]
  | cons a p ih =>
    intro cur hp hlen
    have ha : a ≠ 10 := fun e => hp (e ▸ List.mem_cons_self _ _)
    simp only [List.length_cons] at hlen
    have hcur : ¬ (a = 10 ∨ cur.length + 2 = 256) := by
      rintro (h | h)
      · exact ha h
      · omega
    rw [List.cons_append, fgets_pieces_cons, if_neg hcur,
      ih (cur ++ [a]) (fun h => hp (List.mem_cons_of_mem _ h)) (by
        rw [List.length_append, List.length_singleton]
        omega)]
    simp

theorem trim_pieces_append (under : Nat → Nat × Nat) (b : List (List Nat)) :
    ∀ (a : List (List Nat)) (k : Nat),
      trim_pieces under k (a ++ b) =
        trim_pieces under k a ++ trim_pieces under (k + a.length) b := by
  intro a
  induction a with
  | nil =>
    intro k
    simp [trim_pieces]
  | cons p a ih =>
    intro k
    rw [List.cons_append, trim_pieces_cons, trim_pieces_cons, ih, List.length_cons,
      List.cons_append, show k + 1 + a.length = k + (a.length + 1) by omega]

theorem check_record_full_piece (t : List Nat) (r : record_fields)
    (h : check_record t = some r) (hlen : t.length = 255) :
    r.length = 122 ∧ byte_at t 0 = some 122 := by
  have hs := check_record_spec t r h
  have h1 : r.length = 122 := by
    have := hs.2.1
    omega
  exact ⟨h1, by rw [hs.2.2.1, h1]⟩

theorem parse_lines_rejected_line (t : List Nat) (ht0 : t.getD 0 0 ≠ 0)
    (hrej : check_record t = none) (a b : List (List Nat)) (f hex : intel_hex_file) :
    parse_lines f (a ++ t :: b) ≠ Outcome.ok hex := by
  rw [parse_lines_append]
  cases parse_lines f a with
  | ok f1 =>
    simp only [parse_lines, ht0, if_false, parse_record, hrej]
    split_ifs <;> simp
  | fail => simp
  | fault => simp

theorem parse_file_not_ok (under : Nat → Nat × Nat) (contents : List Nat)
    (h : ∀ hex, parse_lines calloc_file (read_lines under contents) ≠ Outcome.ok hex) :
    ∀ hex, parse_intel_hex_file under contents ≠ Outcome.ok hex := by
  intro hex hp
  exact h hex (parse_file_ok under contents hex hp)

theorem fgets_pieces_long_line (line post : List Nat) (hlen : 255 ≤ line.length)
    (hno10 : 10 ∉ line.take 254) :
    fgets_pieces 256 [] (line ++ post) =
      line.take 255 :: fgets_pieces 256 [] (line.drop 255 ++ post) := by
  have hsplit : line = line.take 254 ++ line.getD 254 0 :: line.drop 255 := by
    have h1 := List.take_append_drop 254 line
    have h2 : line.drop 254 = line.getD 254 0 :: line.drop 255 := by
      rw [List.drop_eq_getElem_cons (by omega), List.getD_eq_getElem _ _ (by omega)]
    rw [h2] at h1
    exact h1.symm
  have htake : line.take 255 = line.take 254 ++ [line.getD 254 0] := by
    rw [List.take_succ, List.getD_eq_getElem?_getD, List.getElem?_eq_getElem (by omega)]
    rfl
  conv_lhs => rw [hsplit]
  rw [List.append_assoc, List.cons_append,
    fgets_pieces_full _ _ (line.take 254) [] hno10 (by
      rw [List.length_take]
      simp only [List.length_nil]
      omega), htake]
  rfl

theorem long_line_not_parsed (under : Nat → Nat × Nat) (pre line post : List Nat)
    (hpre : pre = [] ∨ ∃ q, pre = q ++ [10])
    (hlen : 255 ≤ line.length)
    (hclean : ∀ c ∈ line.take 255, c ≠ 0 ∧ c ≠ 10 ∧ c ≠ 13)
    (hfield : byte_at line 0 ≠ some 122) :
    ∀ hex, parse_intel_hex_file under (pre ++ line ++ post) ≠ Outcome.ok hex := by
  apply parse_file_not_ok
  -- the piece that holds the first 255 characters of the line
  have htake : line.take 255 = line.take 254 ++ [line.getD 254 0] := by
    rw [List.take_succ, List.getD_eq_getElem?_getD, List.getElem?_eq_getElem (by omega)]
    rfl
  have hno10 : 10 ∉ line.take 254 := by
    intro h
    have : (10 : Nat) ∈ line.take 255 := by
      rw [htake]
      exact List.mem_append_left _ h
    exact (hclean 10 this).2.1 rfl
  have hpiece := fgets_pieces_long_line line post hlen hno10
  have hpieces : ∃ a, fgets_pieces 256 [] (pre ++ line ++ post) =
      a ++ line.take 255 :: fgets_pieces 256 [] (line.drop 255 ++ post) := by
    rcases hpre with h | ⟨q, h⟩
    · refine ⟨[], ?_⟩
      rw [h, List.nil_append, hpiece]
      rfl
    · refine ⟨fgets_pieces 256 [] (q ++ [10]), ?_⟩
      rw [h, List.append_assoc, List.append_assoc, List.singleton_append,
        fgets_pieces_after_newline, hpiece]
  obtain ⟨a, ha⟩ := hpieces
  -- the piece is neither cut nor trimmed
  have hno0 : 0 ∉ line.take 255 := fun h => (hclean 0 h).1 rfl
  have h10 : 10 ∉ line.take 255 := fun h => (hclean 10 h).2.1 rfl
  have h13 : 13 ∉ line.take 255 := fun h => (hclean 13 h).2.2 rfl
  have htl : (line.take 255).length = 255 := by
    rw [List.length_take]
    omega
  have htrim : ∀ u, trim_line u (c_string (line.take 255)) = line.take 255 := by
    intro u
    rw [c_string_no_nul _ hno0, trim_line_plain u _ h10 h13]
  have hfirst : (line.take 255).getD 0 0 ≠ 0 := by
    intro h0
    apply hno0
    rw [← h0, List.getD_eq_getElem _ _ (by omega)]
    exact List.getElem_mem _
  have hbyte : byte_at (line.take 255) 0 = byte_at line 0 := by
    simp only [byte_at, if_true, List.getD_eq_getElem?_getD]
    rw [List.getElem?_take_of_lt (by omega), List.getElem?_take_of_lt (by omega)]
  have hrej : check_record (line.take 255) = none := by
    cases hc : check_record (line.take 255) with
    | none => rfl
    | some r =>
      exfalso
      apply hfield
      rw [← hbyte]
      exact (check_record_full_piece _ r hc htl).2
  intro hex
  unfold read_lines
  rw [ha, trim_pieces_append, trim_pieces_cons, htrim]
  exact parse_lines_rejected_line _ hfirst hrej _ _ _ _

theorem encode_data_line_length (a : Nat) (d : List Nat) :
    (encode_data_line a d).length = 11 + 2 * d.length := by
  simp only [encode_data_line, hex2, hex4, List.length_cons, List.length_append,
    hex_of_bytes_length, List.length_nil]
  omega

theorem encode_data_line_chars (a : Nat) (d : List Nat) :
    ∀ c ∈ encode_data_line a d, c ≠ 0 ∧ c ≠ 10 ∧ c ≠ 13 := by
  have hhex : ∀ c, is_hex_char c = true → c ≠ 0 ∧ c ≠ 10 ∧ c ≠ 13 := by
    intro c hc
    have := hex_char_cases c hc
    omega
  have hch : ∀ x, hex_char (x % 16) ≠ 0 ∧ hex_char (x % 16) ≠ 10 ∧ hex_char (x % 16) ≠ 13 :=
    fun x => hhex _ (hex_char_is_hex _ (Nat.mod_lt _ (by decide)))
  intro c hc
  simp only [encode_data_line, hex2, hex4, List.mem_cons, List.mem_append, List.mem_singleton,
    List.not_mem_nil, or_false] at hc
  rcases hc with rfl | ((((rfl | rfl) | ((rfl | rfl) | (rfl | rfl))) | (rfl | rfl)) | hc) |
    (rfl | rfl)
  all_goals first
    | exact hch _
    | exact hhex _ (hex_of_bytes_is_hex d _ hc)
    | decide

theorem full_line_is_one_piece (a : Nat) (d : List Nat) (rest : List Nat)
    (hn : d.length = 122) :
    fgets_pieces 256 [] (encode_data_line a d ++ rest) =
      encode_data_line a d :: fgets_pieces 256 [] rest := by
  have hl : (encode_data_line a d).length = 255 := by
    rw [encode_data_line_length, hn]
  have h := fgets_pieces_long_line (encode_data_line a d) rest (by omega) (fun h10 =>
    (encode_data_line_chars a d 10 (List.mem_of_mem_take h10)).2.1 rfl)
  rw [List.take_of_length_le (by omega), List.drop_of_length_le (by omega),
    List.nil_append] at h
  exact h

theorem full_line_trimmed (a : Nat) (d : List Nat) (u : Nat × Nat) :
    trim_line u (c_string (encode_data_line a d)) = encode_data_line a d := by
  rw [c_string_no_nul _ (fun h => (encode_data_line_chars a d 0 h).1 rfl),
    trim_line_plain u _ (fun h => (encode_data_line_chars a d 10 h).2.1 rfl)
      (fun h => (encode_data_line_chars a d 13 h).2.2 rfl)]

theorem full_line_then_eof (a : Nat) (d : List Nat)
    (ha : a < 65536) (hn : d.length = 122) (hd : ∀ b ∈ d, b < 256) :
    parse_lines calloc_file [encode_data_line a d, [], bytes ":00000001FF"] =
      Outcome.ok { calloc_file with
        head := [{ data := d, address := a, length := 122 }],
        num_records := 1, has_eof := 1 } := by
  have hp := encode_data_line_parsed a d calloc_file ha (by omega) hd
  have haddr : ((a + calloc_file.ext_segment_addr * 16) |||
      (calloc_file.ext_linear_addr <<< 16)) % 2 ^ 32 = a := by
    simp only [calloc_file, Nat.zero_mul, Nat.add_zero, Nat.zero_shiftLeft, Nat.or_zero]
    exact Nat.mod_eq_of_lt (by omega)
  rw [haddr, hn] at hp
  have h0 : (encode_data_line a d).getD 0 0 ≠ 0 := by
    simp [encode_data_line]
  have he := parse_record_eof (bytes ":00000001FF")
    { calloc_file with
      head := calloc_file.head ++ [{ data := d, address := a, length := 122 }],
      num_records := calloc_file.num_records + 1 } (by decide)
  rw [parse_lines, if_neg h0, if_neg (by simp [calloc_file]), hp]
  simp only []
  rw [parse_lines, if_pos (by simp), parse_lines, if_neg he.2, if_neg (by simp [calloc_file]),
    he.1]
  simp only [parse_lines]
  rfl

theorem full_line_file_read_crlf (under : Nat → Nat × Nat) (a : Nat) (d : List Nat)
    (hn : d.length = 122) :
    read_lines under (encode_data_line a d ++ bytes "\r\n:00000001FF\r\n") =
      [encode_data_line a d, [], bytes ":00000001FF"] := by
  have hp : fgets_pieces 256 [] (bytes "\r\n:00000001FF\r\n") =
      [[] ++ [13, 10], bytes ":00000001FF" ++ [13, 10]] := by decide
  have h2 : c_string ([] ++ [13, 10]) = [] ++ [13, 10] := by decide
  have h3 := fun u => trimmed_crlf u (bytes ":00000001FF") (by decide) (by decide)
  have h4 : c_string (bytes ":00000001FF") = bytes ":00000001FF" := by decide
  unfold read_lines
  rw [full_line_is_one_piece a d _ hn, hp, trim_pieces_cons, trim_pieces_cons,
    trim_pieces_cons, full_line_trimmed, h2, trim_line_crlf, h3, h4]
  rfl

theorem full_line_file_read_lf (under : Nat → Nat × Nat) (a : Nat) (d : List Nat)
    (hn : d.length = 122) :
    read_lines under (encode_data_line a d ++ bytes "\n:00000001FF\n") =
      [encode_data_line a d,
        if (under 1).2 = 10 ∨ (under 1).2 = 13 then [10] else [],
        bytes ":00000001FF"] := by
  have hp : fgets_pieces 256 [] (bytes "\n:00000001FF\n") =
      [[10], bytes ":00000001FF" ++ [10]] := by decide
  have h2 : c_string [10] = [10] := by decide
  have h3 := fun u => trimmed_lf u (bytes ":00000001FF") (by decide) (by decide) (by decide)
  have h4 : c_string (bytes ":00000001FF") = bytes ":00000001FF" := by decide
  unfold read_lines
  rw [full_line_is_one_piece a d _ hn, hp, trim_pieces_cons, trim_pieces_cons,
    trim_pieces_cons, full_line_trimmed, h2, trim_line_lf_alone, h3, h4]
  rfl

theorem full_line_then_newline (a : Nat) (d : List Nat)
    (ha : a < 65536) (hn : d.length = 122) (hd : ∀ b ∈ d, b < 256) :
    parse_lines calloc_file [encode_data_line a d, [10], bytes ":00000001FF"] =
      Outcome.fail := by
  have hp := encode_data_line_parsed a d calloc_file ha (by omega) hd
  have h0 : (encode_data_line a d).getD 0 0 ≠ 0 := by
    simp [encode_data_line]
  have hrej : ∀ f, parse_record [10] f = Outcome.fail := by
    intro f
    have : check_record [10] = none := by decide
    simp [parse_record, this]
  rw [parse_lines, if_neg h0, if_neg (by simp [calloc_file]), hp]
  simp only []
  rw [parse_lines, if_neg (by simp), if_neg (by simp [calloc_file]), hrej]

/-- C33: `parse_intel_hex_file` reads the input in pieces of at most 255
characters, so: every record of a successfully parsed file has at most 122
payload bytes; a file in which a line that starts at the beginning of a piece
has a length field `L` above 122 and `11 + 2 * L` characters (more than 255)
is never parsed successfully; and the record line of a Data record with
exactly 122 payload bytes (255 characters) is read as one piece and accepted
by `parse_record`, which appends the record.  A file made of that line and
the EOF record is parsed successfully with CR LF terminators; with LF
terminators the piece after the line is the single character LF, and the
file is parsed successfully when the byte below the line buffer is neither
CR nor LF and rejected when it is LF. -/
theorem reader_record_size_limit :
    (∀ (under : Nat → Nat × Nat) (contents : List Nat) (hex : intel_hex_file),
      parse_intel_hex_file under contents = Outcome.ok hex →
      ∀ r ∈ intel_hex_get_first_record hex, r.length ≤ 122 ∧ r.data.length = r.length) ∧
    (∀ (under : Nat → Nat × Nat) (pre line post : List Nat) (L : Nat),
      (pre = [] ∨ ∃ q, pre = q ++ [10]) →
      byte_at line 0 = some L → 122 < L → line.length = 11 + 2 * L →
      (∀ c ∈ line.take 255, c ≠ 0 ∧ c ≠ 10 ∧ c ≠ 13) →
      ∀ hex, parse_intel_hex_file under (pre ++ line ++ post) ≠ Outcome.ok hex) ∧
    (∀ (a : Nat) (d : List Nat), a < 65536 → d.length = 122 → (∀ b ∈ d, b < 256) →
      (encode_data_line a d).length = 255 ∧
      (∀ file, parse_record (encode_data_line a d) file =
        Outcome.ok { file with
          head := file.head ++
            [{ data := d,
               address := ((a + file.ext_segment_addr * 16) |||
                           (file.ext_linear_addr <<< 16)) % 2 ^ 32,
               length := 122 }],
          num_records := file.num_records + 1 }) ∧
      (∀ rest, fgets_pieces 256 [] (encode_data_line a d ++ rest) =
        encode_data_line a d :: fgets_pieces 256 [] rest) ∧
      (∀ under, parse_intel_hex_file under
          (encode_data_line a d ++ bytes "\r\n:00000001FF\r\n") =
        Outcome.ok { calloc_file with
          head := [{ data := d, address := a, length := 122 }],
          num_records := 1, has_eof := 1 }) ∧
      (∀ under : Nat → Nat × Nat, (under 1).2 ≠ 10 → (under 1).2 ≠ 13 →
        parse_intel_hex_file under (encode_data_line a d ++ bytes "\n:00000001FF\n") =
          Outcome.ok { calloc_file with
            head := [{ data := d, address := a, length := 122 }],
            num_records := 1, has_eof := 1 }) ∧
      (∀ under : Nat → Nat × Nat, (under 1).2 = 10 →
        parse_intel_hex_file under (encode_data_line a d ++ bytes "\n:00000001FF\n") =
          Outcome.fail)) := by
  refine ⟨?_, ?_, ?_⟩
  · intro under contents hex hparse r hr
    have := (parsed_file_records under contents hex hparse).2 r hr
    exact ⟨this.2.1, this.1⟩
  · intro under pre line post L hpre hL hgt hlen hclean
    exact long_line_not_parsed under pre line post hpre (by omega) hclean (by
      rw [hL]
      intro h
      have := Option.some.inj h
      omega)
  · intro a d ha hn hd
    refine ⟨by rw [encode_data_line_length, hn], ?_, ?_, ?_, ?_, ?_⟩
    · intro file
      have := encode_data_line_parsed a d file ha (by omega) hd
      rw [hn] at this
      exact this
    · intro rest
      exact full_line_is_one_piece a d rest hn
    · intro under
      rw [parse_file_of_lines under _ _ (full_line_file_read_crlf under a d hn),
        full_line_then_eof a d ha hn hd]
      rfl
    · intro under h10 h13
      have hr := full_line_file_read_lf under a d hn
      rw [if_neg (by
        rintro (h | h)
        · exact h10 h
        · exact h13 h)] at hr
      rw [parse_file_of_lines under _ _ hr, full_line_then_eof a d ha hn hd]
      rfl
    · intro under h10
      have hr := full_line_file_read_lf under a d hn
      rw [if_pos (Or.inl h10)] at hr
      rw [parse_file_of_lines under _ _ hr, full_line_then_newline a d ha hn hd]

theorem reader_record_size_limit_witness :
    (encode_data_line 0x0800 (List.replicate 122 0xAB)).length = 255 ∧
    parse_intel_hex_file (fun _ => (0, 0))
        (encode_data_line 0x0800 (List.replicate 122 0xAB) ++ bytes "\r\n:00000001FF\r\n") =
      Outcome.ok { calloc_file with
        head := [{ data := List.replicate 122 0xAB, address := 0x0800, length := 122 }],
        num_records := 1, has_eof := 1 } :=
  have h := reader_record_size_limit.2.2 0x0800 (List.replicate 122 0xAB) (by decide)
    (by simp) (fun b hb => by rw [List.eq_of_mem_replicate hb]; decide)
  ⟨h.1, h.2.2.2.1 (fun _ => (0, 0))⟩

end RN2483
